import Mathlib

/-!
# ConfigSynchronizer

A shallow embedding of `TCPtest/ConfigSynchronizer.cpp`: the shared configuration
store (`g_config_data`), the frame codec (`serialize_config`,
`update_config_from_string`) and the per-connection handler
(`handle_client_connection`), followed by theorems about them.

Modelling conventions.

* A `std::string` is a `List Char`; `std::string::npos` is `none`.
* A `std::map<std::string, T>` is an association list kept in strictly ascending
  key order (`SMap.Sorted`), which is the order its iterators visit.
* The mutex serialises the operations that take it, so each of them is a
  function from the store to the store. For what another thread can see while
  `update_config_from_string` runs, the two threads are step machines over a
  `World` holding `g_config_data` and the owner of `g_config_mutex`.
* Console output is not modelled; `update_config_from_string` returns its
  `updates_count` next to the new store.
* A connected socket is a `Conn`: the events successive `recv` calls will meet,
  the fate of successive `send` calls, and what has been written so far.
* `g_shutdown_flag` is an oracle `shutdown : Nat → Bool` giving the value of the
  `i`-th load of the flag during the connection.
* `size_t` is `sizeBits` wide, `unsigned long long` is 64 bits wide. Lengths of
  strings and the `int` counter `updates_count` are natural numbers: a string of
  2^31 lines or more is not considered.
* The three loops of the handler take a fuel argument; the fuel their callers
  give is shown to suffice (`handle_client_connection_exits`, `sendLoop_fuel`).
-/

namespace ConfigSynchronizer

/-- A `std::string`. -/
abbrev Str := List Char

/-- The comparison `std::less<std::string>` used by `std::map`: lexicographic on
character codes, a proper prefix being smaller. -/
def strLt : Str → Str → Bool
  | [], [] => false
  | [], _ :: _ => true
  | _ :: _, [] => false
  | a :: as, b :: bs =>
    if a.toNat < b.toNat then true
    else if b.toNat < a.toNat then false
    else strLt as bs

/-- A `std::map<std::string, β>`, listed in iteration order. -/
abbrev SMap (β : Type) := List (Str × β)

/-- The class invariant of `std::map`: keys strictly ascending. -/
def SMap.Sorted {β : Type} (m : SMap β) : Prop :=
  List.Pairwise (fun a b => strLt a.1 b.1 = true) m

/-- The result of `std::map::find`: the mapped value, or `none` for `end()`. -/
def SMap.find {β : Type} : SMap β → Str → Option β
  | [], _ => none
  | (k1, v1) :: r, k => if k1 = k then some v1 else SMap.find r k

/-- The map after `m[k] = v`: the value of an existing key is overwritten, a new
key is inserted at its place in the order. -/
def SMap.assign {β : Type} : SMap β → Str → β → SMap β
  | [], k, v => [(k, v)]
  | (k1, v1) :: r, k, v =>
    if strLt k k1 then (k, v) :: (k1, v1) :: r
    else if k1 = k then (k, v) :: r
    else (k1, v1) :: SMap.assign r k v

/-- The type of `g_config_data`. -/
abbrev ConfigData := SMap (SMap Str)

/-- The invariant of `g_config_data` as a map of maps. -/
def ConfigData.WF (st : ConfigData) : Prop :=
  SMap.Sorted st ∧ ∀ p ∈ st, SMap.Sorted p.2

/-- The `(section, key, value)` triples of the store, in iteration order. -/
def ConfigData.triples (st : ConfigData) : List (Str × Str × Str) :=
  st.flatMap (fun sp => sp.2.map (fun kv => (sp.1, kv.1, kv.2)))

/-- Embedding of `get_config_value(section, key, default_value)`. -/
def get_config_value (st : ConfigData) (section_ key default_value : Str) : Str :=
  match st.find section_ with
  | none => default_value
  | some sec =>
    match sec.find key with
    | none => default_value
    | some v => v

/-- Embedding of `set_config_value`: `g_config_data[section][key] = value`. The outer `[]`
yields the section's map, empty when the section was absent. -/
def set_config_value (st : ConfigData) (section_ key value : Str) : ConfigData :=
  st.assign section_ (((st.find section_).getD []).assign key value)

/-- One line `[SECTION]KEY=VALUE\n` as `serialize_config` streams it. -/
def entryLine (section_ key value : Str) : Str :=
  ['['] ++ section_ ++ [']'] ++ key ++ ['='] ++ value ++ ['\n']

/-- The `content` string built by the two nested loops of `serialize_config`. -/
def serialize_content (st : ConfigData) : Str :=
  st.flatMap (fun section_pair =>
    section_pair.2.flatMap (fun key_value_pair =>
      entryLine section_pair.1 key_value_pair.1 key_value_pair.2))

/-- Embedding of `serialize_config`: `content.length()` in decimal, a newline, `content`. -/
def serialize_config (st : ConfigData) : Str :=
  let content := serialize_content st
  Nat.toDigits 10 content.length ++ ['\n'] ++ content

/-- The lines that successive `std::getline(ss, line)` calls return until the
call fails; `acc` is the line being extracted. A final line without a newline is
returned when it is non-empty. -/
def getlinesAux : Str → Str → List Str
  | [], acc => if acc = [] then [] else [acc]
  | c :: cs, acc => if c = '\n' then acc :: getlinesAux cs [] else getlinesAux cs (acc ++ [c])

/-- The lines `std::getline` reads from a stream over `data`. -/
def getlines (data : Str) : List Str := getlinesAux data []

/-- Scan for `c`, `i` being the index of the head of the list. -/
def findIdx (c : Char) : Str → Nat → Option Nat
  | [], _ => none
  | x :: xs, i => if x = c then some i else findIdx c xs (i + 1)

/-- Embedding of `s.find(c, pos)`: the first index at or after `pos` holding `c`. -/
def find (s : Str) (c : Char) (pos : Nat) : Option Nat :=
  findIdx c (s.drop pos) pos

/-- Embedding of `s.substr(pos, n)` for `pos <= s.size()`. -/
def substr (s : Str) (pos n : Nat) : Str := (s.drop pos).take n

/-- Embedding of `s.substr(pos)` for `pos <= s.size()`. -/
def substrFrom (s : Str) (pos : Nat) : Str := s.drop pos

/-- Membership in the set `" \n\r\t"`. -/
def isTrimChar (c : Char) : Bool :=
  c = ' ' || c = '\n' || c = '\r' || c = '\t'

/-- Scan for the last index not in `" \n\r\t"`; `i` is the index of the head and
`last` the best index seen so far. -/
def findLastNotOfAux : Str → Nat → Option Nat → Option Nat
  | [], _, last => last
  | x :: xs, i, last =>
    findLastNotOfAux xs (i + 1) (if isTrimChar x then last else some i)

/-- Embedding of `s.find_last_not_of(" \n\r\t")`. -/
def find_last_not_of (s : Str) : Option Nat := findLastNotOfAux s 0 none

/-- Embedding of `value.erase(value.find_last_not_of(" \n\r\t") + 1)`: with `npos` the sum
wraps to `0` and the whole string is erased. -/
def eraseTrailing (value : Str) : Str :=
  match find_last_not_of value with
  | none => value.take 0
  | some i => value.take (i + 1)

/-- The parsing part of the loop body of `update_config_from_string`: the entry
a line carries, or `none` when the line is skipped. -/
def parseLine (line : Str) : Option (Str × Str × Str) :=
  match line with
  | [] => none
  | c0 :: _ =>
    if c0 ≠ '[' then none
    else
      match find line ']' 0 with
      | none => none
      | some section_end =>
        match find line '=' section_end with
        | none => none
        | some equals_pos =>
          let section_ := substr line 1 (section_end - 1)
          let key := substr line (section_end + 1) (equals_pos - (section_end + 1))
          let value := eraseTrailing (substrFrom line (equals_pos + 1))
          some (section_, key, value)

/-- The applying part of the loop body: the store is written, and the update
counted, only when the value differs from `get_config_value(section, key)`. -/
def applyEntry (acc : ConfigData × Nat) (e : Str × Str × Str) : ConfigData × Nat :=
  let old_value := get_config_value acc.1 e.1 e.2.1 []
  if old_value ≠ e.2.2 then (set_config_value acc.1 e.1 e.2.1 e.2.2, acc.2 + 1)
  else acc

/-- One iteration of the `while (std::getline(ss, line))` loop. -/
def processLine (acc : ConfigData × Nat) (line : Str) : ConfigData × Nat :=
  match parseLine line with
  | none => acc
  | some e => applyEntry acc e

/-- Embedding of `update_config_from_string(data)`: the store afterwards and `updates_count`. -/
def update_config_from_string (st : ConfigData) (data : Str) : ConfigData × Nat :=
  (getlines data).foldl processLine (st, 0)

/-! ## Sockets -/

/-- What one `recv` call meets on the connection. When the list of events is
used up the peer has closed the connection and `recv` returns `0`. -/
inductive RecvEvent where
  /-- Bytes are available; `recv` returns at most that many. -/
  | data (bytes : Str)
  /-- The call fails (an error, or the receive timeout): `recv` returns `-1`. -/
  | failure
  deriving DecidableEq, Repr

/-- The fate of one `send` call. When the list is used up every `send` accepts
all it is given. -/
inductive SendEvent where
  /-- At most `n` bytes are accepted. -/
  | accept (n : Nat)
  /-- The call returns `-1` with `EAGAIN`/`EWOULDBLOCK`. -/
  | wouldBlock
  /-- The call returns `-1` with another error. -/
  | failure
  deriving DecidableEq, Repr

/-- The state of the client socket during `handle_client_connection`. -/
structure Conn where
  /-- Events the coming `recv` calls will meet. -/
  incoming : List RecvEvent
  /-- Fates of the coming `send` calls. -/
  sendPlan : List SendEvent
  /-- Bytes written to the peer so far. -/
  sent : Str
  /-- Number of `recv` calls made. -/
  recvCalls : Nat
  /-- Number of loads of `g_shutdown_flag` made. -/
  loads : Nat
  /-- Whether `close(client_sock)` has been called. -/
  closed : Bool
  deriving DecidableEq, Repr

/-- Embedding of `recv(sock, buf, len, 0)`: the return value, the bytes stored in the buffer
and the socket afterwards. -/
def recv (c : Conn) (len : Nat) : Int × Str × Conn :=
  match c.incoming with
  | [] => (0, [], { c with recvCalls := c.recvCalls + 1 })
  | RecvEvent.failure :: rest =>
    (-1, [], { c with incoming := rest, recvCalls := c.recvCalls + 1 })
  | RecvEvent.data bytes :: rest =>
    if bytes.length ≤ len then
      ((bytes.length : Int), bytes, { c with incoming := rest, recvCalls := c.recvCalls + 1 })
    else
      ((len : Int), bytes.take len,
        { c with incoming := RecvEvent.data (bytes.drop len) :: rest,
                 recvCalls := c.recvCalls + 1 })

/-- Embedding of `g_shutdown_flag.load()`. -/
def loadFlag (shutdown : Nat → Bool) (c : Conn) : Bool × Conn :=
  (shutdown c.loads, { c with loads := c.loads + 1 })

/-- Embedding of `close(sock)`. -/
def close (c : Conn) : Conn := { c with closed := true }

/-- The result of `send(sock, data, len, 0)`. -/
inductive SendReturn where
  /-- That many bytes were accepted. -/
  | sentBytes (n : Nat)
  /-- The value `-1` with `errno` one of `EAGAIN`, `EWOULDBLOCK`. -/
  | again
  /-- The value `-1` with another `errno`. -/
  | error
  deriving DecidableEq, Repr

/-- Embedding of `send(sock, data, data.length, 0)`. -/
def send (c : Conn) (data : Str) : SendReturn × Conn :=
  match c.sendPlan with
  | [] => (SendReturn.sentBytes data.length, { c with sent := c.sent ++ data })
  | SendEvent.accept n :: rest =>
    (SendReturn.sentBytes (min n data.length),
      { c with sendPlan := rest, sent := c.sent ++ data.take (min n data.length) })
  | SendEvent.wouldBlock :: rest => (SendReturn.again, { c with sendPlan := rest })
  | SendEvent.failure :: rest => (SendReturn.error, { c with sendPlan := rest })

/-! ## `std::stoull` -/

/-- The exceptions `std::stoull` throws. -/
inductive StoullError where
  /-- No conversion could be performed. -/
  | invalid_argument
  /-- The value is out of the range of `unsigned long long`. -/
  | out_of_range
  deriving DecidableEq, Repr

instance : DecidableEq (Except StoullError Nat) := fun a b =>
  match a, b with
  | Except.ok x, Except.ok y =>
    if h : x = y then isTrue (by rw [h]) else isFalse (fun h2 => h (Except.ok.inj h2))
  | Except.error x, Except.error y =>
    if h : x = y then isTrue (by rw [h]) else isFalse (fun h2 => h (Except.error.inj h2))
  | Except.ok _, Except.error _ => isFalse (fun h => by cases h)
  | Except.error _, Except.ok _ => isFalse (fun h => by cases h)

/-- Embedding of `isspace` in the C locale: space, `\t`, `\n`, `\v`, `\f`, `\r`. -/
def isspace (c : Char) : Bool :=
  c = ' ' || (9 ≤ c.toNat && c.toNat ≤ 13)

/-- Embedding of `isdigit`. -/
def isdigit (c : Char) : Bool :=
  48 ≤ c.toNat && c.toNat ≤ 57

/-- The value of a run of decimal digits. -/
def digitsValue (ds : Str) : Nat :=
  ds.foldl (fun acc d => 10 * acc + (d.toNat - 48)) 0

/-- Embedding of `ULLONG_MAX`. -/
def ULLONG_MAX : Nat := 2 ^ 64 - 1

/-- Embedding of `std::stoull(s)` (base 10), which is `strtoull`: leading white space is
skipped, one sign is accepted, the longest run of digits is converted and what
follows it is ignored. No digit gives `invalid_argument`, a magnitude above
`ULLONG_MAX` gives `out_of_range`, and a minus sign negates the magnitude in
`unsigned long long`. -/
def stoull (s : Str) : Except StoullError Nat :=
  let s1 := s.dropWhile isspace
  let negative := s1.head? = some '-'
  let s2 := if s1.head? = some '-' ∨ s1.head? = some '+' then s1.drop 1 else s1
  let ds := s2.takeWhile isdigit
  if ds = [] then Except.error StoullError.invalid_argument
  else if digitsValue ds > ULLONG_MAX then Except.error StoullError.out_of_range
  else if negative then Except.ok ((2 ^ 64 - digitsValue ds) % 2 ^ 64)
  else Except.ok (digitsValue ds)

/-! ## The connection handler -/

/-- The bound `MAX_HEADER_LENGTH` of `handle_client_connection`. -/
def MAX_HEADER_LENGTH : Nat := 20

/-- The bound `MAX_MESSAGE_SIZE` of `handle_client_connection`. -/
def MAX_MESSAGE_SIZE : Nat := 1024 * 1024

/-- The size of `buffer` in `handle_client_connection`. -/
def BUFFER_SIZE : Nat := 4096

/-- The loop of `send_config_on_existing_socket`, `fuel` bounding its
iterations; the result is the socket when the function returns. -/
def sendLoop (shutdown : Nat → Bool) (config_str : Str) : Nat → Conn → Nat → Conn
  | 0, c, _ => c
  | fuel + 1, c, total_sent =>
    if total_sent < config_str.length then
      let c1 := (loadFlag shutdown c).2
      if !(loadFlag shutdown c).1 then
        match send c1 (config_str.drop total_sent) with
        | (SendReturn.sentBytes n, c2) => sendLoop shutdown config_str fuel c2 (total_sent + n)
        | (SendReturn.again, c2) => sendLoop shutdown config_str fuel c2 total_sent
        | (SendReturn.error, c2) => c2
      else (loadFlag shutdown c1).2
    else (loadFlag shutdown c).2

/-- Embedding of `send_config_on_existing_socket(sock)`. Each iteration of its loop uses up
one entry of the send plan, or finishes the transfer when the plan is used up,
so the fuel given is never exhausted. -/
def send_config_on_existing_socket (shutdown : Nat → Bool) (st : ConfigData) (c : Conn) : Conn :=
  sendLoop shutdown (serialize_config st) (c.sendPlan.length + 2) c 0

/-- How the header loop of `handle_client_connection` ends. -/
inductive HeaderRead where
  /-- The `return` inside the loop: more than `MAX_HEADER_LENGTH` characters. -/
  | tooLong (c : Conn)
  /-- The loop was left, by `break` or by its condition. -/
  | left (header : Str) (c : Conn)
  /-- The model ran out of fuel. -/
  | outOfFuel
  deriving DecidableEq, Repr

/-- The header loop of `handle_client_connection`. -/
def readHeaderLoop (shutdown : Nat → Bool) : Nat → Conn → Str → Nat → HeaderRead
  | 0, _, _, _ => HeaderRead.outOfFuel
  | fuel + 1, c, header, header_read_count =>
    let r := recv c 1
    if r.1 > 0 then
      let c1 := (loadFlag shutdown r.2.2).2
      if !(loadFlag shutdown r.2.2).1 then
        let ch := r.2.1.headD (Char.ofNat 0)
        if ch = '\n' then HeaderRead.left header c1
        else if header_read_count + 1 > MAX_HEADER_LENGTH then HeaderRead.tooLong c1
        else readHeaderLoop shutdown fuel c1 (header ++ [ch]) (header_read_count + 1)
      else HeaderRead.left header c1
    else HeaderRead.left header r.2.2

/-- How the body loop of `handle_client_connection` ends. -/
inductive BodyRead where
  /-- The `return` inside the loop: `recv` returned `0` or `-1`. -/
  | failed (c : Conn)
  /-- The loop was left by its condition. -/
  | left (received_data : Str) (c : Conn)
  /-- The model ran out of fuel. -/
  | outOfFuel
  deriving DecidableEq, Repr

/-- The body loop of `handle_client_connection`. -/
def recvBodyLoop (shutdown : Nat → Bool) (expected_length : Nat) :
    Nat → Conn → Str → Nat → BodyRead
  | 0, _, _, _ => BodyRead.outOfFuel
  | fuel + 1, c, received_data, total_received =>
    if total_received < expected_length then
      let c1 := (loadFlag shutdown c).2
      if !(loadFlag shutdown c).1 then
        let to_read := min BUFFER_SIZE (expected_length - total_received)
        let r := recv c1 to_read
        if r.1 ≤ 0 then BodyRead.failed r.2.2
        else
          recvBodyLoop shutdown expected_length fuel r.2.2 (received_data ++ r.2.1)
            (total_received + r.1.toNat)
      else BodyRead.left received_data c1
    else BodyRead.left received_data c

/-- The exit path `handle_client_connection` takes. -/
inductive Outcome where
  /-- The header exceeded `MAX_HEADER_LENGTH` characters. -/
  | headerTooLong
  /-- The header was empty, or the shutdown flag was set after the header loop. -/
  | noHeader
  /-- `std::stoull` threw and the exception was caught. -/
  | exception (e : StoullError)
  /-- Length `0`: the configuration was sent back. -/
  | pullReply
  /-- The length exceeded `MAX_MESSAGE_SIZE`. -/
  | oversized
  /-- A `recv` of the body returned `0` or `-1`. -/
  | bodyReadFailed
  /-- The shutdown flag was set after the body loop. -/
  | cancelled
  /-- The body was handed to `update_config_from_string`. -/
  | applied
  /-- The model ran out of fuel. -/
  | outOfFuel
  deriving DecidableEq, Repr

/-- What `handle_client_connection` leaves behind. -/
structure Result where
  /-- The store `g_config_data` afterwards. -/
  store : ConfigData
  /-- The `updates_count` reported, `0` when nothing was applied. -/
  updates : Nat
  /-- The socket afterwards. -/
  conn : Conn
  /-- The exit path taken. -/
  outcome : Outcome
  deriving DecidableEq, Repr

/-- Embedding of `handle_client_connection(client_sock)`. The header loop runs at most
`MAX_HEADER_LENGTH + 1` times and the body loop at most `expected_length` times,
so the fuel given is never exhausted. -/
def handle_client_connection (sizeBits : Nat) (shutdown : Nat → Bool) (st : ConfigData)
    (c : Conn) : Result :=
  match readHeaderLoop shutdown (MAX_HEADER_LENGTH + 2) c [] 0 with
  | HeaderRead.outOfFuel => ⟨st, 0, c, Outcome.outOfFuel⟩
  | HeaderRead.tooLong c1 => ⟨st, 0, close c1, Outcome.headerTooLong⟩
  | HeaderRead.left header c1 =>
    if header = [] then ⟨st, 0, close c1, Outcome.noHeader⟩
    else if (loadFlag shutdown c1).1 then ⟨st, 0, close (loadFlag shutdown c1).2, Outcome.noHeader⟩
    else
      let c2 := (loadFlag shutdown c1).2
      match stoull header with
      | Except.error e => ⟨st, 0, close c2, Outcome.exception e⟩
      | Except.ok v =>
        let expected_length := v % 2 ^ sizeBits
        if expected_length = 0 then
          ⟨st, 0, close (send_config_on_existing_socket shutdown st c2), Outcome.pullReply⟩
        else if expected_length > MAX_MESSAGE_SIZE then ⟨st, 0, close c2, Outcome.oversized⟩
        else
          match recvBodyLoop shutdown expected_length (expected_length + 1) c2 [] 0 with
          | BodyRead.outOfFuel => ⟨st, 0, c2, Outcome.outOfFuel⟩
          | BodyRead.failed c3 => ⟨st, 0, close c3, Outcome.bodyReadFailed⟩
          | BodyRead.left received_data c3 =>
            if !(loadFlag shutdown c3).1 then
              ⟨(update_config_from_string st received_data).1,
                (update_config_from_string st received_data).2,
                close (loadFlag shutdown c3).2, Outcome.applied⟩
            else ⟨st, 0, close (loadFlag shutdown c3).2, Outcome.cancelled⟩

/-! ## Notions used to state the properties -/

/-- The iteration order of the store on its entries: by section, then by key. -/
def tripleLt (a b : Str × Str × Str) : Prop :=
  strLt a.1 b.1 = true ∨ (a.1 = b.1 ∧ strLt a.2.1 b.2.1 = true)

/-- The store `{"NETWORK": {"PORT": "9000"}}`. -/
def networkPortStore : ConfigData :=
  [("NETWORK".toList, [("PORT".toList, "9000".toList)])]

/-- The value stored under `section_`/`key`, `none` when the section or the key
is absent from the store. -/
def ConfigData.lookup (st : ConfigData) (section_ key : Str) : Option Str :=
  (st.find section_).bind (fun sec => sec.find key)

/-- The entries `update_config_from_string` finds in `data`, in order: the lines
its parser does not skip. -/
def decodeEntries (data : Str) : List (Str × Str × Str) :=
  (getlines data).filterMap parseLine

/-- Applying a list of entries in order, counting the updates. -/
def applyEntries (st : ConfigData) (es : List (Str × Str × Str)) : ConfigData × Nat :=
  es.foldl applyEntry (st, 0)

/-- An entry the line format can carry and `update_config_from_string` stores
back unchanged: no `]` or newline in the section, no `=` or newline in the key,
and a non-empty value without newline whose last character is none of
`" \n\r\t"`. -/
def Encodable (t : Str × Str × Str) : Prop :=
  ']' ∉ t.1 ∧ '\n' ∉ t.1 ∧ '=' ∉ t.2.1 ∧ '\n' ∉ t.2.1 ∧ '\n' ∉ t.2.2 ∧
    ∃ init last, t.2.2 = init ++ [last] ∧ isTrimChar last = false

/-- The store `{"A": {"K": "v "}}`, whose value ends in a space. -/
def trailingSpaceStore : ConfigData :=
  [("A".toList, [("K".toList, "v ".toList)])]

/-- No two entries of the list give the same section and key different values. -/
def ConsistentEntries (es : List (Str × Str × Str)) : Prop :=
  ∀ a ∈ es, ∀ b ∈ es, a.1 = b.1 → a.2.1 = b.2.1 → a.2.2 = b.2.2

/-- A body that sets the key `K` of section `S` first to `a`, then to `b`. -/
def twoValuesBody : Str := "[S]K=a\n[S]K=b\n".toList

/-- The sections and keys present in `a` are those present in `ref`. -/
def SamePresence (a ref : ConfigData) : Prop :=
  (∀ s, (a.find s).isSome = (ref.find s).isSome) ∧
    ∀ s k, (a.lookup s k).isSome = (ref.lookup s k).isSome

/-- The bytes a connection delivers before it closes, a read fails or a read
returns nothing: the concatenation of the leading non-empty data fragments. -/
def delivered : List RecvEvent → Str
  | [] => []
  | RecvEvent.failure :: _ => []
  | RecvEvent.data [] :: _ => []
  | RecvEvent.data (b :: bs) :: rest => (b :: bs) ++ delivered rest

/-- The events that follow the end of the delivered bytes. -/
def afterDelivered : List RecvEvent → List RecvEvent
  | [] => []
  | RecvEvent.failure :: rest => rest
  | RecvEvent.data [] :: rest => rest
  | RecvEvent.data (_ :: _) :: rest => afterDelivered rest

/-- The shutdown flag is only ever set, never cleared. -/
def MonotoneFlag (shutdown : Nat → Bool) : Prop :=
  ∀ i j, i ≤ j → shutdown i = true → shutdown j = true

/-- A socket about to deliver the given fragments and then to be closed by the
peer, every `send` accepting all it is given. -/
def connOf (fragments : List Str) : Conn :=
  { incoming := fragments.map RecvEvent.data, sendPlan := [], sent := [],
    recvCalls := 0, loads := 0, closed := false }

/-- The shutdown flag never set. -/
def neverShutdown : Nat → Bool := fun _ => false

/-- From `c` to `c1` nothing was written and the socket was not closed. -/
def Conn.sameWrites (c c1 : Conn) : Prop :=
  c1.sendPlan = c.sendPlan ∧ c1.sent = c.sent ∧ c1.closed = c.closed

/-- Two sockets about to deliver the same bytes, fragmented in whatever way, and
the same events after them. -/
def SameStream (c c2 : Conn) : Prop :=
  delivered c.incoming = delivered c2.incoming ∧
    afterDelivered c.incoming = afterDelivered c2.incoming

/-- Two runs of the header loop that ended the same way: by the same exit, with
the same header, on sockets that still deliver the same bytes. -/
def HeaderRead.sameAs : HeaderRead → HeaderRead → Prop
  | HeaderRead.outOfFuel, HeaderRead.outOfFuel => True
  | HeaderRead.tooLong _, HeaderRead.tooLong _ => True
  | HeaderRead.left h c, HeaderRead.left h2 c2 => h = h2 ∧ SameStream c c2
  | _, _ => False

/-- The frame `19\n[NETWORK]PORT=9100\n`. -/
def port9100Frame : Str := "19\n[NETWORK]PORT=9100\n".toList

/-- The store with the single entry `section_`/`key` = `value`. -/
def singleEntryStore (section_ key value : Str) : ConfigData :=
  [(section_, [(key, value)])]

/-- Whether the frame of the single-entry store, applied to the empty store,
gives back the single-entry store. -/
def singleEntryRoundTrips (section_ key value : Str) : Bool :=
  decide ((update_config_from_string [] (serialize_config (singleEntryStore section_ key value))).1 =
    singleEntryStore section_ key value)

/-- A line as the leniency rule describes it: empty, or not starting with `[`,
or containing no `]`, or containing no `=` after its first `]`. -/
def malformedLine (l : Str) : Bool :=
  decide (l = [] ∨ l.head? ≠ some '[' ∨ ']' ∉ l ∨
    '=' ∉ (l.dropWhile (fun c => decide (c ≠ ']'))).drop 1)

/-- The body with every malformed line removed, the lines kept being written
back each with its newline. -/
def removeMalformedLines (data : Str) : Str :=
  ((getlines data).filter (fun l => !malformedLine l)).flatMap (fun l => l ++ ['\n'])

/-- A body whose second and third lines are malformed. -/
def lenientBody : Str := "[A]K=1\nnoise\n[B=2\n[B]K=2\n".toList

/-- A body carrying two entries, for two different sections. -/
def twoEntriesBody : Str := "[A]K=1\n[B]K=2\n".toList

/-- The store in which only the first entry of `twoEntriesBody` is applied. -/
def firstEntryOnlyStore : ConfigData := [("A".toList, [("K".toList, "1".toList)])]

/-! ## Two threads and `g_config_mutex`

The listener thread runs `update_config_from_string`; the other thread calls
`get_config_value` or `serialize_config`. Each function is cut into steps at the
construction and the destruction of its `std::lock_guard`: constructing it
takes `g_config_mutex` and cannot be done while the other thread holds it,
destroying it gives the mutex back. `update_config_from_string` constructs no
`lock_guard` of its own; it calls `get_config_value` and `set_config_value`,
which do. -/

/-- The two threads. -/
inductive Tid where
  /-- The thread running `update_config_from_string`. -/
  | updater
  /-- The thread calling `get_config_value` or `serialize_config`. -/
  | reader
  deriving DecidableEq, Repr

/-- The call the reader thread makes. -/
inductive ReaderOp where
  /-- A call `get_config_value(section, key, default_value)`. -/
  | get (section_ key default_value : Str)
  /-- A call `serialize_config()`. -/
  | serialize
  deriving DecidableEq, Repr

/-- Where the reader thread stands in its call. -/
inductive ReaderPc where
  /-- About to construct the `lock_guard`, the first statement of the function. -/
  | lockGuard
  /-- Holding the mutex, about to run the statements after the `lock_guard`. -/
  | body
  /-- The return value is computed, the `lock_guard` is about to be destroyed. -/
  | unlock (result : Str)
  /-- The call has returned. -/
  | returned (result : Str)
  deriving DecidableEq, Repr

/-- Where the updater thread stands in `update_config_from_string`. -/
inductive UpdaterPc where
  /-- At `while (std::getline(ss, line))`. -/
  | loopHead
  /-- In `get_config_value(section, key)`, about to construct the `lock_guard`. -/
  | getLockGuard (e : Str × Str × Str)
  /-- In `get_config_value`, holding the mutex, about to look the value up. -/
  | getBody (e : Str × Str × Str)
  /-- In `get_config_value`, the `lock_guard` about to be destroyed. -/
  | getUnlock (e : Str × Str × Str) (old_value : Str)
  /-- At `if (old_value != value)`. -/
  | compare (e : Str × Str × Str) (old_value : Str)
  /-- In `set_config_value(section, key, value)`, about to construct the
  `lock_guard`. -/
  | setLockGuard (e : Str × Str × Str)
  /-- In `set_config_value`, holding the mutex, about to assign. -/
  | setBody (e : Str × Str × Str)
  /-- In `set_config_value`, the `lock_guard` about to be destroyed. -/
  | setUnlock (e : Str × Str × Str)
  /-- After the loop. -/
  | finished
  deriving DecidableEq, Repr

/-- The shared variables and the state of the two threads. -/
structure World where
  /-- The store `g_config_data`. -/
  g_config_data : ConfigData
  /-- The thread holding `g_config_mutex`, if any. -/
  g_config_mutex : Option Tid
  /-- The lines `std::getline` has yet to return to the updater. -/
  lines : List Str
  /-- The local `updates_count` of the updater. -/
  updates_count : Nat
  /-- Where the updater stands. -/
  updaterPc : UpdaterPc
  /-- Where the reader stands. -/
  readerPc : ReaderPc
  deriving DecidableEq, Repr

/-- One step of the thread running `update_config_from_string`; `none` when it
cannot move: it waits for the mutex, or it has finished. -/
def stepUpdater (w : World) : Option World :=
  match w.updaterPc with
  | UpdaterPc.loopHead =>
    match w.lines with
    | [] => some { w with updaterPc := UpdaterPc.finished }
    | line :: rest =>
      match parseLine line with
      | none => some { w with lines := rest }
      | some e => some { w with lines := rest, updaterPc := UpdaterPc.getLockGuard e }
  | UpdaterPc.getLockGuard e =>
    match w.g_config_mutex with
    | none => some { w with g_config_mutex := some Tid.updater, updaterPc := UpdaterPc.getBody e }
    | some _ => none
  | UpdaterPc.getBody e =>
    some { w with
      updaterPc := UpdaterPc.getUnlock e (get_config_value w.g_config_data e.1 e.2.1 []) }
  | UpdaterPc.getUnlock e old_value =>
    some { w with g_config_mutex := none, updaterPc := UpdaterPc.compare e old_value }
  | UpdaterPc.compare e old_value =>
    if old_value ≠ e.2.2 then some { w with updaterPc := UpdaterPc.setLockGuard e }
    else some { w with updaterPc := UpdaterPc.loopHead }
  | UpdaterPc.setLockGuard e =>
    match w.g_config_mutex with
    | none => some { w with g_config_mutex := some Tid.updater, updaterPc := UpdaterPc.setBody e }
    | some _ => none
  | UpdaterPc.setBody e =>
    some { w with
      g_config_data := set_config_value w.g_config_data e.1 e.2.1 e.2.2,
      updaterPc := UpdaterPc.setUnlock e }
  | UpdaterPc.setUnlock _ =>
    some { w with
      g_config_mutex := none, updates_count := w.updates_count + 1,
      updaterPc := UpdaterPc.loopHead }
  | UpdaterPc.finished => none

/-- What the reader's call computes while it holds the mutex. -/
def readerResult (op : ReaderOp) (st : ConfigData) : Str :=
  match op with
  | ReaderOp.get section_ key default_value => get_config_value st section_ key default_value
  | ReaderOp.serialize => serialize_config st

/-- One step of the reader thread; `none` when it cannot move: it waits for the
mutex, or its call has returned. -/
def stepReader (op : ReaderOp) (w : World) : Option World :=
  match w.readerPc with
  | ReaderPc.lockGuard =>
    match w.g_config_mutex with
    | none => some { w with g_config_mutex := some Tid.reader, readerPc := ReaderPc.body }
    | some _ => none
  | ReaderPc.body =>
    some { w with readerPc := ReaderPc.unlock (readerResult op w.g_config_data) }
  | ReaderPc.unlock result =>
    some { w with g_config_mutex := none, readerPc := ReaderPc.returned result }
  | ReaderPc.returned _ => none

/-- One step of the given thread. -/
def step (op : ReaderOp) (t : Tid) (w : World) : Option World :=
  match t with
  | Tid.updater => stepUpdater w
  | Tid.reader => stepReader op w

/-- The world after the threads were scheduled in the given order; a thread
scheduled while it cannot move leaves the world as it is. -/
def run (op : ReaderOp) : List Tid → World → World
  | [], w => w
  | t :: ts, w =>
    match step op t w with
    | some w2 => run op ts w2
    | none => run op ts w

/-- The world when `update_config_from_string(data)` is entered on the store
`st` and the reader is about to make its call. -/
def startWorld (st : ConfigData) (data : Str) : World :=
  { g_config_data := st, g_config_mutex := none, lines := getlines data,
    updates_count := 0, updaterPc := UpdaterPc.loopHead, readerPc := ReaderPc.lockGuard }

/-- The schedule in which the reader makes its whole call right after the
updater has returned from its first `set_config_value`: eight steps of the
updater, three of the reader, and the updater to the end of a two-line body. -/
def readerAfterFirstSet : List Tid :=
  List.replicate 8 Tid.updater ++ List.replicate 3 Tid.reader ++ List.replicate 9 Tid.updater

/-- The schedule in which the reader is scheduled three times while the
updater is inside its first `set_config_value`, holding the mutex. -/
def readerDuringFirstSet : List Tid :=
  List.replicate 7 Tid.updater ++ List.replicate 3 Tid.reader

/-- Whether the updater stands between the construction and the destruction of
a `lock_guard`. -/
def UpdaterPc.inCriticalSection : UpdaterPc → Bool
  | UpdaterPc.getBody _ => true
  | UpdaterPc.getUnlock _ _ => true
  | UpdaterPc.setBody _ => true
  | UpdaterPc.setUnlock _ => true
  | _ => false

/-- Whether the reader stands between the construction and the destruction of
its `lock_guard`. -/
def ReaderPc.inCriticalSection : ReaderPc → Bool
  | ReaderPc.body => true
  | ReaderPc.unlock _ => true
  | _ => false

/-- The mutex is held by a thread exactly while that thread is in a critical
section. -/
def MutexInv (w : World) : Prop :=
  (w.g_config_mutex = some Tid.updater ↔ w.updaterPc.inCriticalSection = true) ∧
    (w.g_config_mutex = some Tid.reader ↔ w.readerPc.inCriticalSection = true)

/-- A socket on which the peer sends `before`, then stalls until one `recv`
fails (the receive timeout makes it return `-1`), then sends `after` and closes;
every `send` accepts all it is given. -/
def stalledConn (before after : Str) : Conn :=
  { incoming := [RecvEvent.data before, RecvEvent.failure, RecvEvent.data after],
    sendPlan := [], sent := [], recvCalls := 0, loads := 0, closed := false }

/-! # Theorems -/

/-! ## Decimal output and `std::stoull` -/

theorem digitChar_toNat (k : Nat) (hk : k < 10) : (Nat.digitChar k).toNat = 48 + k := by
  interval_cases k <;> rfl

theorem isdigit_digitChar (k : Nat) (hk : k < 10) : isdigit (Nat.digitChar k) = true := by
  interval_cases k <;> rfl

theorem digitsValue_append (xs : Str) (d : Char) :
    digitsValue (xs ++ [d]) = 10 * digitsValue xs + (d.toNat - 48) := by
  simp [digitsValue, List.foldl_append]

/-- The digits `Nat.toDigitsCore` puts in front of its accumulator. -/
theorem toDigitsCore_spec : ∀ (fuel n : Nat) (ds : Str), n < fuel →
    ∃ pre : Str, Nat.toDigitsCore 10 fuel n ds = pre ++ ds ∧ pre ≠ [] ∧
      (∀ c ∈ pre, isdigit c = true) ∧ digitsValue pre = n := by
  intro fuel
  induction fuel with
  | zero => intro n ds h; omega
  | succ fuel ih =>
    intro n ds h
    have hmod : n % 10 < 10 := Nat.mod_lt _ (by decide)
    by_cases h0 : n / 10 = 0
    · refine ⟨[Nat.digitChar (n % 10)], ?_, by simp, ?_, ?_⟩
      · simp [Nat.toDigitsCore, h0]
      · intro c hc
        simp only [List.mem_singleton] at hc
        subst hc
        exact isdigit_digitChar _ hmod
      · have : digitsValue [Nat.digitChar (n % 10)] = (Nat.digitChar (n % 10)).toNat - 48 := by
          simp [digitsValue]
        rw [this, digitChar_toNat _ hmod]
        omega
    · have hlt : n / 10 < fuel := by omega
      obtain ⟨pre, hpre, hne, hdig, hval⟩ := ih (n / 10) (Nat.digitChar (n % 10) :: ds) hlt
      refine ⟨pre ++ [Nat.digitChar (n % 10)], ?_, by simp, ?_, ?_⟩
      · simp [Nat.toDigitsCore, h0, hpre]
      · intro c hc
        rcases List.mem_append.mp hc with hc | hc
        · exact hdig c hc
        · simp only [List.mem_singleton] at hc
          subst hc
          exact isdigit_digitChar _ hmod
      · rw [digitsValue_append, hval, digitChar_toNat _ hmod]
        omega

theorem toDigits_spec (n : Nat) :
    Nat.toDigits 10 n ≠ [] ∧ (∀ c ∈ Nat.toDigits 10 n, isdigit c = true) ∧
      digitsValue (Nat.toDigits 10 n) = n := by
  obtain ⟨pre, hpre, hne, hdig, hval⟩ := toDigitsCore_spec (n + 1) n [] (by omega)
  simp only [List.append_nil] at hpre
  unfold Nat.toDigits
  rw [hpre]
  exact ⟨hne, hdig, hval⟩

theorem isdigit_not_isspace (c : Char) (h : isdigit c = true) : isspace c = false := by
  simp only [isdigit, Bool.and_eq_true, decide_eq_true_eq] at h
  simp only [isspace, Bool.or_eq_false_iff, Bool.and_eq_false_iff, decide_eq_false_iff_not]
  constructor
  · intro hc; subst hc; revert h; decide
  · right; omega

theorem isdigit_ne_sign (c : Char) (h : isdigit c = true) : c ≠ '-' ∧ c ≠ '+' := by
  constructor <;> (intro hc; subst hc; revert h; decide)

/-- On a non-empty run of digits `std::stoull` returns its value. -/
theorem stoull_digits (ds : Str) (hne : ds ≠ []) (hdig : ∀ c ∈ ds, isdigit c = true)
    (hval : digitsValue ds ≤ ULLONG_MAX) : stoull ds = Except.ok (digitsValue ds) := by
  obtain ⟨d, ds', rfl⟩ := List.exists_cons_of_ne_nil hne
  have hd : isdigit d = true := hdig d (by simp)
  have hsp := isdigit_not_isspace d hd
  have hsg := isdigit_ne_sign d hd
  have htw : List.takeWhile isdigit (d :: ds') = d :: ds' := by
    rw [List.takeWhile_eq_self_iff]
    exact hdig
  have hval' : ¬ (digitsValue (d :: ds') > ULLONG_MAX) := by omega
  simp [stoull, List.dropWhile, hsp, hsg.1, hsg.2, htw, hval']

theorem stoull_toDigits (n : Nat) (h : n ≤ ULLONG_MAX) :
    stoull (Nat.toDigits 10 n) = Except.ok n := by
  obtain ⟨hne, hdig, hval⟩ := toDigits_spec n
  have := stoull_digits _ hne hdig (by rw [hval]; exact h)
  rw [this, hval]

/-! ## The frame `serialize_config` produces -/

theorem serialize_content_eq_lines (st : ConfigData) :
    serialize_content st = (st.triples.map (fun t => entryLine t.1 t.2.1 t.2.2)).flatten := by
  unfold serialize_content ConfigData.triples
  induction st with
  | nil => rfl
  | cons sp rest ih =>
    simp only [List.flatMap_cons, List.map_append, List.flatten_append, ih, List.map_map]
    congr 1

theorem triples_pairwise (st : ConfigData) (hwf : st.WF) : List.Pairwise tripleLt st.triples := by
  unfold ConfigData.triples
  rw [List.pairwise_flatMap]
  refine ⟨?_, ?_⟩
  · intro sp hsp
    rw [List.pairwise_map]
    exact (hwf.2 sp hsp).imp (fun h => Or.inr ⟨rfl, h⟩)
  · refine hwf.1.imp ?_
    intro a b hab x hx y hy
    obtain ⟨kv, _, rfl⟩ := List.mem_map.mp hx
    obtain ⟨kv2, _, rfl⟩ := List.mem_map.mp hy
    exact Or.inl hab

/-- C9: the frame is the body length in decimal digits, a newline and the body;
the body is one line `[SECTION]KEY=VALUE\n` per entry, taken in ascending order of
section and then of key, and the header declares the number of body bytes. -/
theorem serialize_config_format (st : ConfigData) (hwf : st.WF) :
    ∃ header body : Str,
      serialize_config st = header ++ ['\n'] ++ body ∧
      header ≠ [] ∧ (∀ c ∈ header, isdigit c = true) ∧
      digitsValue header = body.length ∧
      (body.length ≤ ULLONG_MAX → stoull header = Except.ok body.length) ∧
      body = (st.triples.map (fun t => ['['] ++ t.1 ++ [']'] ++ t.2.1 ++ ['='] ++ t.2.2 ++ ['\n'])).flatten ∧
      List.Pairwise tripleLt st.triples := by
  obtain ⟨hne, hdig, hval⟩ := toDigits_spec (serialize_content st).length
  exact ⟨Nat.toDigits 10 (serialize_content st).length, serialize_content st, rfl, hne, hdig, hval,
    stoull_toDigits _, serialize_content_eq_lines st, triples_pairwise st hwf⟩

theorem networkPortStore_wf : networkPortStore.WF := by
  constructor
  · simp [SMap.Sorted, networkPortStore]
  · intro p hp
    simp only [networkPortStore, List.mem_singleton] at hp
    subst hp
    simp [SMap.Sorted]

/-- Witness of C9 at the store holding `NETWORK`/`PORT` = `9000`. -/
theorem serialize_config_format_witness :
    networkPortStore.WF ∧
    ∃ header body : Str,
      serialize_config networkPortStore = header ++ ['\n'] ++ body ∧
      header ≠ [] ∧ (∀ c ∈ header, isdigit c = true) ∧
      digitsValue header = body.length ∧
      (body.length ≤ ULLONG_MAX → stoull header = Except.ok body.length) ∧
      body = (networkPortStore.triples.map
        (fun t => ['['] ++ t.1 ++ [']'] ++ t.2.1 ++ ['='] ++ t.2.2 ++ ['\n'])).flatten ∧
      List.Pairwise tripleLt networkPortStore.triples :=
  ⟨networkPortStore_wf, serialize_config_format networkPortStore networkPortStore_wf⟩

/-- C10 as stated fails: the frame of the store holding `NETWORK`/`PORT` = `9000`
does not declare length 21 and its body is not 20 bytes long. -/
theorem serialize_networkPort_not_21 :
    ¬ (serialize_config networkPortStore = "21\n[NETWORK]PORT=9000\n".toList ∧
        "[NETWORK]PORT=9000\n".toList.length = 20) := by
  decide

/-- C10 amended: the frame of the store holding `NETWORK`/`PORT` = `9000` is the
header `19`, a newline and the body `[NETWORK]PORT=9000\n`, which is 19 bytes
long, and the header parses to 19. -/
theorem serialize_networkPort :
    serialize_config networkPortStore = "19".toList ++ ['\n'] ++ "[NETWORK]PORT=9000\n".toList ∧
      "[NETWORK]PORT=9000\n".toList.length = 19 ∧
      stoull "19".toList = Except.ok 19 := by
  decide

/-! ## The key order -/

theorem char_eq_of_toNat_eq (a b : Char) (h : a.toNat = b.toNat) : a = b := by
  apply Char.ext
  apply UInt32.ext
  exact h

theorem strLt_irrefl : ∀ a : Str, strLt a a = false
  | [] => rfl
  | a :: as => by simp [strLt, strLt_irrefl as]

theorem strLt_trans : ∀ a b c : Str, strLt a b = true → strLt b c = true → strLt a c = true
  | [], [], _, h, _ => by simp [strLt] at h
  | [], _ :: _, [], _, h => by simp [strLt] at h
  | [], _ :: _, _ :: _, _, _ => by simp [strLt]
  | _ :: _, [], _, h, _ => by simp [strLt] at h
  | _ :: _, _ :: _, [], _, h => by simp [strLt] at h
  | a :: as, b :: bs, c :: cs, h1, h2 => by
    simp only [strLt] at h1 h2 ⊢
    by_cases hab : a.toNat < b.toNat
    · by_cases hbc : b.toNat < c.toNat
      · simp [show a.toNat < c.toNat by omega]
      · by_cases hcb : c.toNat < b.toNat
        · simp [hbc, hcb] at h2
        · simp [show a.toNat < c.toNat by omega]
    · by_cases hba : b.toNat < a.toNat
      · simp [hab, hba] at h1
      · simp only [hab, hba, if_false] at h1
        by_cases hbc : b.toNat < c.toNat
        · simp [show a.toNat < c.toNat by omega]
        · by_cases hcb : c.toNat < b.toNat
          · simp [hbc, hcb] at h2
          · simp only [hbc, hcb, if_false] at h2
            simp [show ¬ a.toNat < c.toNat by omega, show ¬ c.toNat < a.toNat by omega,
              strLt_trans as bs cs h1 h2]

theorem strLt_total : ∀ a b : Str, strLt a b = false → a ≠ b → strLt b a = true
  | [], [], _, h => by simp at h
  | [], _ :: _, h, _ => by simp [strLt] at h
  | _ :: _, [], _, _ => by simp [strLt]
  | a :: as, b :: bs, h1, h2 => by
    simp only [strLt] at h1 ⊢
    by_cases hab : a.toNat < b.toNat
    · simp [hab] at h1
    · by_cases hba : b.toNat < a.toNat
      · simp [hba]
      · simp only [hab, hba, if_false] at h1 ⊢
        have hc : a = b := char_eq_of_toNat_eq a b (by omega)
        subst hc
        refine strLt_total as bs h1 ?_
        intro h
        exact h2 (by rw [h])

theorem strLt_ne (a b : Str) (h : strLt a b = true) : a ≠ b := by
  intro hab
  subst hab
  rw [strLt_irrefl] at h
  cases h

theorem strLt_asymm (a b : Str) (h : strLt a b = true) : strLt b a = false := by
  cases hba : strLt b a with
  | false => rfl
  | true =>
    have := strLt_trans a b a h hba
    rw [strLt_irrefl] at this
    cases this

/-! ## `std::map` operations -/

theorem SMap.find_assign {β : Type} (m : SMap β) (k : Str) (v : β) (q : Str) :
    (m.assign k v).find q = if q = k then some v else m.find q := by
  induction m with
  | nil =>
    by_cases hq : q = k
    · simp [SMap.assign, SMap.find, hq]
    · have : ¬ k = q := fun h => hq h.symm
      simp [SMap.assign, SMap.find, hq, this]
  | cons p r ih =>
    obtain ⟨k1, v1⟩ := p
    simp only [SMap.assign]
    by_cases h1 : strLt k k1 = true
    · simp only [h1, if_true, SMap.find]
      by_cases hq : q = k
      · simp [hq]
      · have : ¬ k = q := fun h => hq h.symm
        simp [hq, this]
    · simp only [h1, Bool.false_eq_true, if_false]
      by_cases h2 : k1 = k
      · subst h2
        simp only [if_true, SMap.find]
        by_cases hq : q = k1
        · simp [hq]
        · have : ¬ k1 = q := fun h => hq h.symm
          simp [hq, this]
      · simp only [h2, if_false, SMap.find, ih]
        by_cases hq : q = k
        · subst hq
          simp [h2]
        · simp [hq]

theorem SMap.mem_assign {β : Type} (m : SMap β) (k : Str) (v : β) (x : Str × β)
    (hx : x ∈ m.assign k v) : x = (k, v) ∨ x ∈ m := by
  induction m with
  | nil => simp [SMap.assign] at hx; exact Or.inl hx
  | cons p r ih =>
    obtain ⟨k1, v1⟩ := p
    simp only [SMap.assign] at hx
    by_cases h1 : strLt k k1 = true
    · simp only [h1, if_true, List.mem_cons] at hx
      rcases hx with hx | hx | hx
      · exact Or.inl hx
      · exact Or.inr (by simp [hx])
      · exact Or.inr (by simp [hx])
    · simp only [h1, Bool.false_eq_true, if_false] at hx
      by_cases h2 : k1 = k
      · simp only [h2, if_true, List.mem_cons] at hx
        rcases hx with hx | hx
        · exact Or.inl hx
        · exact Or.inr (by simp [hx])
      · simp only [h2, if_false, List.mem_cons] at hx
        rcases hx with hx | hx
        · exact Or.inr (by simp [hx])
        · rcases ih hx with h | h
          · exact Or.inl h
          · exact Or.inr (by simp [h])

theorem SMap.sorted_assign {β : Type} (m : SMap β) (k : Str) (v : β) (hs : m.Sorted) :
    (m.assign k v).Sorted := by
  induction m with
  | nil => simp [SMap.assign, SMap.Sorted]
  | cons p r ih =>
    obtain ⟨k1, v1⟩ := p
    unfold SMap.Sorted at hs ih ⊢
    rw [List.pairwise_cons] at hs
    simp only [SMap.assign]
    by_cases h1 : strLt k k1 = true
    · simp only [h1, if_true]
      refine List.Pairwise.cons ?_ (List.Pairwise.cons hs.1 hs.2)
      intro x hx
      rcases List.mem_cons.mp hx with hx | hx
      · rw [hx]; exact h1
      · exact strLt_trans _ _ _ h1 (hs.1 x hx)
    · simp only [h1, Bool.false_eq_true, if_false]
      by_cases h2 : k1 = k
      · subst h2
        simp only [if_true]
        exact List.Pairwise.cons hs.1 hs.2
      · simp only [h2, if_false]
        refine List.Pairwise.cons ?_ (ih hs.2)
        intro x hx
        rcases SMap.mem_assign r k v x hx with hx | hx
        · rw [hx]
          exact strLt_total k k1 (by simpa using h1) (fun h => h2 h.symm)
        · exact hs.1 x hx

theorem SMap.find_eq_none_of_lt {β : Type} (m : SMap β) (k : Str)
    (h : ∀ x ∈ m, strLt k x.1 = true) : m.find k = none := by
  induction m with
  | nil => rfl
  | cons p r ih =>
    obtain ⟨k1, v1⟩ := p
    have h1 : k1 ≠ k := fun e => strLt_ne k k1 (h (k1, v1) (by simp)) e.symm
    simp only [SMap.find, h1, if_false]
    exact ih (fun x hx => h x (by simp [hx]))

theorem SMap.mem_of_find {β : Type} (m : SMap β) (k : Str) (v : β) (h : m.find k = some v) :
    (k, v) ∈ m := by
  induction m with
  | nil => simp [SMap.find] at h
  | cons p r ih =>
    obtain ⟨k1, v1⟩ := p
    simp only [SMap.find] at h
    by_cases h1 : k1 = k
    · simp only [h1, if_true, Option.some.injEq] at h
      simp [h1, h]
    · simp only [h1, if_false] at h
      simp [ih h]

theorem SMap.find_of_mem {β : Type} (m : SMap β) (hs : m.Sorted) (k : Str) (v : β)
    (h : (k, v) ∈ m) : m.find k = some v := by
  induction m with
  | nil => simp at h
  | cons p r ih =>
    obtain ⟨k1, v1⟩ := p
    unfold SMap.Sorted at hs ih
    rw [List.pairwise_cons] at hs
    rcases List.mem_cons.mp h with h | h
    · simp only [Prod.mk.injEq] at h
      simp [SMap.find, h.1, h.2]
    · have h1 : k1 ≠ k := strLt_ne k1 k (hs.1 (k, v) h)
      simp only [SMap.find, h1, if_false]
      exact ih hs.2 h

theorem SMap.ext {β : Type} : ∀ (m m2 : SMap β), m.Sorted → m2.Sorted →
    (∀ k, m.find k = m2.find k) → m = m2
  | [], [], _, _, _ => rfl
  | [], (k2, v2) :: r2, _, _, h => by
    have := h k2
    simp [SMap.find] at this
  | (k1, v1) :: r1, [], _, _, h => by
    have := h k1
    simp [SMap.find] at this
  | (k1, v1) :: r1, (k2, v2) :: r2, hs1, hs2, h => by
    unfold SMap.Sorted at hs1 hs2
    rw [List.pairwise_cons] at hs1 hs2
    have e1 : SMap.find ((k2, v2) :: r2) k1 = some v1 := by
      rw [← h k1]; simp [SMap.find]
    have e2 : SMap.find ((k1, v1) :: r1) k2 = some v2 := by
      rw [h k2]; simp [SMap.find]
    have hk : k1 = k2 := by
      by_contra hne
      have m1 := SMap.mem_of_find _ _ _ e1
      have m2 := SMap.mem_of_find _ _ _ e2
      rcases List.mem_cons.mp m1 with m1 | m1
      · simp only [Prod.mk.injEq] at m1; exact hne m1.1
      · rcases List.mem_cons.mp m2 with m2 | m2
        · simp only [Prod.mk.injEq] at m2; exact hne m2.1.symm
        · have a := hs2.1 _ m1
          have b := hs1.1 _ m2
          have := strLt_asymm _ _ a
          simp only at b
          rw [b] at this
          cases this
    subst hk
    have hv : v1 = v2 := by
      have := h k1
      simpa [SMap.find] using this
    subst hv
    have hr : r1 = r2 := by
      refine SMap.ext r1 r2 hs1.2 hs2.2 ?_
      intro q
      by_cases hq : k1 = q
      · subst hq
        rw [SMap.find_eq_none_of_lt r1 k1 hs1.1, SMap.find_eq_none_of_lt r2 k1 hs2.1]
      · have := h q
        simpa [SMap.find, hq] using this
    rw [hr]

/-! ## The store -/

theorem get_config_value_eq (st : ConfigData) (s k d : Str) :
    get_config_value st s k d = (st.lookup s k).getD d := by
  unfold get_config_value ConfigData.lookup
  cases h : st.find s with
  | none => rfl
  | some sec =>
    cases h2 : sec.find k with
    | none => simp [h2]
    | some v => simp [h2]

theorem find_set_config_value (st : ConfigData) (s k v s2 : Str) :
    (set_config_value st s k v).find s2 =
      if s2 = s then some (((st.find s).getD []).assign k v) else st.find s2 := by
  unfold set_config_value
  rw [SMap.find_assign]

theorem lookup_set_config_value (st : ConfigData) (s k v s2 k2 : Str) :
    (set_config_value st s k v).lookup s2 k2 =
      if s2 = s ∧ k2 = k then some v else st.lookup s2 k2 := by
  unfold ConfigData.lookup
  rw [find_set_config_value]
  by_cases hs : s2 = s
  · subst hs
    simp only [↓reduceIte, Option.some_bind, true_and]
    rw [SMap.find_assign]
    by_cases hk : k2 = k
    · simp [hk]
    · simp only [hk, if_false]
      cases st.find s2 with
      | none => simp [SMap.find]
      | some sec => simp
  · simp [hs]

theorem wf_nil : ConfigData.WF [] := by
  constructor
  · exact List.Pairwise.nil
  · intro p hp
    cases hp

theorem wf_set_config_value (st : ConfigData) (s k v : Str) (hwf : st.WF) :
    (set_config_value st s k v).WF := by
  constructor
  · exact SMap.sorted_assign _ _ _ hwf.1
  · intro p hp
    rcases SMap.mem_assign _ _ _ _ hp with hp | hp
    · rw [hp]
      apply SMap.sorted_assign
      cases h : st.find s with
      | none => exact List.Pairwise.nil
      | some sec => exact hwf.2 _ (SMap.mem_of_find _ _ _ h)
    · exact hwf.2 p hp

theorem mem_triples_iff (st : ConfigData) (hwf : st.WF) (s k v : Str) :
    (s, k, v) ∈ st.triples ↔ st.lookup s k = some v := by
  unfold ConfigData.triples ConfigData.lookup
  simp only [List.mem_flatMap, List.mem_map, Prod.mk.injEq]
  constructor
  · rintro ⟨sp, hsp, kv, hkv, h1, h2, h3⟩
    obtain ⟨s1, sec⟩ := sp
    obtain ⟨k1, v1⟩ := kv
    simp only at h1 h2 h3 hkv
    subst h1 h2 h3
    rw [SMap.find_of_mem st hwf.1 _ _ hsp]
    exact SMap.find_of_mem sec (hwf.2 _ hsp) _ _ hkv
  · intro h
    cases hf : st.find s with
    | none => simp [hf] at h
    | some sec =>
      simp only [hf, Option.some_bind] at h
      exact ⟨(s, sec), SMap.mem_of_find _ _ _ hf, (k, v), SMap.mem_of_find _ _ _ h, rfl, rfl, rfl⟩

theorem store_ext (st st2 : ConfigData) (h1 : st.WF) (h2 : st2.WF)
    (hsec : ∀ s, (st.find s).isSome = (st2.find s).isSome)
    (hval : ∀ s k, st.lookup s k = st2.lookup s k) : st = st2 := by
  refine SMap.ext st st2 h1.1 h2.1 ?_
  intro s
  have hs := hsec s
  cases e1 : st.find s with
  | none =>
    cases e2 : st2.find s with
    | none => rfl
    | some sec2 => simp [e1, e2] at hs
  | some sec1 =>
    cases e2 : st2.find s with
    | none => simp [e1, e2] at hs
    | some sec2 =>
      have : sec1 = sec2 := by
        refine SMap.ext sec1 sec2 (h1.2 _ (SMap.mem_of_find _ _ _ e1))
          (h2.2 _ (SMap.mem_of_find _ _ _ e2)) ?_
        intro k
        have := hval s k
        simpa [ConfigData.lookup, e1, e2] using this
      rw [this]

/-! ## The line parser -/

theorem update_config_from_string_eq (st : ConfigData) (data : Str) :
    update_config_from_string st data = applyEntries st (decodeEntries data) := by
  unfold update_config_from_string applyEntries decodeEntries
  generalize (st, 0) = acc
  induction getlines data generalizing acc with
  | nil => rfl
  | cons l ls ih =>
    simp only [List.foldl_cons, List.filterMap_cons]
    cases h : parseLine l with
    | none => simp only [processLine, h]; exact ih acc
    | some e => simp only [processLine, h, List.foldl_cons]; exact ih _

theorem getlinesAux_cons (c : Char) (cs acc : Str) :
    getlinesAux (c :: cs) acc =
      if c = '\n' then acc :: getlinesAux cs [] else getlinesAux cs (acc ++ [c]) := rfl

theorem findIdx_cons (c x : Char) (xs : Str) (i : Nat) :
    findIdx c (x :: xs) i = if x = c then some i else findIdx c xs (i + 1) := rfl

theorem findLastNotOfAux_cons (x : Char) (xs : Str) (i : Nat) (last : Option Nat) :
    findLastNotOfAux (x :: xs) i last =
      findLastNotOfAux xs (i + 1) (if isTrimChar x then last else some i) := rfl

theorem drop_append_cons {α : Type} (xs : List α) (y : α) (zs : List α) (n : Nat) :
    List.drop (xs.length + 1 + n) (xs ++ y :: zs) = List.drop n zs := by
  induction xs with
  | nil => simp [Nat.add_comm]
  | cons x xs ih =>
    have : (x :: xs).length + 1 + n = (xs.length + 1 + n) + 1 := by simp; omega
    rw [this, List.cons_append, List.drop_succ_cons, ih]

theorem getlinesAux_line (l rest acc : Str) (h : '\n' ∉ l) :
    getlinesAux (l ++ '\n' :: rest) acc = (acc ++ l) :: getlinesAux rest [] := by
  induction l generalizing acc with
  | nil => simp [getlinesAux]
  | cons c cs ih =>
    have hc : c ≠ '\n' := fun e => h (by simp [e])
    have hcs : '\n' ∉ cs := fun e => h (by simp [e])
    rw [List.cons_append, getlinesAux_cons, if_neg hc, ih _ hcs]
    simp

theorem getlines_line (l rest : Str) (h : '\n' ∉ l) :
    getlines (l ++ '\n' :: rest) = l :: getlines rest := by
  unfold getlines
  rw [getlinesAux_line l rest [] h]
  simp

theorem getlines_nil : getlines [] = [] := rfl

theorem findIdx_append (c : Char) (xs ys : Str) (i : Nat) (h : c ∉ xs) :
    findIdx c (xs ++ c :: ys) i = some (i + xs.length) := by
  induction xs generalizing i with
  | nil => simp [findIdx]
  | cons x xs ih =>
    have hx : x ≠ c := fun e => h (by simp [e])
    have hxs : c ∉ xs := fun e => h (by simp [e])
    rw [List.cons_append, findIdx_cons, if_neg hx, ih _ hxs, List.length_cons]
    congr 1
    omega

theorem findLastNotOfAux_append (xs : Str) (x : Char) (i : Nat) (last : Option Nat)
    (hx : isTrimChar x = false) :
    findLastNotOfAux (xs ++ [x]) i last = some (i + xs.length) := by
  induction xs generalizing i last with
  | nil => simp [findLastNotOfAux, hx]
  | cons y ys ih =>
    rw [List.cons_append, findLastNotOfAux_cons, ih, List.length_cons]
    congr 1
    omega

theorem eraseTrailing_nil : eraseTrailing [] = [] := rfl

theorem eraseTrailing_clean (xs : Str) (x : Char) (hx : isTrimChar x = false) :
    eraseTrailing (xs ++ [x]) = xs ++ [x] := by
  unfold eraseTrailing find_last_not_of
  rw [findLastNotOfAux_append xs x 0 none hx]
  simp

/-- The parser on a line `[s]k=v`: section and key are recovered, the value is
trimmed. -/
theorem parseLine_entry (s k v : Str) (hs : ']' ∉ s) (hk : '=' ∉ k) :
    parseLine ('[' :: (s ++ ']' :: (k ++ '=' :: v))) = some (s, k, eraseTrailing v) := by
  have h1 : find ('[' :: (s ++ ']' :: (k ++ '=' :: v))) ']' 0 = some (1 + s.length) := by
    unfold find
    simp only [List.drop_zero, findIdx]
    rw [if_neg (by decide), findIdx_append _ _ _ _ hs]
  have h2 : find ('[' :: (s ++ ']' :: (k ++ '=' :: v))) '=' (1 + s.length) =
      some (1 + s.length + 1 + k.length) := by
    unfold find
    have : List.drop (1 + s.length) ('[' :: (s ++ ']' :: (k ++ '=' :: v))) = ']' :: (k ++ '=' :: v) := by
      rw [Nat.add_comm, List.drop_succ_cons, List.drop_left]
    rw [this]
    simp only [findIdx]
    rw [if_neg (by decide), findIdx_append _ _ _ _ hk]
  unfold parseLine
  simp only [ne_eq, not_true_eq_false, if_false, h1, h2]
  have e1 : substr ('[' :: (s ++ ']' :: (k ++ '=' :: v))) 1 (1 + s.length - 1) = s := by
    unfold substr
    simp
  have e2 : substr ('[' :: (s ++ ']' :: (k ++ '=' :: v))) (1 + s.length + 1)
      (1 + s.length + 1 + k.length - (1 + s.length + 1)) = k := by
    unfold substr
    have : List.drop (1 + s.length + 1) ('[' :: (s ++ ']' :: (k ++ '=' :: v))) = k ++ '=' :: v := by
      rw [List.drop_succ_cons]
      have : 1 + s.length = s.length + 1 := by omega
      rw [this, ← List.drop_drop, List.drop_left]
      rfl
    rw [this]
    simp
  have e3 : substrFrom ('[' :: (s ++ ']' :: (k ++ '=' :: v))) (1 + s.length + 1 + k.length + 1) = v := by
    unfold substrFrom
    rw [List.drop_succ_cons]
    have : 1 + s.length + 1 + k.length = s.length + 1 + (k.length + 1 + 0) := by omega
    rw [this, drop_append_cons, drop_append_cons]
    rfl
  rw [e1, e2, e3]

/-! ## Applying entries -/

theorem lookup_applyEntry (acc : ConfigData × Nat) (e : Str × Str × Str) (s k : Str) :
    (applyEntry acc e).1.lookup s k =
      if get_config_value acc.1 e.1 e.2.1 [] ≠ e.2.2 ∧ s = e.1 ∧ k = e.2.1 then some e.2.2
      else acc.1.lookup s k := by
  unfold applyEntry
  by_cases h : get_config_value acc.1 e.1 e.2.1 [] ≠ e.2.2
  · simp only [h, if_true, lookup_set_config_value, true_and, not_false_eq_true, ne_eq]
  · simp only [h, if_false, false_and]

theorem get_applyEntry (acc : ConfigData × Nat) (e : Str × Str × Str) (s k : Str) :
    get_config_value (applyEntry acc e).1 s k [] =
      if s = e.1 ∧ k = e.2.1 then e.2.2 else get_config_value acc.1 s k [] := by
  simp only [get_config_value_eq, lookup_applyEntry]
  by_cases h2 : s = e.1 ∧ k = e.2.1
  · by_cases h : (acc.1.lookup e.1 e.2.1).getD [] = e.2.2
    · simp [h, h2]
    · simp [h, h2]
  · have : ¬ ((acc.1.lookup e.1 e.2.1).getD [] ≠ e.2.2 ∧ s = e.1 ∧ k = e.2.1) := fun hh => h2 hh.2
    rw [if_neg this, if_neg h2]

theorem wf_applyEntry (acc : ConfigData × Nat) (e : Str × Str × Str) (h : acc.1.WF) :
    (applyEntry acc e).1.WF := by
  unfold applyEntry
  by_cases hc : get_config_value acc.1 e.1 e.2.1 [] ≠ e.2.2
  · simp only [hc, if_true, not_false_eq_true, ne_eq]
    exact wf_set_config_value _ _ _ _ h
  · simp only [hc, if_false]
    exact h

theorem wf_foldl_applyEntry (es : List (Str × Str × Str)) (acc : ConfigData × Nat)
    (h : acc.1.WF) : (es.foldl applyEntry acc).1.WF := by
  induction es generalizing acc with
  | nil => exact h
  | cons e es ih => exact ih _ (wf_applyEntry acc e h)

/-- Entries for other keys leave a key as it was. -/
theorem lookup_foldl_other (es : List (Str × Str × Str)) (acc : ConfigData × Nat) (s k : Str)
    (h : ∀ e ∈ es, ¬ (e.1 = s ∧ e.2.1 = k)) :
    (es.foldl applyEntry acc).1.lookup s k = acc.1.lookup s k := by
  induction es generalizing acc with
  | nil => rfl
  | cons e es ih =>
    rw [List.foldl_cons, ih _ (fun e2 he2 => h e2 (by simp [he2])), lookup_applyEntry]
    have : ¬ (s = e.1 ∧ k = e.2.1) := fun hh => h e (by simp) ⟨hh.1.symm, hh.2.symm⟩
    simp [this]

/-- Entries with distinct fresh keys and non-empty values are all stored. -/
theorem lookup_foldl_fresh (es : List (Str × Str × Str)) (acc : ConfigData × Nat)
    (hd : es.Pairwise (fun a b => ¬ (a.1 = b.1 ∧ a.2.1 = b.2.1)))
    (hf : ∀ e ∈ es, acc.1.lookup e.1 e.2.1 = none) (hv : ∀ e ∈ es, e.2.2 ≠ []) :
    ∀ e ∈ es, (es.foldl applyEntry acc).1.lookup e.1 e.2.1 = some e.2.2 := by
  induction es generalizing acc with
  | nil => intro e he; cases he
  | cons e0 es ih =>
    rw [List.pairwise_cons] at hd
    intro e he
    rw [List.foldl_cons]
    have hget : get_config_value acc.1 e0.1 e0.2.1 [] ≠ e0.2.2 := by
      rw [get_config_value_eq, hf e0 (by simp)]
      exact fun hh => hv e0 (by simp) hh.symm
    rcases List.mem_cons.mp he with he | he
    · subst he
      rw [lookup_foldl_other es _ _ _ (fun e2 he2 hh => hd.1 e2 he2 ⟨hh.1.symm, hh.2.symm⟩),
        lookup_applyEntry]
      simp [hget]
    · refine ih _ hd.2 ?_ (fun e2 he2 => hv e2 (by simp [he2])) e he
      intro e2 he2
      rw [lookup_applyEntry]
      have : ¬ (e2.1 = e0.1 ∧ e2.2.1 = e0.2.1) := fun hh => hd.1 e2 he2 ⟨hh.1.symm, hh.2.symm⟩
      simp only [this, and_false, if_false]
      exact hf e2 (by simp [he2])

theorem lookup_nil (s k : Str) : ConfigData.lookup [] s k = none := rfl

/-- Applying the entries of a store to the empty store gives a store with the
same entries. -/
theorem mem_triples_applyEntries_nil (es : List (Str × Str × Str))
    (hd : es.Pairwise (fun a b => ¬ (a.1 = b.1 ∧ a.2.1 = b.2.1)))
    (hv : ∀ e ∈ es, e.2.2 ≠ []) (t : Str × Str × Str) :
    t ∈ (applyEntries [] es).1.triples ↔ t ∈ es := by
  obtain ⟨s, k, v⟩ := t
  have hwf : (applyEntries [] es).1.WF := wf_foldl_applyEntry es ([], 0) wf_nil
  rw [mem_triples_iff _ hwf]
  unfold applyEntries
  constructor
  · intro h
    by_cases hex : ∃ e ∈ es, e.1 = s ∧ e.2.1 = k
    · obtain ⟨e, he, h1, h2⟩ := hex
      have := lookup_foldl_fresh es ([], 0) hd (fun _ _ => rfl) hv e he
      rw [h1, h2, h] at this
      obtain ⟨s1, k1, v1⟩ := e
      simp only at h1 h2 this
      simp only [Option.some.injEq] at this
      subst h1 h2 this
      exact he
    · have : ∀ e ∈ es, ¬ (e.1 = s ∧ e.2.1 = k) := fun e he hh => hex ⟨e, he, hh⟩
      rw [lookup_foldl_other es _ s k this] at h
      cases h
  · intro h
    exact lookup_foldl_fresh es ([], 0) hd (fun _ _ => rfl) hv (s, k, v) h

/-! ## Round trip -/

theorem entryLine_append (s k v rest : Str) :
    entryLine s k v ++ rest = ('[' :: (s ++ ']' :: (k ++ '=' :: v))) ++ '\n' :: rest := by
  simp [entryLine]

theorem decodeEntries_lines (ts : List (Str × Str × Str)) (h : ∀ t ∈ ts, Encodable t) :
    decodeEntries (ts.map (fun t => entryLine t.1 t.2.1 t.2.2)).flatten = ts := by
  unfold decodeEntries
  induction ts with
  | nil => rfl
  | cons t ts ih =>
    obtain ⟨hs1, hs2, hk1, hk2, hv1, init, last, hv2, hv3⟩ := h t (by simp)
    have hnl : '\n' ∉ '[' :: (t.1 ++ ']' :: (t.2.1 ++ '=' :: t.2.2)) := by
      simp only [List.mem_cons, List.mem_append, not_or]
      exact ⟨by decide, hs2, by decide, hk2, by decide, hv1⟩
    rw [List.map_cons, List.flatten_cons, entryLine_append, getlines_line _ _ hnl,
      List.filterMap_cons, parseLine_entry _ _ _ hs1 hk1]
    have hv : eraseTrailing t.2.2 = t.2.2 := by
      rw [hv2]
      exact eraseTrailing_clean init last hv3
    simp only [hv]
    rw [ih (fun t2 ht2 => h t2 (by simp [ht2]))]

theorem parseLine_digits (ds : Str) (hdig : ∀ c ∈ ds, isdigit c = true) : parseLine ds = none := by
  cases ds with
  | nil => rfl
  | cons d ds =>
    have hd : d ≠ '[' := by
      intro e
      have := hdig d (by simp)
      rw [e] at this
      revert this
      decide
    simp [parseLine, hd]

theorem decodeEntries_serialize_config (st : ConfigData) :
    decodeEntries (serialize_config st) = decodeEntries (serialize_content st) := by
  obtain ⟨_, hdig, _⟩ := toDigits_spec (serialize_content st).length
  have hnl : '\n' ∉ Nat.toDigits 10 (serialize_content st).length := by
    intro h
    have := hdig _ h
    revert this
    decide
  unfold serialize_config decodeEntries
  simp only [List.append_assoc, List.cons_append, List.nil_append]
  rw [getlines_line _ _ hnl, List.filterMap_cons, parseLine_digits _ hdig]

theorem triples_keys_distinct (st : ConfigData) (hwf : st.WF) :
    st.triples.Pairwise (fun a b => ¬ (a.1 = b.1 ∧ a.2.1 = b.2.1)) := by
  refine (triples_pairwise st hwf).imp ?_
  intro a b hab hh
  rcases hab with h | ⟨_, h⟩
  · exact strLt_ne _ _ h hh.1
  · exact strLt_ne _ _ h hh.2

theorem Encodable.value_ne_nil (t : Str × Str × Str) (h : Encodable t) : t.2.2 ≠ [] := by
  obtain ⟨_, _, _, _, _, init, last, hv, _⟩ := h
  rw [hv]
  simp

/-- C1 as stated fails: the store `{"A": {"K": "v "}}` does not come back from its
own frame, the trailing space of the value being trimmed. -/
theorem roundtrip_fails_trailing_space :
    ¬ (∀ t, t ∈ (update_config_from_string [] (serialize_config trailingSpaceStore)).1.triples ↔
        t ∈ trailingSpaceStore.triples) := by
  intro h
  have h1 := (h ("A".toList, "K".toList, "v ".toList)).mpr (by decide)
  revert h1
  decide

/-- C1 amended: when every entry of the store is `Encodable`, the frame
`serialize_config` produces, parsed and applied to the empty store by
`update_config_from_string`, gives a store with exactly the same
`(section, key, value)` triples. -/
theorem roundtrip_encodable (st : ConfigData) (hwf : st.WF)
    (henc : ∀ t ∈ st.triples, Encodable t) (t : Str × Str × Str) :
    t ∈ (update_config_from_string [] (serialize_config st)).1.triples ↔ t ∈ st.triples := by
  rw [update_config_from_string_eq, decodeEntries_serialize_config, serialize_content_eq_lines,
    decodeEntries_lines _ henc]
  exact mem_triples_applyEntries_nil st.triples (triples_keys_distinct st hwf)
    (fun e he => Encodable.value_ne_nil e (henc e he)) t

theorem networkPortStore_encodable : ∀ t ∈ networkPortStore.triples, Encodable t := by
  intro t ht
  have : t = ("NETWORK".toList, "PORT".toList, "9000".toList) := by
    simpa [networkPortStore, ConfigData.triples] using ht
  subst this
  exact ⟨by decide, by decide, by decide, by decide, by decide, "900".toList, '0', by decide,
    by decide⟩

/-- Witness of C1 amended at the store holding `NETWORK`/`PORT` = `9000`. -/
theorem roundtrip_encodable_witness :
    networkPortStore.WF ∧ (∀ t ∈ networkPortStore.triples, Encodable t) ∧
      (("NETWORK".toList, "PORT".toList, "9000".toList) ∈
          (update_config_from_string [] (serialize_config networkPortStore)).1.triples ↔
        ("NETWORK".toList, "PORT".toList, "9000".toList) ∈ networkPortStore.triples) :=
  ⟨networkPortStore_wf, networkPortStore_encodable,
    roundtrip_encodable networkPortStore networkPortStore_wf networkPortStore_encodable _⟩

/-! ## Applying the same body twice -/

theorem find_applyEntry (acc : ConfigData × Nat) (e : Str × Str × Str) (s : Str) :
    ((applyEntry acc e).1.find s).isSome =
      ((decide (get_config_value acc.1 e.1 e.2.1 [] ≠ e.2.2) && decide (s = e.1)) ||
        (acc.1.find s).isSome) := by
  unfold applyEntry
  by_cases h : get_config_value acc.1 e.1 e.2.1 [] ≠ e.2.2
  · simp only [h, if_true, find_set_config_value, not_false_eq_true, ne_eq, decide_True,
      Bool.true_and]
    by_cases hs : s = e.1
    · simp [hs]
    · simp [hs]
  · simp [h]

/-- The value read back after a run depends on the start store only through
the value read there. -/
theorem get_foldl_congr (es : List (Str × Str × Str)) (acc acc2 : ConfigData × Nat) (s k : Str)
    (h : get_config_value acc.1 s k [] = get_config_value acc2.1 s k []) :
    get_config_value (es.foldl applyEntry acc).1 s k [] =
      get_config_value (es.foldl applyEntry acc2).1 s k [] := by
  induction es generalizing acc acc2 with
  | nil => exact h
  | cons e es ih =>
    rw [List.foldl_cons, List.foldl_cons]
    apply ih
    rw [get_applyEntry, get_applyEntry, h]

/-- A key the entries mention reads the same after a run from any start store. -/
theorem get_foldl_mentioned (es : List (Str × Str × Str)) (acc acc2 : ConfigData × Nat)
    (s k : Str) (h : ∃ e ∈ es, e.1 = s ∧ e.2.1 = k) :
    get_config_value (es.foldl applyEntry acc).1 s k [] =
      get_config_value (es.foldl applyEntry acc2).1 s k [] := by
  induction es generalizing acc acc2 with
  | nil => obtain ⟨e, he, _⟩ := h; cases he
  | cons e0 es ih =>
    rw [List.foldl_cons, List.foldl_cons]
    by_cases h0 : e0.1 = s ∧ e0.2.1 = k
    · apply get_foldl_congr
      rw [get_applyEntry, get_applyEntry]
      simp [h0.1.symm, h0.2.symm]
    · apply ih
      obtain ⟨e, he, hk⟩ := h
      rcases List.mem_cons.mp he with he | he
      · subst he; exact absurd hk h0
      · exact ⟨e, he, hk⟩

theorem lookup_isSome_applyEntry (acc : ConfigData × Nat) (e : Str × Str × Str) (s k : Str)
    (h : (acc.1.lookup s k).isSome = true) : ((applyEntry acc e).1.lookup s k).isSome = true := by
  rw [lookup_applyEntry]
  split
  · rfl
  · exact h

theorem lookup_isSome_foldl (es : List (Str × Str × Str)) (acc : ConfigData × Nat) (s k : Str)
    (h : (acc.1.lookup s k).isSome = true) :
    ((es.foldl applyEntry acc).1.lookup s k).isSome = true := by
  induction es generalizing acc with
  | nil => exact h
  | cons e es ih => exact ih _ (lookup_isSome_applyEntry acc e s k h)

/-- An entry with a non-empty value leaves its key present. -/
theorem lookup_isSome_of_mem (es : List (Str × Str × Str)) (acc : ConfigData × Nat)
    (e : Str × Str × Str) (he : e ∈ es) (hv : e.2.2 ≠ []) :
    ((es.foldl applyEntry acc).1.lookup e.1 e.2.1).isSome = true := by
  induction es generalizing acc with
  | nil => cases he
  | cons e0 es ih =>
    rw [List.foldl_cons]
    rcases List.mem_cons.mp he with he | he
    · subst he
      apply lookup_isSome_foldl
      rw [lookup_applyEntry]
      by_cases hg : get_config_value acc.1 e.1 e.2.1 [] ≠ e.2.2
      · simp [hg]
      · have hg2 : get_config_value acc.1 e.1 e.2.1 [] = e.2.2 := by simpa using hg
        rw [get_config_value_eq] at hg2
        have : ¬ (get_config_value acc.1 e.1 e.2.1 [] ≠ e.2.2 ∧ e.1 = e.1 ∧ e.2.1 = e.2.1) :=
          fun hh => hg hh.1
        rw [if_neg this]
        cases hl : acc.1.lookup e.1 e.2.1 with
        | none => rw [hl] at hg2; exact absurd hg2.symm hv
        | some w => rfl
    · exact ih _ he

theorem lookup_isSome_find (st : ConfigData) (s k : Str) (h : (st.lookup s k).isSome = true) :
    (st.find s).isSome = true := by
  unfold ConfigData.lookup at h
  cases hf : st.find s with
  | none => simp [hf] at h
  | some sec => rfl

/-- Setting a key that is present keeps the sections and keys present. -/
theorem samePresence_applyEntry (acc : ConfigData × Nat) (ref : ConfigData)
    (e : Str × Str × Str) (hp : SamePresence acc.1 ref)
    (hk : get_config_value acc.1 e.1 e.2.1 [] ≠ e.2.2 → (ref.lookup e.1 e.2.1).isSome = true) :
    SamePresence (applyEntry acc e).1 ref := by
  by_cases hg : get_config_value acc.1 e.1 e.2.1 [] ≠ e.2.2
  · have hr := hk hg
    have ha : (acc.1.lookup e.1 e.2.1).isSome = true := by rw [hp.2]; exact hr
    constructor
    · intro s
      rw [find_applyEntry, ← hp.1 s]
      by_cases hs : s = e.1
      · subst hs
        rw [lookup_isSome_find _ _ _ ha]
        simp
      · simp [hs]
    · intro s k
      rw [lookup_applyEntry, ← hp.2 s k]
      by_cases hsk : s = e.1 ∧ k = e.2.1
      · rw [if_pos ⟨hg, hsk⟩, hsk.1, hsk.2, ha]
        rfl
      · rw [if_neg (fun hh => hsk hh.2)]
  · have : (applyEntry acc e).1 = acc.1 := by
      unfold applyEntry
      simp only [hg, if_false]
    rw [this]
    exact hp

theorem samePresence_foldl (es : List (Str × Str × Str)) (ref : ConfigData)
    (hk : ∀ e ∈ es, e.2.2 ≠ [] → (ref.lookup e.1 e.2.1).isSome = true)
    (acc : ConfigData × Nat) (hp : SamePresence acc.1 ref) :
    SamePresence (es.foldl applyEntry acc).1 ref := by
  induction es generalizing acc with
  | nil => exact hp
  | cons e es ih =>
    rw [List.foldl_cons]
    refine ih (fun e2 he2 => hk e2 (by simp [he2])) _ ?_
    refine samePresence_applyEntry acc ref e hp ?_
    intro hg
    by_cases hv : e.2.2 = []
    · rw [← hp.2]
      rw [get_config_value_eq, hv] at hg
      cases hl : acc.1.lookup e.1 e.2.1 with
      | none => rw [hl] at hg; exact absurd rfl hg
      | some w => rfl
    · exact hk e (by simp) hv

theorem option_eq_of_isSome_getD (a b : Option Str) (h1 : a.isSome = b.isSome)
    (h2 : a.getD [] = b.getD []) : a = b := by
  cases a <;> cases b <;> simp_all

/-- Running the same entries a second time leaves the store as the first run
left it. -/
theorem applyEntries_twice_store (st : ConfigData) (hwf : st.WF) (es : List (Str × Str × Str)) :
    (applyEntries (applyEntries st es).1 es).1 = (applyEntries st es).1 := by
  unfold applyEntries
  have hwf1 : (es.foldl applyEntry (st, 0)).1.WF := wf_foldl_applyEntry es _ hwf
  have hwf2 : (es.foldl applyEntry ((es.foldl applyEntry (st, 0)).1, 0)).1.WF :=
    wf_foldl_applyEntry es _ hwf1
  have hp : SamePresence (es.foldl applyEntry ((es.foldl applyEntry (st, 0)).1, 0)).1
      (es.foldl applyEntry (st, 0)).1 := by
    refine samePresence_foldl es _ ?_ _ ⟨fun _ => rfl, fun _ _ => rfl⟩
    intro e he hv
    exact lookup_isSome_of_mem es (st, 0) e he hv
  refine store_ext _ _ hwf2 hwf1 hp.1 ?_
  intro s k
  apply option_eq_of_isSome_getD _ _ (hp.2 s k)
  rw [← get_config_value_eq, ← get_config_value_eq]
  by_cases hm : ∃ e ∈ es, e.1 = s ∧ e.2.1 = k
  · exact get_foldl_mentioned es _ _ s k hm
  · have hno : ∀ e ∈ es, ¬ (e.1 = s ∧ e.2.1 = k) := fun e he hh => hm ⟨e, he, hh⟩
    rw [get_config_value_eq, lookup_foldl_other es _ s k hno, get_config_value_eq]

/-- After a run over consistent entries each entry reads back its value. -/
theorem get_foldl_consistent (es : List (Str × Str × Str)) (hc : ConsistentEntries es)
    (acc : ConfigData × Nat) :
    ∀ e ∈ es, get_config_value (es.foldl applyEntry acc).1 e.1 e.2.1 [] = e.2.2 := by
  induction es generalizing acc with
  | nil => intro e he; cases he
  | cons e0 es ih =>
    have hc2 : ConsistentEntries es :=
      fun a ha b hb => hc a (by simp [ha]) b (by simp [hb])
    intro e he
    rw [List.foldl_cons]
    by_cases hm : ∃ e2 ∈ es, e2.1 = e.1 ∧ e2.2.1 = e.2.1
    · obtain ⟨e2, he2, h1, h2⟩ := hm
      have := ih hc2 (applyEntry acc e0) e2 he2
      rw [h1, h2] at this
      rw [this]
      exact hc e2 (by simp [he2]) e he h1 h2
    · have hno : ∀ e2 ∈ es, ¬ (e2.1 = e.1 ∧ e2.2.1 = e.2.1) := fun e2 he2 hh => hm ⟨e2, he2, hh⟩
      rcases List.mem_cons.mp he with he | he
      · subst he
        rw [get_config_value_eq, lookup_foldl_other es _ _ _ hno, ← get_config_value_eq,
          get_applyEntry]
        simp
      · exact absurd ⟨rfl, rfl⟩ (hno e he)

/-- Entries whose values are all already in the store change nothing. -/
theorem foldl_applyEntry_unchanged (es : List (Str × Str × Str)) (acc : ConfigData × Nat)
    (h : ∀ e ∈ es, get_config_value acc.1 e.1 e.2.1 [] = e.2.2) :
    es.foldl applyEntry acc = acc := by
  induction es with
  | nil => rfl
  | cons e es ih =>
    have he : applyEntry acc e = acc := by
      unfold applyEntry
      simp [h e (by simp)]
    rw [List.foldl_cons, he]
    exact ih (fun e2 he2 => h e2 (by simp [he2]))

/-- C2 as stated fails: run twice on the empty store, the body that sets one key
to `a` and then to `b` reports two updated entries on the second run. -/
theorem second_run_reports_updates :
    ¬ ((update_config_from_string (update_config_from_string [] twoValuesBody).1 twoValuesBody).2 = 0 ∧
        (update_config_from_string (update_config_from_string [] twoValuesBody).1 twoValuesBody).1 =
          (update_config_from_string [] twoValuesBody).1) := by
  decide

/-- C2 amended: a second run of `update_config_from_string` on the same body
leaves the store exactly as the first run left it, and it reports zero updated
entries when no two lines of the body give one section and key different
values. -/
theorem update_twice (st : ConfigData) (hwf : st.WF) (data : Str) :
    (update_config_from_string (update_config_from_string st data).1 data).1 =
        (update_config_from_string st data).1 ∧
      (ConsistentEntries (decodeEntries data) →
        (update_config_from_string (update_config_from_string st data).1 data).2 = 0) := by
  simp only [update_config_from_string_eq]
  refine ⟨applyEntries_twice_store st hwf _, ?_⟩
  intro hc
  unfold applyEntries
  rw [foldl_applyEntry_unchanged]
  exact get_foldl_consistent _ hc (st, 0)

/-- Witness of C2 amended: the store holding `NETWORK`/`PORT` = `9000` and the
body `[NETWORK]PORT=9100\n`. -/
theorem update_twice_witness :
    networkPortStore.WF ∧ ConsistentEntries (decodeEntries "[NETWORK]PORT=9100\n".toList) ∧
      (update_config_from_string
          (update_config_from_string networkPortStore "[NETWORK]PORT=9100\n".toList).1
          "[NETWORK]PORT=9100\n".toList).1 =
        (update_config_from_string networkPortStore "[NETWORK]PORT=9100\n".toList).1 ∧
      (update_config_from_string
          (update_config_from_string networkPortStore "[NETWORK]PORT=9100\n".toList).1
          "[NETWORK]PORT=9100\n".toList).2 = 0 := by
  have hc : ConsistentEntries (decodeEntries "[NETWORK]PORT=9100\n".toList) := by
    have : decodeEntries "[NETWORK]PORT=9100\n".toList =
        [("NETWORK".toList, "PORT".toList, "9100".toList)] := by decide
    rw [this]
    intro a ha b hb _ _
    simp only [List.mem_singleton] at ha hb
    rw [ha, hb]
  have h := update_twice networkPortStore networkPortStore_wf "[NETWORK]PORT=9100\n".toList
  exact ⟨networkPortStore_wf, hc, h.1, h.2 hc⟩

/-! ## `recv` -/

theorem delivered_data_ne (l : Str) (rest : List RecvEvent) (h : l ≠ []) :
    delivered (RecvEvent.data l :: rest) = l ++ delivered rest := by
  cases l with
  | nil => exact absurd rfl h
  | cons b bs => rfl

theorem afterDelivered_data_ne (l : Str) (rest : List RecvEvent) (h : l ≠ []) :
    afterDelivered (RecvEvent.data l :: rest) = afterDelivered rest := by
  cases l with
  | nil => exact absurd rfl h
  | cons b bs => rfl

/-- What `recv` leaves untouched. -/
theorem recv_frame (c : Conn) (len : Nat) :
    (recv c len).2.2.sendPlan = c.sendPlan ∧ (recv c len).2.2.sent = c.sent ∧
      (recv c len).2.2.loads = c.loads ∧ (recv c len).2.2.closed = c.closed ∧
      (recv c len).2.2.recvCalls = c.recvCalls + 1 := by
  unfold recv
  cases c.incoming with
  | nil => simp
  | cons ev rest =>
    cases ev with
    | failure => simp
    | data bytes =>
      by_cases h : bytes.length ≤ len
      · simp [h]
      · simp [h]

theorem recv_nil (c : Conn) (len : Nat) (h : c.incoming = []) :
    recv c len = (0, [], { c with recvCalls := c.recvCalls + 1 }) := by
  unfold recv
  rw [h]

theorem recv_failure (c : Conn) (len : Nat) (rest : List RecvEvent)
    (h : c.incoming = RecvEvent.failure :: rest) :
    recv c len = (-1, [], { c with incoming := rest, recvCalls := c.recvCalls + 1 }) := by
  unfold recv
  rw [h]

theorem recv_data_le (c : Conn) (len : Nat) (bytes : Str) (rest : List RecvEvent)
    (h : c.incoming = RecvEvent.data bytes :: rest) (hle : bytes.length ≤ len) :
    recv c len =
      ((bytes.length : Int), bytes, { c with incoming := rest, recvCalls := c.recvCalls + 1 }) := by
  unfold recv
  rw [h]
  simp only [if_pos hle]

theorem recv_data_gt (c : Conn) (len : Nat) (bytes : Str) (rest : List RecvEvent)
    (h : c.incoming = RecvEvent.data bytes :: rest) (hgt : ¬ bytes.length ≤ len) :
    recv c len =
      ((len : Int), bytes.take len,
        { c with incoming := RecvEvent.data (bytes.drop len) :: rest,
                 recvCalls := c.recvCalls + 1 }) := by
  unfold recv
  rw [h]
  simp only [if_neg hgt]

/-- A `recv` either finds nothing delivered and returns at most `0`, or returns a
non-empty prefix of the delivered bytes. -/
theorem recv_spec (c : Conn) (len : Nat) (hlen : 0 < len) :
    (delivered c.incoming = [] ∧ (recv c len).1 ≤ 0 ∧
        (recv c len).2.2.incoming = afterDelivered c.incoming) ∨
      (0 < (recv c len).1 ∧ (recv c len).1 = ((recv c len).2.1.length : Int) ∧
        (recv c len).2.1.length ≤ len ∧
        delivered c.incoming = (recv c len).2.1 ++ delivered (recv c len).2.2.incoming ∧
        afterDelivered (recv c len).2.2.incoming = afterDelivered c.incoming) := by
  cases hin : c.incoming with
  | nil => left; rw [recv_nil c len hin]; simp [delivered, afterDelivered, hin]
  | cons ev rest =>
    cases ev with
    | failure => left; rw [recv_failure c len rest hin]; simp [delivered, afterDelivered]
    | data bytes =>
      cases bytes with
      | nil =>
        left
        rw [recv_data_le c len [] rest hin (by simp)]
        simp [delivered, afterDelivered]
      | cons b bs =>
        right
        by_cases h : (b :: bs).length ≤ len
        · rw [recv_data_le c len _ rest hin h]
          refine ⟨?_, rfl, h, rfl, rfl⟩
          show (0 : Int) < ((b :: bs).length : Int)
          simp only [List.length_cons]
          omega
        · rw [recv_data_gt c len _ rest hin h]
          have hne : List.drop len (b :: bs) ≠ [] := by
            intro hd
            have := congrArg List.length hd
            simp only [List.length_drop, List.length_nil] at this
            omega
          have hlt : len < (b :: bs).length := by omega
          refine ⟨?_, ?_, ?_, ?_, ?_⟩
          · show (0 : Int) < (len : Int)
            omega
          · show (len : Int) = ((List.take len (b :: bs)).length : Int)
            simp only [List.length_take]
            omega
          · show (List.take len (b :: bs)).length ≤ len
            simp only [List.length_take]
            omega
          · show delivered (RecvEvent.data (b :: bs) :: rest) =
              List.take len (b :: bs) ++ delivered (RecvEvent.data (List.drop len (b :: bs)) :: rest)
            rw [delivered_data_ne _ _ hne, ← List.append_assoc, List.take_append_drop]
            rfl
          · show afterDelivered (RecvEvent.data (List.drop len (b :: bs)) :: rest) =
              afterDelivered (RecvEvent.data (b :: bs) :: rest)
            rw [afterDelivered_data_ne _ _ hne]
            rfl

/-- A one-byte `recv` when a byte is delivered. -/
theorem recv_one (c : Conn) (b : Char) (rest : Str) (h : delivered c.incoming = b :: rest) :
    0 < (recv c 1).1 ∧ (recv c 1).2.1 = [b] ∧ delivered (recv c 1).2.2.incoming = rest ∧
      afterDelivered (recv c 1).2.2.incoming = afterDelivered c.incoming := by
  rcases recv_spec c 1 (by decide) with ⟨h0, _, _⟩ | ⟨h1, h2, h3, h4, h5⟩
  · rw [h] at h0; cases h0
  · have hlen : (recv c 1).2.1.length = 1 := by omega
    obtain ⟨x, hx⟩ := List.length_eq_one.mp hlen
    rw [hx, h] at h4
    simp only [List.singleton_append, List.cons.injEq] at h4
    refine ⟨h1, ?_, h4.2.symm, h5⟩
    rw [hx, h4.1]

/-- A `recv` when nothing is delivered. -/
theorem recv_none (c : Conn) (len : Nat) (hlen : 0 < len) (h : delivered c.incoming = []) :
    (recv c len).1 ≤ 0 ∧ (recv c len).2.2.incoming = afterDelivered c.incoming := by
  rcases recv_spec c len hlen with ⟨_, h1, h2⟩ | ⟨h1, h2, h3, h4, h5⟩
  · exact ⟨h1, h2⟩
  · rw [h] at h4
    have : (recv c len).2.1 = [] := by
      cases hr : (recv c len).2.1 with
      | nil => rfl
      | cons x xs => rw [hr] at h4; cases h4
    rw [this] at h2
    simp at h2
    omega

/-! ## The header loop -/

theorem readHeaderLoop_succ (shutdown : Nat → Bool) (fuel : Nat) (c : Conn) (header : Str)
    (n : Nat) :
    readHeaderLoop shutdown (fuel + 1) c header n =
      if (recv c 1).1 > 0 then
        if !(loadFlag shutdown (recv c 1).2.2).1 then
          if (recv c 1).2.1.headD (Char.ofNat 0) = '\n' then
            HeaderRead.left header (loadFlag shutdown (recv c 1).2.2).2
          else if n + 1 > MAX_HEADER_LENGTH then
            HeaderRead.tooLong (loadFlag shutdown (recv c 1).2.2).2
          else
            readHeaderLoop shutdown fuel (loadFlag shutdown (recv c 1).2.2).2
              (header ++ [(recv c 1).2.1.headD (Char.ofNat 0)]) (n + 1)
        else HeaderRead.left header (loadFlag shutdown (recv c 1).2.2).2
      else HeaderRead.left header (recv c 1).2.2 := rfl

theorem sameWrites_refl (c : Conn) : c.sameWrites c := ⟨rfl, rfl, rfl⟩

theorem sameWrites_trans (a b c : Conn) (h1 : a.sameWrites b) (h2 : b.sameWrites c) :
    a.sameWrites c :=
  ⟨h2.1.trans h1.1, h2.2.1.trans h1.2.1, h2.2.2.trans h1.2.2⟩

theorem sameWrites_recv (c : Conn) (len : Nat) : c.sameWrites (recv c len).2.2 :=
  ⟨(recv_frame c len).1, (recv_frame c len).2.1, (recv_frame c len).2.2.2.1⟩

theorem sameWrites_loadFlag (shutdown : Nat → Bool) (c : Conn) :
    c.sameWrites (loadFlag shutdown c).2 := ⟨rfl, rfl, rfl⟩

/-- One successful iteration step: the socket after the `recv` and the flag load. -/
theorem step_conn (shutdown : Nat → Bool) (c : Conn) (len : Nat) :
    c.sameWrites (loadFlag shutdown (recv c len).2.2).2 ∧
      (loadFlag shutdown (recv c len).2.2).2.incoming = (recv c len).2.2.incoming ∧
      (loadFlag shutdown (recv c len).2.2).2.recvCalls = c.recvCalls + 1 ∧
      (loadFlag shutdown (recv c len).2.2).2.loads = c.loads + 1 ∧
      (loadFlag shutdown (recv c len).2.2).1 = shutdown c.loads := by
  have h := recv_frame c len
  refine ⟨sameWrites_trans _ _ _ (sameWrites_recv c len) (sameWrites_loadFlag _ _), rfl, h.2.2.2.2,
    ?_, ?_⟩
  · show (recv c len).2.2.loads + 1 = c.loads + 1
    rw [h.2.2.1]
  · show shutdown (recv c len).2.2.loads = shutdown c.loads
    rw [h.2.2.1]

/-- The header loop on a stream that delivers the line `x` and its newline, `x`
fitting in the header: either the loop leaves with the whole line and the stream
stands right after the newline, or the shutdown flag stopped it. -/
theorem readHeaderLoop_line (shutdown : Nat → Bool) (hm : MonotoneFlag shutdown) :
    ∀ (x : Str) (fuel : Nat) (c : Conn) (header : Str) (n : Nat) (rest : Str),
      delivered c.incoming = x ++ '\n' :: rest → '\n' ∉ x →
      n + x.length ≤ MAX_HEADER_LENGTH → x.length < fuel →
      ∃ h1 c1, readHeaderLoop shutdown fuel c header n = HeaderRead.left h1 c1 ∧
        c.sameWrites c1 ∧
        ((h1 = header ++ x ∧ delivered c1.incoming = rest ∧
            c1.recvCalls = c.recvCalls + x.length + 1 ∧ c1.loads = c.loads + x.length + 1 ∧
            ∀ i, c.loads ≤ i → i < c1.loads → shutdown i = false) ∨
          (shutdown c1.loads = true ∧ rest <:+ delivered c1.incoming ∧
            c1.recvCalls ≤ c.recvCalls + x.length + 1)) := by
  intro x
  induction x with
  | nil =>
    intro fuel c header n rest hd _ _ hf
    obtain ⟨f, rfl⟩ : ∃ f, fuel = f + 1 := ⟨fuel - 1, by simp at hf; omega⟩
    obtain ⟨r1, r2, r3, _⟩ := recv_one c '\n' rest (by simpa using hd)
    obtain ⟨s1, s2, s3, s4, s5⟩ := step_conn shutdown c 1
    rw [readHeaderLoop_succ, if_pos r1, s5, r2]
    cases hb : shutdown c.loads with
    | false =>
      refine ⟨header, _, by simp, s1, Or.inl ⟨by simp, by rw [s2, r3], by simp [s3], by simp [s4], ?_⟩⟩
      intro i h1 h2
      have : i = c.loads := by omega
      rw [this, hb]
    | true =>
      refine ⟨header, _, by simp, s1, Or.inr ⟨?_, ?_, by simp [s3]⟩⟩
      · rw [s4]; exact hm _ _ (by omega) hb
      · rw [s2, r3]
  | cons b x ih =>
    intro fuel c header n rest hd hnl hn hf
    obtain ⟨f, rfl⟩ : ∃ f, fuel = f + 1 := ⟨fuel - 1, by simp at hf; omega⟩
    have hb1 : b ≠ '\n' := fun e => hnl (by simp [e])
    have hx1 : '\n' ∉ x := fun e => hnl (by simp [e])
    obtain ⟨r1, r2, r3, _⟩ := recv_one c b (x ++ '\n' :: rest) (by simpa using hd)
    obtain ⟨s1, s2, s3, s4, s5⟩ := step_conn shutdown c 1
    simp only [List.length_cons] at hn hf
    rw [readHeaderLoop_succ, if_pos r1, s5, r2]
    cases hb : shutdown c.loads with
    | false =>
      have hcount : ¬ (n + 1 > MAX_HEADER_LENGTH) := by omega
      simp only [Bool.not_false, if_true, List.headD_cons, if_neg hb1, if_neg hcount]
      obtain ⟨h1, c1, e1, w1, hcase⟩ := ih f (loadFlag shutdown (recv c 1).2.2).2 (header ++ [b])
        (n + 1) rest (by rw [s2, r3]) hx1 (by omega) (by omega)
      refine ⟨h1, c1, e1, sameWrites_trans _ _ _ s1 w1, ?_⟩
      rcases hcase with ⟨a1, a2, a3, a4, a5⟩ | ⟨a1, a2, a3⟩
      · refine Or.inl ⟨by simp [a1], a2, by simp [a3, s3]; omega, by simp [a4, s4]; omega, ?_⟩
        intro i h1 h2
        by_cases hi : i = c.loads
        · rw [hi, hb]
        · exact a5 i (by rw [s4]; omega) h2
      · exact Or.inr ⟨a1, a2, by simp only [List.length_cons]; omega⟩
    | true =>
      refine ⟨header, _, by simp, s1, Or.inr ⟨?_, ?_, by simp [s3]⟩⟩
      · rw [s4]; exact hm _ _ (by omega) hb
      · rw [s2, r3]
        exact ⟨x ++ ['\n'], by simp⟩

/-- The header loop on a stream whose next bytes, none a newline, bring the
count to `MAX_HEADER_LENGTH + 1`: either the loop returns on the last of them, or
the shutdown flag stopped it. -/
theorem readHeaderLoop_long (shutdown : Nat → Bool) (hm : MonotoneFlag shutdown) :
    ∀ (x : Str) (fuel : Nat) (c : Conn) (header : Str) (n : Nat) (rest : Str),
      delivered c.incoming = x ++ rest → '\n' ∉ x → x ≠ [] →
      n + x.length = MAX_HEADER_LENGTH + 1 → x.length ≤ fuel →
      (∃ c1, readHeaderLoop shutdown fuel c header n = HeaderRead.tooLong c1 ∧
          c.sameWrites c1 ∧ delivered c1.incoming = rest ∧
          c1.recvCalls = c.recvCalls + x.length ∧ c1.loads = c.loads + x.length) ∨
        (∃ h1 c1, readHeaderLoop shutdown fuel c header n = HeaderRead.left h1 c1 ∧
          c.sameWrites c1 ∧ shutdown c1.loads = true ∧ c1.recvCalls ≤ c.recvCalls + x.length ∧
          (∃ i, c.loads ≤ i ∧ i < c.loads + x.length ∧ shutdown i = true)) := by
  intro x
  induction x with
  | nil => intro fuel c header n rest _ _ hne; exact absurd rfl hne
  | cons b x ih =>
    intro fuel c header n rest hd hnl _ hn hf
    simp only [List.length_cons] at hn hf
    obtain ⟨f, rfl⟩ : ∃ f, fuel = f + 1 := ⟨fuel - 1, by omega⟩
    have hb1 : b ≠ '\n' := fun e => hnl (by simp [e])
    have hx1 : '\n' ∉ x := fun e => hnl (by simp [e])
    obtain ⟨r1, r2, r3, _⟩ := recv_one c b (x ++ rest) (by simpa using hd)
    obtain ⟨s1, s2, s3, s4, s5⟩ := step_conn shutdown c 1
    rw [readHeaderLoop_succ, if_pos r1, s5, r2]
    cases hb : shutdown c.loads with
    | false =>
      simp only [Bool.not_false, if_true, List.headD_cons, if_neg hb1]
      cases x with
      | nil =>
        have hcount : n + 1 > MAX_HEADER_LENGTH := by simp at hn; omega
        rw [if_pos hcount]
        exact Or.inl ⟨_, rfl, s1, by rw [s2, r3]; rfl, by simp [s3], by simp [s4]⟩
      | cons b2 x2 =>
        have hcount : ¬ (n + 1 > MAX_HEADER_LENGTH) := by simp at hn; omega
        rw [if_neg hcount]
        rcases ih f (loadFlag shutdown (recv c 1).2.2).2 (header ++ [b]) (n + 1) rest
          (by rw [s2, r3]) hx1 (by simp) (by omega) (by omega) with
          ⟨c1, e1, w1, a1, a2, a3⟩ | ⟨h1, c1, e1, w1, a1, a2, i, a3, a4, a5⟩
        · exact Or.inl ⟨c1, e1, sameWrites_trans _ _ _ s1 w1, a1, by rw [a2, s3]; simp only [List.length_cons]; omega,
            by rw [a3, s4]; simp only [List.length_cons]; omega⟩
        · refine Or.inr ⟨h1, c1, e1, sameWrites_trans _ _ _ s1 w1, a1, ?_, i, ?_, ?_, a5⟩
          · rw [s3] at a2; simp only [List.length_cons] at a2 ⊢; omega
          · rw [s4] at a3; omega
          · rw [s4] at a4; simp only [List.length_cons] at a4 ⊢; omega
    | true =>
      refine Or.inr ⟨header, _, by simp, s1, ?_, by rw [s3]; simp only [List.length_cons]; omega,
        c.loads, by omega, by simp only [List.length_cons]; omega, hb⟩
      rw [s4]; exact hm _ _ (by omega) hb

/-! ## The body loop -/

theorem recvBodyLoop_succ (shutdown : Nat → Bool) (expected_length fuel : Nat) (c : Conn)
    (received_data : Str) (total_received : Nat) :
    recvBodyLoop shutdown expected_length (fuel + 1) c received_data total_received =
      if total_received < expected_length then
        if !(loadFlag shutdown c).1 then
          if (recv (loadFlag shutdown c).2
              (min BUFFER_SIZE (expected_length - total_received))).1 ≤ 0 then
            BodyRead.failed (recv (loadFlag shutdown c).2
              (min BUFFER_SIZE (expected_length - total_received))).2.2
          else
            recvBodyLoop shutdown expected_length fuel
              (recv (loadFlag shutdown c).2
                (min BUFFER_SIZE (expected_length - total_received))).2.2
              (received_data ++ (recv (loadFlag shutdown c).2
                (min BUFFER_SIZE (expected_length - total_received))).2.1)
              (total_received + (recv (loadFlag shutdown c).2
                (min BUFFER_SIZE (expected_length - total_received))).1.toNat)
        else BodyRead.left received_data (loadFlag shutdown c).2
      else BodyRead.left received_data c := rfl

/-- The three ways the body loop ends: a `recv` fails before enough bytes were
delivered, the shutdown flag stops it, or it leaves with exactly the missing
bytes appended. -/
theorem recvBodyLoop_spec (shutdown : Nat → Bool) (hm : MonotoneFlag shutdown)
    (expected_length : Nat) :
    ∀ (fuel : Nat) (c : Conn) (data : Str) (total : Nat), expected_length - total < fuel →
      (∃ c1, recvBodyLoop shutdown expected_length fuel c data total = BodyRead.failed c1 ∧
          c.sameWrites c1 ∧ (delivered c.incoming).length < expected_length - total ∧
          c.recvCalls < c1.recvCalls) ∨
        (∃ d c1, recvBodyLoop shutdown expected_length fuel c data total = BodyRead.left d c1 ∧
          c.sameWrites c1 ∧ shutdown c1.loads = true ∧
          (∃ i, c.loads ≤ i ∧ shutdown i = true)) ∨
        (∃ c1, recvBodyLoop shutdown expected_length fuel c data total =
            BodyRead.left (data ++ (delivered c.incoming).take (expected_length - total)) c1 ∧
          c.sameWrites c1 ∧ expected_length - total ≤ (delivered c.incoming).length ∧
          delivered c1.incoming = (delivered c.incoming).drop (expected_length - total) ∧
          c.recvCalls ≤ c1.recvCalls ∧
          (0 < expected_length - total → c.recvCalls < c1.recvCalls)) := by
  intro fuel
  induction fuel with
  | zero => intro c data total h; omega
  | succ f ih =>
    intro c data total hf
    rw [recvBodyLoop_succ]
    by_cases hlt : total < expected_length
    · rw [if_pos hlt]
      have hl1 : (loadFlag shutdown c).1 = shutdown c.loads := rfl
      have hl2 : (loadFlag shutdown c).2.incoming = c.incoming := rfl
      have hl3 : (loadFlag shutdown c).2.loads = c.loads + 1 := rfl
      have hl4 : (loadFlag shutdown c).2.recvCalls = c.recvCalls := rfl
      rw [hl1]
      cases hb : shutdown c.loads with
      | true =>
        simp only [Bool.not_true, Bool.false_eq_true, if_false]
        exact Or.inr (Or.inl ⟨data, _, rfl, sameWrites_loadFlag _ _,
          by rw [hl3]; exact hm _ _ (by omega) hb, c.loads, by omega, hb⟩)
      | false =>
        simp only [Bool.not_false, if_true]
        have hpos : 0 < min BUFFER_SIZE (expected_length - total) := by
          simp only [BUFFER_SIZE]; omega
        have hw := sameWrites_trans _ _ _ (sameWrites_loadFlag shutdown c)
          (sameWrites_recv (loadFlag shutdown c).2 (min BUFFER_SIZE (expected_length - total)))
        have hrc := (recv_frame (loadFlag shutdown c).2
          (min BUFFER_SIZE (expected_length - total))).2.2.2.2
        have hrl := (recv_frame (loadFlag shutdown c).2
          (min BUFFER_SIZE (expected_length - total))).2.2.1
        rcases recv_spec (loadFlag shutdown c).2 (min BUFFER_SIZE (expected_length - total)) hpos
          with ⟨r1, r2, _⟩ | ⟨r1, r2, r3, r4, _⟩
        · rw [if_pos r2]
          refine Or.inl ⟨_, rfl, hw, ?_, by rw [hrc, hl4]; omega⟩
          rw [hl2] at r1
          rw [r1]
          simp only [List.length_nil]
          omega
        · rw [if_neg (by omega)]
          rw [hl2] at r4
          generalize hr : recv (loadFlag shutdown c).2 (min BUFFER_SIZE (expected_length - total)) = r
            at r1 r2 r3 r4 hw hrc hrl
          obtain ⟨n, bytes, c2⟩ := r
          simp only at r1 r2 r3 r4 hw hrc hrl ⊢
          subst r2
          simp only [Int.toNat_ofNat]
          have hbl : bytes.length ≤ expected_length - total := by
            have := Nat.min_le_right BUFFER_SIZE (expected_length - total)
            omega
          have hbp : 0 < bytes.length := by omega
          rcases ih c2 (data ++ bytes) (total + bytes.length) (by omega) with
            ⟨c1, e1, w1, a1, a2⟩ | ⟨d, c1, e1, w1, a1, i, a2, a3⟩ | ⟨c1, e1, w1, a1, a2, a3, _⟩
          · refine Or.inl ⟨c1, e1, sameWrites_trans _ _ _ hw w1, ?_, by rw [hrc, hl4] at a2; omega⟩
            rw [r4, List.length_append]
            omega
          · exact Or.inr (Or.inl ⟨d, c1, e1, sameWrites_trans _ _ _ hw w1, a1, i,
              by rw [hrl, hl3] at a2; omega, a3⟩)
          · refine Or.inr (Or.inr ⟨c1, ?_, sameWrites_trans _ _ _ hw w1, ?_, ?_, ?_, ?_⟩)
            · rw [e1, r4]
              congr 1
              have : expected_length - total = bytes.length + (expected_length - (total + bytes.length)) := by
                omega
              rw [this, List.take_append, List.append_assoc]
            · rw [r4, List.length_append]
              omega
            · rw [a2, r4]
              have : expected_length - total = bytes.length + (expected_length - (total + bytes.length)) := by
                omega
              rw [this, List.drop_append]
            · rw [hrc, hl4] at a3; omega
            · intro _
              rw [hrc, hl4] at a3; omega
    · rw [if_neg hlt]
      have h0 : expected_length - total = 0 := by omega
      refine Or.inr (Or.inr ⟨c, by rw [h0]; simp, sameWrites_refl c, by omega, by rw [h0]; simp,
        by omega, by omega⟩)

/-! ## The exits of `handle_client_connection` -/

theorem handle_of_tooLong (sizeBits : Nat) (shutdown : Nat → Bool) (st : ConfigData) (c c1 : Conn)
    (h : readHeaderLoop shutdown (MAX_HEADER_LENGTH + 2) c [] 0 = HeaderRead.tooLong c1) :
    handle_client_connection sizeBits shutdown st c = ⟨st, 0, close c1, Outcome.headerTooLong⟩ := by
  unfold handle_client_connection
  rw [h]

theorem handle_of_stopped (sizeBits : Nat) (shutdown : Nat → Bool) (st : ConfigData)
    (c c1 : Conn) (h1 : Str)
    (h : readHeaderLoop shutdown (MAX_HEADER_LENGTH + 2) c [] 0 = HeaderRead.left h1 c1)
    (hs : shutdown c1.loads = true) :
    ∃ c2, handle_client_connection sizeBits shutdown st c = ⟨st, 0, close c2, Outcome.noHeader⟩ ∧
      c1.sameWrites c2 ∧ c2.recvCalls = c1.recvCalls ∧ c2.incoming = c1.incoming := by
  unfold handle_client_connection
  rw [h]
  by_cases he : h1 = []
  · exact ⟨c1, by simp [he], sameWrites_refl c1, rfl, rfl⟩
  · have : (loadFlag shutdown c1).1 = true := hs
    exact ⟨(loadFlag shutdown c1).2, by simp [he, this], sameWrites_loadFlag _ _, rfl, rfl⟩

theorem handle_of_header (sizeBits : Nat) (shutdown : Nat → Bool) (st : ConfigData)
    (c c1 : Conn) (h1 : Str)
    (h : readHeaderLoop shutdown (MAX_HEADER_LENGTH + 2) c [] 0 = HeaderRead.left h1 c1)
    (hne : h1 ≠ []) (hs : shutdown c1.loads = false) :
    handle_client_connection sizeBits shutdown st c =
      match stoull h1 with
      | Except.error e => ⟨st, 0, close (loadFlag shutdown c1).2, Outcome.exception e⟩
      | Except.ok v =>
        if v % 2 ^ sizeBits = 0 then
          ⟨st, 0, close (send_config_on_existing_socket shutdown st (loadFlag shutdown c1).2),
            Outcome.pullReply⟩
        else if v % 2 ^ sizeBits > MAX_MESSAGE_SIZE then
          ⟨st, 0, close (loadFlag shutdown c1).2, Outcome.oversized⟩
        else
          match recvBodyLoop shutdown (v % 2 ^ sizeBits) (v % 2 ^ sizeBits + 1)
              (loadFlag shutdown c1).2 [] 0 with
          | BodyRead.outOfFuel => ⟨st, 0, (loadFlag shutdown c1).2, Outcome.outOfFuel⟩
          | BodyRead.failed c3 => ⟨st, 0, close c3, Outcome.bodyReadFailed⟩
          | BodyRead.left received_data c3 =>
            if !(loadFlag shutdown c3).1 then
              ⟨(update_config_from_string st received_data).1,
                (update_config_from_string st received_data).2,
                close (loadFlag shutdown c3).2, Outcome.applied⟩
            else ⟨st, 0, close (loadFlag shutdown c3).2, Outcome.cancelled⟩ := by
  unfold handle_client_connection
  rw [h]
  have : (loadFlag shutdown c1).1 = false := hs
  simp only [hne, if_false, this, Bool.false_eq_true]

theorem close_frame (c : Conn) :
    (close c).sent = c.sent ∧ (close c).recvCalls = c.recvCalls ∧
      (close c).incoming = c.incoming ∧ (close c).closed = true ∧ (close c).loads = c.loads :=
  ⟨rfl, rfl, rfl, rfl, rfl⟩

/-- The header length limit when no `recv` fails inside the header: if the
stream delivers 21 bytes without a newline before any `recv` fails, the handler
never parses a length, writes nothing, leaves the store alone and reads at most
those 21 bytes; unless shutdown intervenes it rejects the header as too long
exactly when the 21st byte has been read. A header of at most 20 characters
delivered with its newline is never rejected as too long. -/
theorem header_length_rejection (sizeBits : Nat) (shutdown : Nat → Bool)
    (hm : MonotoneFlag shutdown) (st : ConfigData) (c : Conn) :
    (∀ x rest : Str, delivered c.incoming = x ++ rest → x.length = MAX_HEADER_LENGTH + 1 →
      '\n' ∉ x →
        (handle_client_connection sizeBits shutdown st c).store = st ∧
        (handle_client_connection sizeBits shutdown st c).updates = 0 ∧
        (handle_client_connection sizeBits shutdown st c).conn.sent = c.sent ∧
        (handle_client_connection sizeBits shutdown st c).conn.closed = true ∧
        (handle_client_connection sizeBits shutdown st c).conn.recvCalls ≤ c.recvCalls + 21 ∧
        ((handle_client_connection sizeBits shutdown st c).outcome = Outcome.headerTooLong ∨
          (handle_client_connection sizeBits shutdown st c).outcome = Outcome.noHeader) ∧
        ((∀ i, c.loads ≤ i → i < c.loads + 21 → shutdown i = false) →
          (handle_client_connection sizeBits shutdown st c).outcome = Outcome.headerTooLong ∧
          (handle_client_connection sizeBits shutdown st c).conn.recvCalls = c.recvCalls + 21 ∧
          delivered (handle_client_connection sizeBits shutdown st c).conn.incoming = rest)) ∧
    (∀ hdr rest : Str, delivered c.incoming = hdr ++ '\n' :: rest →
      hdr.length ≤ MAX_HEADER_LENGTH → '\n' ∉ hdr →
        (handle_client_connection sizeBits shutdown st c).outcome ≠ Outcome.headerTooLong) := by
  constructor
  · intro x rest hd hlen hnl
    have hne : x ≠ [] := by
      intro e; rw [e] at hlen; simp [MAX_HEADER_LENGTH] at hlen
    rcases readHeaderLoop_long shutdown hm x (MAX_HEADER_LENGTH + 2) c [] 0 rest hd hnl hne
      (by omega) (by omega) with ⟨c1, e1, w1, a1, a2, a3⟩ | ⟨h1, c1, e1, w1, a1, a2, i, a3, a4, a5⟩
    · rw [handle_of_tooLong sizeBits shutdown st c c1 e1]
      simp only [MAX_HEADER_LENGTH] at hlen
      refine ⟨rfl, rfl, w1.2.1, rfl, ?_, Or.inl rfl, fun _ => ⟨rfl, ?_, a1⟩⟩
      · show c1.recvCalls ≤ c.recvCalls + 21
        omega
      · show c1.recvCalls = c.recvCalls + 21
        omega
    · obtain ⟨c2, e2, w2, b1, b2⟩ := handle_of_stopped sizeBits shutdown st c c1 h1 e1 a1
      rw [e2]
      simp only [MAX_HEADER_LENGTH] at hlen
      refine ⟨rfl, rfl, ?_, rfl, ?_, Or.inr rfl, ?_⟩
      · show c2.sent = c.sent
        rw [w2.2.1, w1.2.1]
      · show c2.recvCalls ≤ c.recvCalls + 21
        omega
      · intro hall
        have := hall i a3 (by omega)
        rw [this] at a5
        cases a5
  · intro hdr rest hd hlen hnl
    obtain ⟨h1, c1, e1, _, _⟩ := readHeaderLoop_line shutdown hm hdr (MAX_HEADER_LENGTH + 2) c []
      0 rest hd hnl (by omega) (by omega)
    unfold handle_client_connection
    rw [e1]
    simp only
    split
    · simp
    · split
      · simp
      · split
        · simp
        · split
          · simp
          · split
            · simp
            · split <;> (try simp)
              split <;> simp

theorem monotone_neverShutdown : MonotoneFlag neverShutdown := by
  intro i j _ h
  cases h

theorem monotone_of_false (shutdown : Nat → Bool) (h : ∀ i, shutdown i = false) :
    MonotoneFlag shutdown := by
  intro i j _ hi
  rw [h i] at hi
  cases hi

/-- Example of `header_length_rejection`: a stream of 25 letters `a` delivered
in one piece is rejected when the 21st has been read, and the header `19` of a
well-formed frame is not rejected as too long. -/
theorem header_length_rejection_witness :
    MonotoneFlag neverShutdown ∧
    delivered (connOf ["aaaaaaaaaaaaaaaaaaaaaaaaa".toList]).incoming =
      "aaaaaaaaaaaaaaaaaaaaa".toList ++ "aaaa".toList ∧
    "aaaaaaaaaaaaaaaaaaaaa".toList.length = MAX_HEADER_LENGTH + 1 ∧
    '\n' ∉ "aaaaaaaaaaaaaaaaaaaaa".toList ∧
    (handle_client_connection 64 neverShutdown networkPortStore
        (connOf ["aaaaaaaaaaaaaaaaaaaaaaaaa".toList])).outcome = Outcome.headerTooLong ∧
    (handle_client_connection 64 neverShutdown networkPortStore
        (connOf ["aaaaaaaaaaaaaaaaaaaaaaaaa".toList])).conn.recvCalls = 21 ∧
    (handle_client_connection 64 neverShutdown networkPortStore
        (connOf ["aaaaaaaaaaaaaaaaaaaaaaaaa".toList])).store = networkPortStore ∧
    (handle_client_connection 64 neverShutdown networkPortStore
        (connOf ["aaaaaaaaaaaaaaaaaaaaaaaaa".toList])).conn.sent = [] ∧
    delivered (connOf ["19\n[NETWORK]PORT=9100\n".toList]).incoming =
      "19".toList ++ '\n' :: "[NETWORK]PORT=9100\n".toList ∧
    (handle_client_connection 64 neverShutdown networkPortStore
        (connOf ["19\n[NETWORK]PORT=9100\n".toList])).outcome ≠ Outcome.headerTooLong := by
  have h1 := (header_length_rejection 64 neverShutdown monotone_neverShutdown networkPortStore
    (connOf ["aaaaaaaaaaaaaaaaaaaaaaaaa".toList])).1 "aaaaaaaaaaaaaaaaaaaaa".toList "aaaa".toList
    (by decide) (by decide) (by decide)
  have h2 := (header_length_rejection 64 neverShutdown monotone_neverShutdown networkPortStore
    (connOf ["19\n[NETWORK]PORT=9100\n".toList])).2 "19".toList "[NETWORK]PORT=9100\n".toList
    (by decide) (by decide) (by decide)
  have h3 := h1.2.2.2.2.2.2 (fun _ _ _ => rfl)
  exact ⟨monotone_neverShutdown, by decide, by decide, by decide, h3.1, h3.2.1, h1.1, h1.2.2.1,
    by decide, h2⟩

/-- The handler after a complete header line when shutdown is never requested. -/
theorem handle_of_line (sizeBits : Nat) (shutdown : Nat → Bool) (hsh : ∀ i, shutdown i = false)
    (st : ConfigData) (c : Conn) (hdr rest : Str)
    (hd : delivered c.incoming = hdr ++ '\n' :: rest) (hnl : '\n' ∉ hdr) (hne : hdr ≠ [])
    (hlen : hdr.length ≤ MAX_HEADER_LENGTH) :
    ∃ c2, c.sameWrites c2 ∧ delivered c2.incoming = rest ∧
      c2.recvCalls = c.recvCalls + hdr.length + 1 ∧
      handle_client_connection sizeBits shutdown st c =
        match stoull hdr with
        | Except.error e => ⟨st, 0, close c2, Outcome.exception e⟩
        | Except.ok v =>
          if v % 2 ^ sizeBits = 0 then
            ⟨st, 0, close (send_config_on_existing_socket shutdown st c2), Outcome.pullReply⟩
          else if v % 2 ^ sizeBits > MAX_MESSAGE_SIZE then
            ⟨st, 0, close c2, Outcome.oversized⟩
          else
            match recvBodyLoop shutdown (v % 2 ^ sizeBits) (v % 2 ^ sizeBits + 1) c2 [] 0 with
            | BodyRead.outOfFuel => ⟨st, 0, c2, Outcome.outOfFuel⟩
            | BodyRead.failed c3 => ⟨st, 0, close c3, Outcome.bodyReadFailed⟩
            | BodyRead.left received_data c3 =>
              if !(loadFlag shutdown c3).1 then
                ⟨(update_config_from_string st received_data).1,
                  (update_config_from_string st received_data).2,
                  close (loadFlag shutdown c3).2, Outcome.applied⟩
              else ⟨st, 0, close (loadFlag shutdown c3).2, Outcome.cancelled⟩ := by
  obtain ⟨h1, c1, e1, w1, hcase⟩ := readHeaderLoop_line shutdown (monotone_of_false shutdown hsh)
    hdr (MAX_HEADER_LENGTH + 2) c [] 0 rest hd hnl (by omega) (by omega)
  rcases hcase with ⟨a1, a2, a3, a4, _⟩ | ⟨a1, _, _⟩
  · simp only [List.nil_append] at a1
    subst a1
    refine ⟨(loadFlag shutdown c1).2, sameWrites_trans _ _ _ w1 (sameWrites_loadFlag _ _), a2, a3, ?_⟩
    exact handle_of_header sizeBits shutdown st c c1 h1 e1 hne (hsh _)
  · rw [hsh] at a1
    cases a1

/-- The size limit when no `recv` fails inside the header and shutdown is not
requested: after a complete header line the frame is rejected as oversized
exactly when `expected_length`, the parsed value converted to `size_t`, exceeds
`MAX_MESSAGE_SIZE`; the rejection reads nothing after the header terminator,
writes nothing and leaves the store unchanged, whereas an `expected_length` of
exactly `MAX_MESSAGE_SIZE` goes on to `recv` the body. -/
theorem oversized_rejection (sizeBits : Nat) (shutdown : Nat → Bool)
    (hsh : ∀ i, shutdown i = false) (st : ConfigData) (c : Conn) (hdr rest : Str)
    (hd : delivered c.incoming = hdr ++ '\n' :: rest) (hnl : '\n' ∉ hdr) (hne : hdr ≠ [])
    (hlen : hdr.length ≤ MAX_HEADER_LENGTH) :
    ((handle_client_connection sizeBits shutdown st c).outcome = Outcome.oversized ↔
      ∃ v, stoull hdr = Except.ok v ∧ 1048576 < v % 2 ^ sizeBits) ∧
    ((handle_client_connection sizeBits shutdown st c).outcome = Outcome.oversized →
      (handle_client_connection sizeBits shutdown st c).store = st ∧
      (handle_client_connection sizeBits shutdown st c).updates = 0 ∧
      (handle_client_connection sizeBits shutdown st c).conn.sent = c.sent ∧
      (handle_client_connection sizeBits shutdown st c).conn.closed = true ∧
      (handle_client_connection sizeBits shutdown st c).conn.recvCalls =
        c.recvCalls + hdr.length + 1 ∧
      delivered (handle_client_connection sizeBits shutdown st c).conn.incoming = rest) ∧
    (∀ v, stoull hdr = Except.ok v → v % 2 ^ sizeBits = 1048576 →
      c.recvCalls + hdr.length + 1 <
        (handle_client_connection sizeBits shutdown st c).conn.recvCalls ∧
      ((handle_client_connection sizeBits shutdown st c).outcome = Outcome.applied ∨
        (handle_client_connection sizeBits shutdown st c).outcome = Outcome.bodyReadFailed)) := by
  obtain ⟨c2, w2, d2, r2, e2⟩ := handle_of_line sizeBits shutdown hsh st c hdr rest hd hnl hne hlen
  cases hst : stoull hdr with
  | error e =>
    rw [hst] at e2
    simp only at e2
    rw [e2]
    refine ⟨⟨(fun h => by cases h), ?_⟩, (fun h => by cases h), ?_⟩
    · rintro ⟨v, hv, _⟩
      cases hv
    · intro v hv
      cases hv
  | ok v =>
    rw [hst] at e2
    simp only at e2
    by_cases h0 : v % 2 ^ sizeBits = 0
    · rw [if_pos h0] at e2
      rw [e2]
      refine ⟨⟨(fun h => by cases h), ?_⟩, (fun h => by cases h), ?_⟩
      · rintro ⟨v2, hv2, hlt⟩
        cases hv2
        omega
      · intro v2 hv2 h3
        cases hv2
        omega
    · by_cases h1 : v % 2 ^ sizeBits > MAX_MESSAGE_SIZE
      · rw [if_neg h0, if_pos h1] at e2
        rw [e2]
        refine ⟨⟨(fun _ => ⟨v, rfl, h1⟩), (fun _ => rfl)⟩,
          (fun _ => ⟨rfl, rfl, w2.2.1, rfl, r2, d2⟩), ?_⟩
        intro v2 hv2 h3
        cases hv2
        simp only [MAX_MESSAGE_SIZE] at h1
        omega
      · rw [if_neg h0, if_neg h1] at e2
        have hnot : ¬ ∃ v2, Except.ok v = (Except.ok v2 : Except StoullError Nat) ∧
            1048576 < v2 % 2 ^ sizeBits := by
          rintro ⟨v2, hv2, hlt⟩
          cases hv2
          simp only [MAX_MESSAGE_SIZE] at h1
          omega
        rcases recvBodyLoop_spec shutdown (monotone_of_false shutdown hsh) (v % 2 ^ sizeBits)
            (v % 2 ^ sizeBits + 1) c2 [] 0 (by omega) with
          ⟨c3, e3, w3, a1, a2⟩ | ⟨d, c3, e3, w3, a1, _⟩ | ⟨c3, e3, w3, a1, a2, a3, a4⟩
        · rw [e3] at e2
          simp only at e2
          rw [e2]
          refine ⟨⟨(fun h => by cases h), (fun h => absurd h hnot)⟩, (fun h => by cases h), ?_⟩
          intro v2 hv2 h3
          refine ⟨?_, Or.inr rfl⟩
          show c.recvCalls + hdr.length + 1 < c3.recvCalls
          omega
        · rw [hsh] at a1
          cases a1
        · rw [e3] at e2
          have hf : (loadFlag shutdown c3).1 = false := hsh _
          simp only [hf, Bool.not_false, if_true] at e2
          rw [e2]
          refine ⟨⟨(fun h => by cases h), (fun h => absurd h hnot)⟩, (fun h => by cases h), ?_⟩
          intro v2 hv2 h3
          cases hv2
          refine ⟨?_, Or.inl rfl⟩
          show c.recvCalls + hdr.length + 1 < c3.recvCalls
          have := a4 (by omega)
          omega

/-- Example of `oversized_rejection`: the header `1048577`, delivered with its
newline in one piece to a handler whose `size_t` has 64 bits, is rejected as
oversized. -/
theorem oversized_rejection_witness :
    (∀ i, neverShutdown i = false) ∧
    delivered (connOf ["1048577\nxyz".toList]).incoming = "1048577".toList ++ '\n' :: "xyz".toList ∧
    '\n' ∉ "1048577".toList ∧ "1048577".toList ≠ [] ∧
    "1048577".toList.length ≤ MAX_HEADER_LENGTH ∧
    (∃ v, stoull "1048577".toList = Except.ok v ∧ 1048576 < v % 2 ^ 64) ∧
    (handle_client_connection 64 neverShutdown networkPortStore
      (connOf ["1048577\nxyz".toList])).outcome = Outcome.oversized ∧
    (handle_client_connection 64 neverShutdown networkPortStore
      (connOf ["1048577\nxyz".toList])).store = networkPortStore ∧
    (handle_client_connection 64 neverShutdown networkPortStore
      (connOf ["1048577\nxyz".toList])).conn.sent = [] ∧
    delivered (handle_client_connection 64 neverShutdown networkPortStore
      (connOf ["1048577\nxyz".toList])).conn.incoming = "xyz".toList := by
  have h := oversized_rejection 64 neverShutdown (fun _ => rfl) networkPortStore
    (connOf ["1048577\nxyz".toList]) "1048577".toList "xyz".toList
    (by decide) (by decide) (by decide) (by decide)
  have hv : ∃ v, stoull "1048577".toList = Except.ok v ∧ 1048576 < v % 2 ^ 64 :=
    ⟨1048577, by decide, by decide⟩
  have ho := h.1.mpr hv
  have h2 := h.2.1 ho
  exact ⟨fun _ => rfl, by decide, by decide, by decide, by decide, hv, ho, h2.1, h2.2.2.1,
    h2.2.2.2.2.2⟩

/-- An incomplete body when no `recv` fails inside the header: if the stream
delivers a header line with its newline, the header declaring `n` body bytes,
and then fewer than `n` bytes before the connection closes or a read fails, the
handler does not apply anything: the store is exactly as before. -/
theorem no_partial_application (sizeBits : Nat) (shutdown : Nat → Bool)
    (hm : MonotoneFlag shutdown) (st : ConfigData) (c : Conn) (hdr rest : Str) (v : Nat)
    (hd : delivered c.incoming = hdr ++ '\n' :: rest) (hnl : '\n' ∉ hdr)
    (hst : stoull hdr = Except.ok v) (hshort : rest.length < v % 2 ^ sizeBits) :
    (handle_client_connection sizeBits shutdown st c).store = st ∧
    (handle_client_connection sizeBits shutdown st c).updates = 0 ∧
    (handle_client_connection sizeBits shutdown st c).outcome ≠ Outcome.applied := by
  have stopped : ∀ h1 c1, readHeaderLoop shutdown (MAX_HEADER_LENGTH + 2) c [] 0 =
        HeaderRead.left h1 c1 → shutdown c1.loads = true →
      (handle_client_connection sizeBits shutdown st c).store = st ∧
      (handle_client_connection sizeBits shutdown st c).updates = 0 ∧
      (handle_client_connection sizeBits shutdown st c).outcome ≠ Outcome.applied := by
    intro h1 c1 e1 a1
    obtain ⟨c2, e2, _⟩ := handle_of_stopped sizeBits shutdown st c c1 h1 e1 a1
    rw [e2]
    exact ⟨rfl, rfl, (fun h => by cases h)⟩
  by_cases hlen : hdr.length ≤ MAX_HEADER_LENGTH
  · obtain ⟨h1, c1, e1, w1, hcase⟩ := readHeaderLoop_line shutdown hm hdr (MAX_HEADER_LENGTH + 2)
      c [] 0 rest hd hnl (by omega) (by omega)
    rcases hcase with ⟨a1, a2, _, _, _⟩ | ⟨a1, _, _⟩
    · cases hs : shutdown c1.loads with
      | true => exact stopped h1 c1 e1 hs
      | false =>
        simp only [List.nil_append] at a1
        subst a1
        have hne : h1 ≠ [] := by
          intro e
          rw [e] at hst
          have h2 : stoull [] = Except.error StoullError.invalid_argument := by decide
          rw [h2] at hst
          cases hst
        have e2 := handle_of_header sizeBits shutdown st c c1 h1 e1 hne hs
        rw [hst] at e2
        simp only at e2
        by_cases h0 : v % 2 ^ sizeBits = 0
        · rw [if_pos h0] at e2
          rw [e2]
          exact ⟨rfl, rfl, (fun h => by cases h)⟩
        · by_cases h2 : v % 2 ^ sizeBits > MAX_MESSAGE_SIZE
          · rw [if_neg h0, if_pos h2] at e2
            rw [e2]
            exact ⟨rfl, rfl, (fun h => by cases h)⟩
          · rw [if_neg h0, if_neg h2] at e2
            have hd2 : delivered (loadFlag shutdown c1).2.incoming = rest := a2
            rcases recvBodyLoop_spec shutdown hm (v % 2 ^ sizeBits) (v % 2 ^ sizeBits + 1)
                (loadFlag shutdown c1).2 [] 0 (by omega) with
              ⟨c3, e3, _, _, _⟩ | ⟨d, c3, e3, _, b1, _⟩ | ⟨c3, e3, _, b1, _⟩
            · rw [e3] at e2
              simp only at e2
              rw [e2]
              exact ⟨rfl, rfl, (fun h => by cases h)⟩
            · rw [e3] at e2
              have hf : (loadFlag shutdown c3).1 = true := b1
              simp only [hf, Bool.not_true, Bool.false_eq_true, if_false] at e2
              rw [e2]
              exact ⟨rfl, rfl, (fun h => by cases h)⟩
            · rw [hd2] at b1
              omega
    · exact stopped h1 c1 e1 a1
  · have hsplit : hdr ++ '\n' :: rest =
        hdr.take (MAX_HEADER_LENGTH + 1) ++ (hdr.drop (MAX_HEADER_LENGTH + 1) ++ '\n' :: rest) := by
      rw [← List.append_assoc, List.take_append_drop]
    have hx1 : '\n' ∉ hdr.take (MAX_HEADER_LENGTH + 1) := fun h => hnl (List.mem_of_mem_take h)
    have hx2 : (hdr.take (MAX_HEADER_LENGTH + 1)).length = MAX_HEADER_LENGTH + 1 := by
      rw [List.length_take]
      omega
    have hx3 : hdr.take (MAX_HEADER_LENGTH + 1) ≠ [] := by
      intro e
      rw [e] at hx2
      simp at hx2
    rcases readHeaderLoop_long shutdown hm (hdr.take (MAX_HEADER_LENGTH + 1))
        (MAX_HEADER_LENGTH + 2) c [] 0 _ (hd.trans hsplit) hx1 hx3 (by omega) (by omega) with
      ⟨c1, e1, _⟩ | ⟨h1, c1, e1, _, a1, _⟩
    · rw [handle_of_tooLong sizeBits shutdown st c c1 e1]
      exact ⟨rfl, rfl, (fun h => by cases h)⟩
    · exact stopped h1 c1 e1 a1

/-- Example of `no_partial_application`: a header declaring 30 bytes followed by
only 19 bytes, which form a complete well-formed line. -/
theorem no_partial_application_witness :
    MonotoneFlag neverShutdown ∧
    delivered (connOf ["30\n[NETWORK]PORT=9100\n".toList]).incoming =
      "30".toList ++ '\n' :: "[NETWORK]PORT=9100\n".toList ∧
    '\n' ∉ "30".toList ∧ stoull "30".toList = Except.ok 30 ∧
    "[NETWORK]PORT=9100\n".toList.length < 30 % 2 ^ 64 ∧
    (handle_client_connection 64 neverShutdown networkPortStore
      (connOf ["30\n[NETWORK]PORT=9100\n".toList])).store = networkPortStore ∧
    (handle_client_connection 64 neverShutdown networkPortStore
      (connOf ["30\n[NETWORK]PORT=9100\n".toList])).updates = 0 ∧
    (handle_client_connection 64 neverShutdown networkPortStore
      (connOf ["30\n[NETWORK]PORT=9100\n".toList])).outcome ≠ Outcome.applied := by
  have h := no_partial_application 64 neverShutdown monotone_neverShutdown networkPortStore
    (connOf ["30\n[NETWORK]PORT=9100\n".toList]) "30".toList "[NETWORK]PORT=9100\n".toList 30
    (by decide) (by decide) (by decide) (by decide)
  exact ⟨monotone_neverShutdown, by decide, by decide, by decide, by decide, h⟩

/-! ## The reply to a pull request -/

theorem sendLoop_succ (shutdown : Nat → Bool) (config_str : Str) (fuel : Nat) (c : Conn)
    (total_sent : Nat) :
    sendLoop shutdown config_str (fuel + 1) c total_sent =
      if total_sent < config_str.length then
        if !(loadFlag shutdown c).1 then
          match send (loadFlag shutdown c).2 (config_str.drop total_sent) with
          | (SendReturn.sentBytes n, c2) => sendLoop shutdown config_str fuel c2 (total_sent + n)
          | (SendReturn.again, c2) => sendLoop shutdown config_str fuel c2 total_sent
          | (SendReturn.error, c2) => c2
        else (loadFlag shutdown (loadFlag shutdown c).2).2
      else (loadFlag shutdown c).2 := rfl

theorem send_nil (c : Conn) (data : Str) (h : c.sendPlan = []) :
    send c data = (SendReturn.sentBytes data.length, { c with sent := c.sent ++ data }) := by
  unfold send
  rw [h]

theorem send_accept (c : Conn) (data : Str) (n : Nat) (rest : List SendEvent)
    (h : c.sendPlan = SendEvent.accept n :: rest) :
    send c data = (SendReturn.sentBytes (min n data.length),
      { c with sendPlan := rest, sent := c.sent ++ data.take (min n data.length) }) := by
  unfold send
  rw [h]

theorem send_wouldBlock (c : Conn) (data : Str) (rest : List SendEvent)
    (h : c.sendPlan = SendEvent.wouldBlock :: rest) :
    send c data = (SendReturn.again, { c with sendPlan := rest }) := by
  unfold send
  rw [h]

/-- With shutdown never requested and no failing `send`, the loop writes all
that was still to be written and touches nothing on the read side. -/
theorem sendLoop_all (shutdown : Nat → Bool) (hsh : ∀ i, shutdown i = false) (data : Str) :
    ∀ (fuel : Nat) (c : Conn) (total : Nat), SendEvent.failure ∉ c.sendPlan →
      (if total < data.length then c.sendPlan.length + 2 else 1) ≤ fuel → total ≤ data.length →
      (sendLoop shutdown data fuel c total).sent = c.sent ++ data.drop total ∧
        (sendLoop shutdown data fuel c total).incoming = c.incoming ∧
        (sendLoop shutdown data fuel c total).recvCalls = c.recvCalls ∧
        (sendLoop shutdown data fuel c total).closed = c.closed := by
  intro fuel
  induction fuel with
  | zero =>
    intro c total _ hf _
    split at hf <;> omega
  | succ f ih =>
    intro c total hplan hf htot
    rw [sendLoop_succ]
    by_cases hlt : total < data.length
    · rw [if_pos hlt] at hf
      rw [if_pos hlt]
      have hfl : (loadFlag shutdown c).1 = false := hsh _
      simp only [hfl, Bool.not_false, if_true]
      cases hp : c.sendPlan with
      | nil =>
        have hs : send (loadFlag shutdown c).2 (data.drop total) =
            (SendReturn.sentBytes (data.drop total).length,
              { (loadFlag shutdown c).2 with sent := c.sent ++ data.drop total }) :=
          send_nil (loadFlag shutdown c).2 _ hp
        rw [hs]
        simp only
        have hl : total + (data.drop total).length = data.length := by
          rw [List.length_drop]; omega
        rw [hl]
        have := ih { (loadFlag shutdown c).2 with sent := c.sent ++ data.drop total } data.length
          (by show SendEvent.failure ∉ c.sendPlan; exact hplan)
          (by rw [if_neg (by omega)]; omega) (by omega)
        rw [this.1, this.2.1, this.2.2.1, this.2.2.2]
        refine ⟨?_, rfl, rfl, rfl⟩
        simp
      | cons ev rest =>
        rw [hp] at hplan hf
        simp only [List.length_cons] at hf
        have hrest : SendEvent.failure ∉ rest := fun h => hplan (by simp [h])
        cases ev with
        | failure => exact absurd (by simp) hplan
        | wouldBlock =>
          have hs : send (loadFlag shutdown c).2 (data.drop total) =
              (SendReturn.again, { (loadFlag shutdown c).2 with sendPlan := rest }) :=
            send_wouldBlock (loadFlag shutdown c).2 _ rest hp
          rw [hs]
          simp only
          have := ih { (loadFlag shutdown c).2 with sendPlan := rest } total hrest
            (by rw [if_pos hlt]; show rest.length + 2 ≤ f; omega) htot
          rw [this.1, this.2.1, this.2.2.1, this.2.2.2]
          exact ⟨rfl, rfl, rfl, rfl⟩
        | accept n =>
          have hs : send (loadFlag shutdown c).2 (data.drop total) =
              (SendReturn.sentBytes (min n (data.drop total).length),
                { (loadFlag shutdown c).2 with
                  sendPlan := rest,
                  sent := c.sent ++ (data.drop total).take (min n (data.drop total).length) }) :=
            send_accept (loadFlag shutdown c).2 _ n rest hp
          rw [hs]
          simp only
          have hk : min n (data.drop total).length ≤ data.length - total := by
            rw [List.length_drop]; exact Nat.min_le_right _ _
          have := ih { (loadFlag shutdown c).2 with
              sendPlan := rest,
              sent := c.sent ++ (data.drop total).take (min n (data.drop total).length) }
            (total + min n (data.drop total).length) hrest
            (by
              show (if total + min n (data.drop total).length < data.length then rest.length + 2
                else 1) ≤ f
              split <;> omega)
            (by omega)
          rw [this.1, this.2.1, this.2.2.1, this.2.2.2]
          refine ⟨?_, rfl, rfl, rfl⟩
          show c.sent ++ (data.drop total).take (min n (data.drop total).length) ++
            data.drop (total + min n (data.drop total).length) = c.sent ++ data.drop total
          rw [List.append_assoc, ← List.drop_drop, List.take_append_drop]
    · rw [if_neg hlt]
      have : total = data.length := by omega
      refine ⟨?_, rfl, rfl, rfl⟩
      show c.sent = c.sent ++ data.drop total
      rw [this]
      simp

/-- A pull request when no `recv` fails inside the header: a header line
delivered with its newline and declaring length 0, shutdown not being requested
and no `send` failing, makes the handler write exactly the frame
`serialize_config` gives for the store, read nothing after the header terminator
and leave the store as it was. -/
theorem pull_request_reply (sizeBits : Nat) (shutdown : Nat → Bool)
    (hsh : ∀ i, shutdown i = false) (st : ConfigData) (c : Conn) (hdr rest : Str) (v : Nat)
    (hd : delivered c.incoming = hdr ++ '\n' :: rest) (hnl : '\n' ∉ hdr)
    (hlen : hdr.length ≤ MAX_HEADER_LENGTH) (hst : stoull hdr = Except.ok v)
    (hv : v % 2 ^ sizeBits = 0) (hplan : SendEvent.failure ∉ c.sendPlan) :
    (handle_client_connection sizeBits shutdown st c).outcome = Outcome.pullReply ∧
    (handle_client_connection sizeBits shutdown st c).conn.sent = c.sent ++ serialize_config st ∧
    (handle_client_connection sizeBits shutdown st c).store = st ∧
    (handle_client_connection sizeBits shutdown st c).updates = 0 ∧
    delivered (handle_client_connection sizeBits shutdown st c).conn.incoming = rest ∧
    (handle_client_connection sizeBits shutdown st c).conn.recvCalls =
      c.recvCalls + hdr.length + 1 ∧
    (handle_client_connection sizeBits shutdown st c).conn.closed = true := by
  have hne : hdr ≠ [] := by
    intro e
    rw [e] at hst
    have h2 : stoull [] = Except.error StoullError.invalid_argument := by decide
    rw [h2] at hst
    cases hst
  obtain ⟨c2, w2, d2, r2, e2⟩ := handle_of_line sizeBits shutdown hsh st c hdr rest hd hnl hne hlen
  rw [hst] at e2
  simp only at e2
  rw [if_pos hv] at e2
  rw [e2]
  have hp2 : SendEvent.failure ∉ c2.sendPlan := by rw [w2.1]; exact hplan
  have hs := sendLoop_all shutdown hsh (serialize_config st) (c2.sendPlan.length + 2) c2 0 hp2
    (by split <;> omega) (by omega)
  refine ⟨rfl, ?_, rfl, rfl, ?_, ?_, rfl⟩
  · show (send_config_on_existing_socket shutdown st c2).sent = c.sent ++ serialize_config st
    unfold send_config_on_existing_socket
    rw [hs.1, w2.2.1]
    rfl
  · show delivered (send_config_on_existing_socket shutdown st c2).incoming = rest
    unfold send_config_on_existing_socket
    rw [hs.2.1, d2]
  · show (send_config_on_existing_socket shutdown st c2).recvCalls = c.recvCalls + hdr.length + 1
    unfold send_config_on_existing_socket
    rw [hs.2.2.1, r2]

/-- Example of `pull_request_reply`: the frame `0\n` sent to a handler whose
store holds `NETWORK`/`PORT` = `9000`. -/
theorem pull_request_reply_witness :
    (∀ i, neverShutdown i = false) ∧
    delivered (connOf ["0\nxyz".toList]).incoming = "0".toList ++ '\n' :: "xyz".toList ∧
    '\n' ∉ "0".toList ∧ "0".toList.length ≤ MAX_HEADER_LENGTH ∧
    stoull "0".toList = Except.ok 0 ∧ 0 % 2 ^ 64 = 0 ∧
    SendEvent.failure ∉ (connOf ["0\nxyz".toList]).sendPlan ∧
    (handle_client_connection 64 neverShutdown networkPortStore
      (connOf ["0\nxyz".toList])).conn.sent = [] ++ serialize_config networkPortStore ∧
    (handle_client_connection 64 neverShutdown networkPortStore
      (connOf ["0\nxyz".toList])).store = networkPortStore ∧
    delivered (handle_client_connection 64 neverShutdown networkPortStore
      (connOf ["0\nxyz".toList])).conn.incoming = "xyz".toList := by
  have h := pull_request_reply 64 neverShutdown (fun _ => rfl) networkPortStore
    (connOf ["0\nxyz".toList]) "0".toList "xyz".toList 0
    (by decide) (by decide) (by decide) (by decide) (by decide) (by decide)
  exact ⟨fun _ => rfl, by decide, by decide, by decide, by decide, by decide, by decide,
    h.2.1, h.2.2.1, h.2.2.2.2.1⟩

/-! ## Independence of the fragmentation -/

theorem delivered_fragments (fs : List Str) (tail : List RecvEvent) (h : ∀ f ∈ fs, f ≠ []) :
    delivered (fs.map RecvEvent.data ++ tail) = fs.flatten ++ delivered tail ∧
      afterDelivered (fs.map RecvEvent.data ++ tail) = afterDelivered tail := by
  induction fs with
  | nil => exact ⟨rfl, rfl⟩
  | cons f fs ih =>
    have hf : f ≠ [] := h f (by simp)
    have ih2 := ih (fun g hg => h g (by simp [hg]))
    simp only [List.map_cons, List.cons_append, List.flatten_cons]
    rw [delivered_data_ne _ _ hf, afterDelivered_data_ne _ _ hf, ih2.1, ih2.2]
    exact ⟨by simp, rfl⟩

/-- The header loop does the same on two sockets that deliver the same bytes. -/
theorem readHeaderLoop_sameStream (b : Bool) :
    ∀ (fuel : Nat) (c c2 : Conn) (header : Str) (n : Nat), SameStream c c2 →
      (readHeaderLoop (fun _ => b) fuel c header n).sameAs
        (readHeaderLoop (fun _ => b) fuel c2 header n) := by
  intro fuel
  induction fuel with
  | zero => intro c c2 header n _; exact True.intro
  | succ f ih =>
    intro c c2 header n hs
    rw [readHeaderLoop_succ, readHeaderLoop_succ]
    have hl : ∀ x : Conn, (loadFlag (fun _ => b) x).1 = b := fun _ => rfl
    have hi : ∀ x : Conn, (loadFlag (fun _ => b) x).2.incoming = x.incoming := fun _ => rfl
    cases hd : delivered c.incoming with
    | nil =>
      have hd2 : delivered c2.incoming = [] := by rw [← hs.1, hd]
      obtain ⟨r1, r2⟩ := recv_none c 1 (by decide) hd
      obtain ⟨q1, q2⟩ := recv_none c2 1 (by decide) hd2
      rw [if_neg (by omega), if_neg (by omega)]
      refine ⟨rfl, ?_⟩
      unfold SameStream
      rw [r2, q2, hs.2]
      exact ⟨rfl, rfl⟩
    | cons b0 rest =>
      have hd2 : delivered c2.incoming = b0 :: rest := by rw [← hs.1, hd]
      obtain ⟨r1, r2, r3, r4⟩ := recv_one c b0 rest hd
      obtain ⟨q1, q2, q3, q4⟩ := recv_one c2 b0 rest hd2
      have hss : SameStream (loadFlag (fun _ => b) (recv c 1).2.2).2
          (loadFlag (fun _ => b) (recv c2 1).2.2).2 := by
        unfold SameStream
        rw [hi, hi, r3, q3, r4, q4]
        exact ⟨rfl, hs.2⟩
      rw [if_pos r1, if_pos q1, hl, hl, r2, q2]
      cases b with
      | true => exact ⟨rfl, hss⟩
      | false =>
        simp only [Bool.not_false, if_true, List.headD_cons]
        by_cases hnl : b0 = '\n'
        · rw [if_pos hnl, if_pos hnl]
          exact ⟨rfl, hss⟩
        · rw [if_neg hnl, if_neg hnl]
          by_cases hc : n + 1 > MAX_HEADER_LENGTH
          · rw [if_pos hc, if_pos hc]
            exact True.intro
          · rw [if_neg hc, if_neg hc]
            exact ih _ _ _ _ hss

/-- The handler reaches the same store, update count and exit on two sockets
that deliver the same bytes, shutdown being constant. -/
theorem handle_sameStream (sizeBits : Nat) (b : Bool) (st : ConfigData) (c c2 : Conn)
    (hs : SameStream c c2) :
    (handle_client_connection sizeBits (fun _ => b) st c).store =
        (handle_client_connection sizeBits (fun _ => b) st c2).store ∧
      (handle_client_connection sizeBits (fun _ => b) st c).updates =
        (handle_client_connection sizeBits (fun _ => b) st c2).updates ∧
      (handle_client_connection sizeBits (fun _ => b) st c).outcome =
        (handle_client_connection sizeBits (fun _ => b) st c2).outcome := by
  have hsim := readHeaderLoop_sameStream b (MAX_HEADER_LENGTH + 2) c c2 [] 0 hs
  cases e1 : readHeaderLoop (fun _ => b) (MAX_HEADER_LENGTH + 2) c [] 0 with
  | outOfFuel =>
    cases e2 : readHeaderLoop (fun _ => b) (MAX_HEADER_LENGTH + 2) c2 [] 0 with
    | outOfFuel =>
      unfold handle_client_connection
      rw [e1, e2]
      exact ⟨rfl, rfl, rfl⟩
    | tooLong c3 => rw [e1, e2] at hsim; exact hsim.elim
    | left h3 c3 => rw [e1, e2] at hsim; exact hsim.elim
  | tooLong c1 =>
    cases e2 : readHeaderLoop (fun _ => b) (MAX_HEADER_LENGTH + 2) c2 [] 0 with
    | outOfFuel => rw [e1, e2] at hsim; exact hsim.elim
    | tooLong c3 =>
      rw [handle_of_tooLong _ _ _ _ _ e1, handle_of_tooLong _ _ _ _ _ e2]
      exact ⟨rfl, rfl, rfl⟩
    | left h3 c3 => rw [e1, e2] at hsim; exact hsim.elim
  | left h1 c1 =>
    cases e2 : readHeaderLoop (fun _ => b) (MAX_HEADER_LENGTH + 2) c2 [] 0 with
    | outOfFuel => rw [e1, e2] at hsim; exact hsim.elim
    | tooLong c3 => rw [e1, e2] at hsim; exact hsim.elim
    | left h3 c3 =>
      rw [e1, e2] at hsim
      obtain ⟨hh, hss⟩ := hsim
      subst hh
      cases b with
      | true =>
        obtain ⟨x1, y1, _⟩ := handle_of_stopped sizeBits (fun _ => true) st c c1 h1 e1 rfl
        obtain ⟨x2, y2, _⟩ := handle_of_stopped sizeBits (fun _ => true) st c2 c3 h1 e2 rfl
        rw [y1, y2]
        exact ⟨rfl, rfl, rfl⟩
      | false =>
        by_cases hne : h1 = []
        · have k1 : handle_client_connection sizeBits (fun _ => false) st c =
              ⟨st, 0, close c1, Outcome.noHeader⟩ := by
            unfold handle_client_connection
            rw [e1]
            simp [hne]
          have k2 : handle_client_connection sizeBits (fun _ => false) st c2 =
              ⟨st, 0, close c3, Outcome.noHeader⟩ := by
            unfold handle_client_connection
            rw [e2]
            simp [hne]
          rw [k1, k2]
          exact ⟨rfl, rfl, rfl⟩
        · have k1 := handle_of_header sizeBits (fun _ => false) st c c1 h1 e1 hne rfl
          have k2 := handle_of_header sizeBits (fun _ => false) st c2 c3 h1 e2 hne rfl
          cases hst : stoull h1 with
          | error e =>
            rw [hst] at k1 k2
            simp only at k1 k2
            rw [k1, k2]
            exact ⟨rfl, rfl, rfl⟩
          | ok v =>
            rw [hst] at k1 k2
            simp only at k1 k2
            by_cases h0 : v % 2 ^ sizeBits = 0
            · rw [if_pos h0] at k1 k2
              rw [k1, k2]
              exact ⟨rfl, rfl, rfl⟩
            · by_cases h2 : v % 2 ^ sizeBits > MAX_MESSAGE_SIZE
              · rw [if_neg h0, if_pos h2] at k1 k2
                rw [k1, k2]
                exact ⟨rfl, rfl, rfl⟩
              · rw [if_neg h0, if_neg h2] at k1 k2
                have hmf : MonotoneFlag (fun _ => false) := monotone_of_false _ (fun _ => rfl)
                have hdd : delivered (loadFlag (fun _ => false) c1).2.incoming =
                    delivered (loadFlag (fun _ => false) c3).2.incoming := hss.1
                rcases recvBodyLoop_spec (fun _ => false) hmf (v % 2 ^ sizeBits)
                    (v % 2 ^ sizeBits + 1) (loadFlag (fun _ => false) c1).2 [] 0 (by omega) with
                  ⟨x1, y1, _, z1, _⟩ | ⟨_, x1, _, _, z1, _⟩ | ⟨x1, y1, _, z1, _⟩
                · rcases recvBodyLoop_spec (fun _ => false) hmf (v % 2 ^ sizeBits)
                      (v % 2 ^ sizeBits + 1) (loadFlag (fun _ => false) c3).2 [] 0 (by omega) with
                    ⟨x2, y2, _, z2, _⟩ | ⟨_, x2, _, _, z2, _⟩ | ⟨x2, y2, _, z2, _⟩
                  · rw [y1] at k1
                    rw [y2] at k2
                    simp only at k1 k2
                    rw [k1, k2]
                    exact ⟨rfl, rfl, rfl⟩
                  · cases z2
                  · rw [hdd] at z1
                    omega
                · cases z1
                · rcases recvBodyLoop_spec (fun _ => false) hmf (v % 2 ^ sizeBits)
                      (v % 2 ^ sizeBits + 1) (loadFlag (fun _ => false) c3).2 [] 0 (by omega) with
                    ⟨x2, y2, _, z2, _⟩ | ⟨_, x2, _, _, z2, _⟩ | ⟨x2, y2, _, z2, _⟩
                  · rw [hdd] at z1
                    omega
                  · cases z2
                  · rw [y1] at k1
                    rw [y2, ← hdd] at k2
                    have f1 : (loadFlag (fun _ => false) x1).1 = false := rfl
                    have f2 : (loadFlag (fun _ => false) x2).1 = false := rfl
                    simp only [f1, f2, Bool.not_false, if_true] at k1 k2
                    rw [k1, k2]
                    exact ⟨rfl, rfl, rfl⟩

/-- C8: shutdown being constant, two ways of splitting the same byte stream into
non-empty fragments give the same store, the same update count and the same
exit; and when the stream carries a header line declaring `n` followed by at
least `n` bytes, the first `n` of them are what `update_config_from_string`
receives. -/
theorem fragmentation_independence (sizeBits : Nat) (b : Bool) (st : ConfigData) (c : Conn)
    (fs1 fs2 : List Str) (tail : List RecvEvent)
    (h1 : ∀ f ∈ fs1, f ≠ []) (h2 : ∀ f ∈ fs2, f ≠ []) (hj : fs1.flatten = fs2.flatten) :
    (handle_client_connection sizeBits (fun _ => b) st
        { c with incoming := fs1.map RecvEvent.data ++ tail }).store =
      (handle_client_connection sizeBits (fun _ => b) st
        { c with incoming := fs2.map RecvEvent.data ++ tail }).store ∧
    (handle_client_connection sizeBits (fun _ => b) st
        { c with incoming := fs1.map RecvEvent.data ++ tail }).updates =
      (handle_client_connection sizeBits (fun _ => b) st
        { c with incoming := fs2.map RecvEvent.data ++ tail }).updates ∧
    (handle_client_connection sizeBits (fun _ => b) st
        { c with incoming := fs1.map RecvEvent.data ++ tail }).outcome =
      (handle_client_connection sizeBits (fun _ => b) st
        { c with incoming := fs2.map RecvEvent.data ++ tail }).outcome ∧
    (∀ (hdr body extra : Str) (v : Nat), fs1.flatten = hdr ++ '\n' :: (body ++ extra) →
      '\n' ∉ hdr → hdr.length ≤ MAX_HEADER_LENGTH → stoull hdr = Except.ok v →
      v % 2 ^ sizeBits = body.length → 0 < body.length → body.length ≤ MAX_MESSAGE_SIZE →
      b = false →
        (handle_client_connection sizeBits (fun _ => b) st
          { c with incoming := fs1.map RecvEvent.data ++ tail }).outcome = Outcome.applied ∧
        (handle_client_connection sizeBits (fun _ => b) st
          { c with incoming := fs1.map RecvEvent.data ++ tail }).store =
            (update_config_from_string st body).1 ∧
        (handle_client_connection sizeBits (fun _ => b) st
          { c with incoming := fs1.map RecvEvent.data ++ tail }).updates =
            (update_config_from_string st body).2) := by
  have d1 := delivered_fragments fs1 tail h1
  have d2 := delivered_fragments fs2 tail h2
  have hs : SameStream { c with incoming := fs1.map RecvEvent.data ++ tail }
      { c with incoming := fs2.map RecvEvent.data ++ tail } := by
    unfold SameStream
    show delivered (fs1.map RecvEvent.data ++ tail) = delivered (fs2.map RecvEvent.data ++ tail) ∧
      afterDelivered (fs1.map RecvEvent.data ++ tail) =
        afterDelivered (fs2.map RecvEvent.data ++ tail)
    rw [d1.1, d1.2, d2.1, d2.2, hj]
    exact ⟨rfl, rfl⟩
  have hsame := handle_sameStream sizeBits b st _ _ hs
  refine ⟨hsame.1, hsame.2.1, hsame.2.2, ?_⟩
  intro hdr body extra v hfl hnl hlen hst hv hpos hmax hb
  subst hb
  have hd : delivered ({ c with incoming := fs1.map RecvEvent.data ++ tail } : Conn).incoming =
      hdr ++ '\n' :: (body ++ extra ++ delivered tail) := by
    show delivered (fs1.map RecvEvent.data ++ tail) = _
    rw [d1.1, hfl]
    simp
  have hne : hdr ≠ [] := by
    intro e
    rw [e] at hst
    have h2 : stoull [] = Except.error StoullError.invalid_argument := by decide
    rw [h2] at hst
    cases hst
  obtain ⟨c2, w2, dd2, r2, e2⟩ := handle_of_line sizeBits (fun _ => false) (fun _ => rfl) st _
    hdr _ hd hnl hne hlen
  rw [hst] at e2
  simp only at e2
  rw [if_neg (by omega), if_neg (by omega)] at e2
  rcases recvBodyLoop_spec (fun _ => false) (monotone_of_false _ (fun _ => rfl))
      (v % 2 ^ sizeBits) (v % 2 ^ sizeBits + 1) c2 [] 0 (by omega) with
    ⟨x1, y1, _, z1, _⟩ | ⟨_, x1, _, _, z1, _⟩ | ⟨x1, y1, _, z1, _⟩
  · rw [dd2] at z1
    simp only [List.length_append] at z1
    omega
  · cases z1
  · rw [y1, dd2] at e2
    have f1 : (loadFlag (fun _ => false) x1).1 = false := rfl
    simp only [f1, Bool.not_false, if_true] at e2
    have hb : [] ++ List.take (v % 2 ^ sizeBits - 0) (body ++ extra ++ delivered tail) = body := by
      rw [hv, List.nil_append, Nat.sub_zero, List.append_assoc, List.take_left]
    rw [hb] at e2
    rw [e2]
    exact ⟨rfl, rfl, rfl⟩

/-- Witness of C8: the frame `19\n[NETWORK]PORT=9100\n` delivered in 1-byte
chunks and delivered in a single chunk. -/
theorem fragmentation_independence_witness :
    (∀ f ∈ port9100Frame.map (fun ch => [ch]), f ≠ []) ∧
    (∀ f ∈ [port9100Frame], f ≠ []) ∧
    (port9100Frame.map (fun ch => [ch])).flatten = [port9100Frame].flatten ∧
    (handle_client_connection 64 (fun _ => false) networkPortStore
        { connOf [] with
          incoming := (port9100Frame.map (fun ch => [ch])).map RecvEvent.data ++ [] }).store =
      (handle_client_connection 64 (fun _ => false) networkPortStore
        { connOf [] with incoming := [port9100Frame].map RecvEvent.data ++ [] }).store ∧
    (handle_client_connection 64 (fun _ => false) networkPortStore
        { connOf [] with
          incoming := (port9100Frame.map (fun ch => [ch])).map RecvEvent.data ++ [] }).outcome =
      Outcome.applied ∧
    (handle_client_connection 64 (fun _ => false) networkPortStore
        { connOf [] with
          incoming := (port9100Frame.map (fun ch => [ch])).map RecvEvent.data ++ [] }).store =
      (update_config_from_string networkPortStore "[NETWORK]PORT=9100\n".toList).1 := by
  have h := fragmentation_independence 64 false networkPortStore (connOf [])
    (port9100Frame.map (fun ch => [ch])) [port9100Frame] [] (by decide) (by decide) (by decide)
  have h2 := h.2.2.2 "19".toList "[NETWORK]PORT=9100\n".toList [] 19 (by decide) (by decide)
    (by decide) (by decide) (by decide) (by decide) (by decide) rfl
  exact ⟨by decide, by decide, by decide, h.1, h2.1, h2.2.1⟩

/-! ## The fuel of the loops suffices -/

theorem readHeaderLoop_fuel (shutdown : Nat → Bool) :
    ∀ (fuel : Nat) (c : Conn) (header : Str) (n : Nat), n ≤ MAX_HEADER_LENGTH →
      MAX_HEADER_LENGTH + 1 ≤ n + fuel →
      readHeaderLoop shutdown fuel c header n ≠ HeaderRead.outOfFuel := by
  intro fuel
  induction fuel with
  | zero => intro c header n h1 h2; omega
  | succ f ih =>
    intro c header n h1 h2
    rw [readHeaderLoop_succ]
    split
    · split
      · split
        · exact fun h => by cases h
        · split
          · exact fun h => by cases h
          · exact ih _ _ _ (by omega) (by omega)
      · exact fun h => by cases h
    · exact fun h => by cases h

theorem recvBodyLoop_fuel (shutdown : Nat → Bool) (expected_length : Nat) :
    ∀ (fuel : Nat) (c : Conn) (data : Str) (total : Nat), expected_length - total < fuel →
      recvBodyLoop shutdown expected_length fuel c data total ≠ BodyRead.outOfFuel := by
  intro fuel
  induction fuel with
  | zero => intro c data total h; omega
  | succ f ih =>
    intro c data total hf
    rw [recvBodyLoop_succ]
    by_cases hlt : total < expected_length
    · rw [if_pos hlt]
      split
      · have hpos : 0 < min BUFFER_SIZE (expected_length - total) := by
          simp only [BUFFER_SIZE]; omega
        rcases recv_spec (loadFlag shutdown c).2 (min BUFFER_SIZE (expected_length - total)) hpos
          with ⟨_, r2, _⟩ | ⟨r1, r2, _⟩
        · rw [if_pos r2]
          exact fun h => by cases h
        · rw [if_neg (by omega)]
          apply ih
          have : 0 < (recv (loadFlag shutdown c).2
              (min BUFFER_SIZE (expected_length - total))).1.toNat := by omega
          omega
      · exact fun h => by cases h
    · rw [if_neg hlt]
      exact fun h => by cases h

/-- The handler always reaches one of the exits of the source. -/
theorem handle_client_connection_exits (sizeBits : Nat) (shutdown : Nat → Bool)
    (st : ConfigData) (c : Conn) :
    (handle_client_connection sizeBits shutdown st c).outcome ≠ Outcome.outOfFuel := by
  have hh := readHeaderLoop_fuel shutdown (MAX_HEADER_LENGTH + 2) c [] 0 (by omega) (by omega)
  unfold handle_client_connection
  cases e1 : readHeaderLoop shutdown (MAX_HEADER_LENGTH + 2) c [] 0 with
  | outOfFuel => exact absurd e1 hh
  | tooLong c1 => exact fun h => by cases h
  | left h1 c1 =>
    simp only
    split
    · exact fun h => by cases h
    · split
      · exact fun h => by cases h
      · cases stoull h1 with
        | error e => exact fun h => by cases h
        | ok v =>
          simp only
          split
          · exact fun h => by cases h
          · split
            · exact fun h => by cases h
            · have hb := recvBodyLoop_fuel shutdown (v % 2 ^ sizeBits) (v % 2 ^ sizeBits + 1)
                (loadFlag shutdown c1).2 [] 0 (by omega)
              cases e2 : recvBodyLoop shutdown (v % 2 ^ sizeBits) (v % 2 ^ sizeBits + 1)
                  (loadFlag shutdown c1).2 [] 0 with
              | outOfFuel => exact absurd e2 hb
              | failed c3 => exact fun h => by cases h
              | left d c3 =>
                simp only
                split <;> exact fun h => by cases h

/-- More fuel than `send_config_on_existing_socket` gives does not change the
result of its loop. -/
theorem sendLoop_fuel (shutdown : Nat → Bool) (data : Str) :
    ∀ (fuel : Nat) (c : Conn) (total : Nat),
      (if total < data.length then c.sendPlan.length + 2 else 1) ≤ fuel →
      sendLoop shutdown data (fuel + 1) c total = sendLoop shutdown data fuel c total := by
  intro fuel
  induction fuel with
  | zero =>
    intro c total hf
    split at hf <;> omega
  | succ f ih =>
    intro c total hf
    rw [sendLoop_succ shutdown data (f + 1), sendLoop_succ shutdown data f]
    by_cases hlt : total < data.length
    · rw [if_pos hlt] at hf
      rw [if_pos hlt, if_pos hlt]
      cases hfl : (loadFlag shutdown c).1 with
      | true => rfl
      | false =>
        simp only [Bool.not_false, if_true]
        have hpl : (loadFlag shutdown c).2.sendPlan = c.sendPlan := rfl
        cases hp : c.sendPlan with
        | nil =>
          rw [send_nil _ _ (hpl.trans hp)]
          simp only
          apply ih
          have : ¬ total + (List.drop total data).length < data.length := by
            rw [List.length_drop]; omega
          rw [if_neg this]
          rw [hp] at hf
          simp at hf
          omega
        | cons ev rest =>
          rw [hp] at hf
          simp only [List.length_cons] at hf
          cases ev with
          | failure =>
            have : send (loadFlag shutdown c).2 (List.drop total data) =
                (SendReturn.error, { (loadFlag shutdown c).2 with sendPlan := rest }) := by
              unfold send
              rw [hpl.trans hp]
            rw [this]
          | wouldBlock =>
            rw [send_wouldBlock _ _ rest (hpl.trans hp)]
            simp only
            apply ih
            rw [if_pos hlt]
            show rest.length + 2 ≤ f
            omega
          | accept n =>
            rw [send_accept _ _ n rest (hpl.trans hp)]
            simp only
            apply ih
            show (if total + min n (List.drop total data).length < data.length
              then rest.length + 2 else 1) ≤ f
            split <;> omega
    · rw [if_neg hlt, if_neg hlt]

/-! ## Each condition of `Encodable` is needed -/

/-- A `]` in the section name ends the section early. -/
theorem roundtrip_needs_no_bracket_in_section :
    singleEntryRoundTrips "a]b".toList "K".toList "v".toList = false := by
  decide

/-- An `=` in the key ends the key early. -/
theorem roundtrip_needs_no_equals_in_key :
    singleEntryRoundTrips "A".toList "k=x".toList "v".toList = false := by
  decide

/-- A newline in the section, the key or the value splits the line. -/
theorem roundtrip_needs_no_newline :
    singleEntryRoundTrips "A\nB".toList "K".toList "v".toList = false ∧
      singleEntryRoundTrips "A".toList "K\nL".toList "v".toList = false ∧
      singleEntryRoundTrips "A".toList "K".toList "v\nw".toList = false := by
  decide

/-- An empty value is not stored into an empty store, the value read for an
absent key being the empty string. -/
theorem roundtrip_needs_value_ne_nil :
    singleEntryRoundTrips "A".toList "K".toList [] = false := by
  decide

/-- A well-formed entry does come back. -/
theorem roundtrip_single_entry :
    singleEntryRoundTrips "NETWORK".toList "PORT".toList "9000".toList = true := by
  decide

/-! ## A push of one entry -/

/-- A value without newline that does not end in a space, tab or carriage
return is left as it is by the trimming. -/
theorem eraseTrailing_of_clean (v : Str) (h1 : '\n' ∉ v)
    (h2 : ∀ c, v.getLast? = some c → c ≠ ' ' ∧ c ≠ '\t' ∧ c ≠ '\r') : eraseTrailing v = v := by
  rcases List.eq_nil_or_concat v with h | ⟨init, last, h⟩
  · rw [h]; rfl
  · rw [List.concat_eq_append] at h
    subst h
    have hl := h2 last (by simp)
    have hn : last ≠ '\n' := fun e => h1 (by simp [e])
    apply eraseTrailing_clean
    simp [isTrimChar, hl.1, hl.2.1, hl.2.2, hn]

theorem decodeEntries_single (s k v : Str) (hs1 : ']' ∉ s) (hs2 : '\n' ∉ s) (hk1 : '=' ∉ k)
    (hk2 : '\n' ∉ k) (hv : '\n' ∉ v) :
    decodeEntries (['['] ++ s ++ [']'] ++ k ++ ['='] ++ v ++ ['\n']) =
      [(s, k, eraseTrailing v)] := by
  have hnl : '\n' ∉ '[' :: (s ++ ']' :: (k ++ '=' :: v)) := by
    simp only [List.mem_cons, List.mem_append, not_or]
    exact ⟨by decide, hs2, by decide, hk2, by decide, hv⟩
  have hb : ['['] ++ s ++ [']'] ++ k ++ ['='] ++ v ++ ['\n'] =
      ('[' :: (s ++ ']' :: (k ++ '=' :: v))) ++ '\n' :: [] := by simp
  unfold decodeEntries
  rw [hb, getlines_line _ _ hnl, getlines_nil, List.filterMap_cons, parseLine_entry _ _ _ hs1 hk1]
  rfl

/-- C11: for every store, a body made of the one line `[S]K=V` with its newline,
where `S` has no `]` or newline, `K` no `=` or newline, and `V` no newline and no
trailing space, tab or carriage return, makes `update_config_from_string` report
exactly one update when the value read before differs from `V`, and the value
read afterwards is `V`. -/
theorem single_entry_push (st : ConfigData) (s k v : Str) (hs1 : ']' ∉ s) (hs2 : '\n' ∉ s)
    (hk1 : '=' ∉ k) (hk2 : '\n' ∉ k) (hv1 : '\n' ∉ v)
    (hv2 : ∀ c, v.getLast? = some c → c ≠ ' ' ∧ c ≠ '\t' ∧ c ≠ '\r')
    (hdiff : get_config_value st s k [] ≠ v) :
    (update_config_from_string st (['['] ++ s ++ [']'] ++ k ++ ['='] ++ v ++ ['\n'])).2 = 1 ∧
      get_config_value
        (update_config_from_string st (['['] ++ s ++ [']'] ++ k ++ ['='] ++ v ++ ['\n'])).1
        s k [] = v := by
  rw [update_config_from_string_eq, decodeEntries_single s k v hs1 hs2 hk1 hk2 hv1,
    eraseTrailing_of_clean v hv1 hv2]
  unfold applyEntries
  rw [List.foldl_cons, List.foldl_nil]
  refine ⟨?_, ?_⟩
  · unfold applyEntry
    simp only [hdiff, ne_eq, not_false_eq_true, if_true]
  · rw [get_applyEntry]
    simp

/-- Witness of C11: the body `[NETWORK]PORT=9100\n` against the store in which
`NETWORK`/`PORT` is `9000`. -/
theorem single_entry_push_witness :
    ']' ∉ "NETWORK".toList ∧ '\n' ∉ "NETWORK".toList ∧ '=' ∉ "PORT".toList ∧
    '\n' ∉ "PORT".toList ∧ '\n' ∉ "9100".toList ∧
    (∀ c, "9100".toList.getLast? = some c → c ≠ ' ' ∧ c ≠ '\t' ∧ c ≠ '\r') ∧
    get_config_value networkPortStore "NETWORK".toList "PORT".toList [] ≠ "9100".toList ∧
    (update_config_from_string networkPortStore
      (['['] ++ "NETWORK".toList ++ [']'] ++ "PORT".toList ++ ['='] ++ "9100".toList ++ ['\n'])).2
        = 1 ∧
    get_config_value
      (update_config_from_string networkPortStore
        (['['] ++ "NETWORK".toList ++ [']'] ++ "PORT".toList ++ ['='] ++ "9100".toList ++
          ['\n'])).1
      "NETWORK".toList "PORT".toList [] = "9100".toList := by
  have hl : ∀ c, "9100".toList.getLast? = some c → c ≠ ' ' ∧ c ≠ '\t' ∧ c ≠ '\r' := by
    intro c hc
    have : c = '0' := by
      have h0 : "9100".toList.getLast? = some '0' := by decide
      rw [h0] at hc
      exact (Option.some.inj hc).symm
    subst this
    decide
  have h := single_entry_push networkPortStore "NETWORK".toList "PORT".toList "9100".toList
    (by decide) (by decide) (by decide) (by decide) (by decide) hl (by decide)
  exact ⟨by decide, by decide, by decide, by decide, by decide, hl, by decide, h.1, h.2⟩

/-! ## Lines the parser skips -/

theorem findIdx_eq_none_iff (c : Char) : ∀ (xs : Str) (i : Nat), findIdx c xs i = none ↔ c ∉ xs
  | [], _ => by simp [findIdx]
  | x :: xs, i => by
    rw [findIdx_cons]
    by_cases h : x = c
    · simp [h]
    · rw [if_neg h, findIdx_eq_none_iff c xs (i + 1)]
      have : ¬ c = x := fun e => h e.symm
      simp [this]

theorem dropWhile_ne_cons_eq (c x : Char) (xs : Str) (h : x = c) :
    (x :: xs).dropWhile (fun y => decide (y ≠ c)) = x :: xs := by
  rw [List.dropWhile_cons, if_neg (by simp [h])]

theorem dropWhile_ne_cons_ne (c x : Char) (xs : Str) (h : x ≠ c) :
    (x :: xs).dropWhile (fun y => decide (y ≠ c)) = xs.dropWhile (fun y => decide (y ≠ c)) := by
  rw [List.dropWhile_cons, if_pos (decide_eq_true h)]

/-- The index `findIdx` returns is where the scan for `c` stops. -/
theorem findIdx_eq_some (c : Char) : ∀ (xs : Str) (i p : Nat), findIdx c xs i = some p →
    i ≤ p ∧ xs.drop (p - i) = xs.dropWhile (fun x => decide (x ≠ c))
  | [], _, _, h => by simp [findIdx] at h
  | x :: xs, i, p, h => by
    rw [findIdx_cons] at h
    by_cases hx : x = c
    · rw [if_pos hx] at h
      have hp : i = p := Option.some.inj h
      subst hp
      rw [dropWhile_ne_cons_eq c x xs hx]
      simp
    · rw [if_neg hx] at h
      obtain ⟨h1, h2⟩ := findIdx_eq_some c xs (i + 1) p h
      refine ⟨by omega, ?_⟩
      have : p - i = (p - (i + 1)) + 1 := by omega
      rw [this, List.drop_succ_cons, h2, dropWhile_ne_cons_ne c x xs hx]

theorem dropWhile_ne_of_mem (c : Char) : ∀ (xs : Str), c ∈ xs →
    ∃ rest, xs.dropWhile (fun x => decide (x ≠ c)) = c :: rest
  | [], h => by cases h
  | x :: xs, h => by
    by_cases hx : x = c
    · exact ⟨xs, by rw [dropWhile_ne_cons_eq c x xs hx, hx]⟩
    · have hm : c ∈ xs := by
        rcases List.mem_cons.mp h with h | h
        · exact absurd h.symm hx
        · exact h
      obtain ⟨rest, hr⟩ := dropWhile_ne_of_mem c xs hm
      exact ⟨rest, by rw [dropWhile_ne_cons_ne c x xs hx, hr]⟩

/-- The lines the leniency rule describes are exactly the lines the parser
skips. -/
theorem parseLine_eq_none_iff (l : Str) : parseLine l = none ↔ malformedLine l = true := by
  unfold malformedLine
  rw [decide_eq_true_iff]
  cases l with
  | nil => simp [parseLine]
  | cons c0 t =>
    by_cases h0 : c0 = '['
    · subst h0
      unfold parseLine
      simp only [ne_eq, not_true_eq_false, if_false]
      cases hf : find ('[' :: t) ']' 0 with
      | none =>
        have : ']' ∉ '[' :: t := by
          unfold find at hf
          rw [List.drop_zero] at hf
          exact (findIdx_eq_none_iff _ _ _).mp hf
        simp only [true_iff]
        exact Or.inr (Or.inr (Or.inl this))
      | some p =>
        have hf2 := hf
        unfold find at hf2
        rw [List.drop_zero] at hf2
        have hmem : ']' ∈ '[' :: t := by
          by_contra hn
          rw [(findIdx_eq_none_iff _ _ _).mpr hn] at hf2
          cases hf2
        obtain ⟨_, hdrop⟩ := findIdx_eq_some _ _ _ _ hf2
        rw [Nat.sub_zero] at hdrop
        obtain ⟨rest, hrest⟩ := dropWhile_ne_of_mem ']' _ hmem
        cases hg : find ('[' :: t) '=' p with
        | none =>
          simp only [hg, true_iff]
          refine Or.inr (Or.inr (Or.inr ?_))
          unfold find at hg
          rw [hdrop, hrest] at hg
          have := (findIdx_eq_none_iff _ _ _).mp hg
          show '=' ∉ List.drop 1 (List.dropWhile (fun c => decide (c ≠ ']')) ('[' :: t))
          rw [hrest]
          exact fun hm => this (List.mem_cons_of_mem _ (by simpa using hm))
        | some q =>
          simp only [hg, false_iff, reduceCtorEq]
          rintro (h | h | h | h)
          · cases h
          · exact h rfl
          · exact h hmem
          · unfold find at hg
            rw [hdrop, hrest] at hg
            have h : '=' ∉ List.drop 1 (List.dropWhile (fun c => decide (c ≠ ']')) ('[' :: t)) := h
            rw [hrest] at h
            have hin : '=' ∈ ']' :: rest := by
              by_contra hn
              rw [(findIdx_eq_none_iff _ _ _).mpr hn] at hg
              cases hg
            rcases List.mem_cons.mp hin with hh | hh
            · revert hh; decide
            · exact h (by simpa using hh)
    · have hp : parseLine (c0 :: t) = none := by
        unfold parseLine
        simp [h0]
      rw [hp]
      simp only [true_iff]
      exact Or.inr (Or.inl (by simp [h0]))

theorem getlinesAux_no_newline : ∀ (data acc : Str), '\n' ∉ acc →
    ∀ l ∈ getlinesAux data acc, '\n' ∉ l
  | [], acc, hacc, l, hl => by
    unfold getlinesAux at hl
    by_cases h : acc = []
    · rw [if_pos h] at hl; cases hl
    · rw [if_neg h] at hl
      rw [List.mem_singleton.mp hl]
      exact hacc
  | c :: cs, acc, hacc, l, hl => by
    rw [getlinesAux_cons] at hl
    by_cases h : c = '\n'
    · rw [if_pos h] at hl
      rcases List.mem_cons.mp hl with hl | hl
      · rw [hl]; exact hacc
      · exact getlinesAux_no_newline cs [] (by simp) l hl
    · rw [if_neg h] at hl
      refine getlinesAux_no_newline cs (acc ++ [c]) ?_ l hl
      intro hm
      rcases List.mem_append.mp hm with hm | hm
      · exact hacc hm
      · exact h (List.mem_singleton.mp hm).symm

theorem getlines_no_newline (data : Str) : ∀ l ∈ getlines data, '\n' ∉ l :=
  getlinesAux_no_newline data [] (by simp)

/-- Lines written back each with its newline are read back as they were. -/
theorem getlines_flatMap (ls : List Str) (h : ∀ l ∈ ls, '\n' ∉ l) :
    getlines (ls.flatMap (fun l => l ++ ['\n'])) = ls := by
  induction ls with
  | nil => rfl
  | cons l ls ih =>
    rw [List.flatMap_cons, List.append_assoc, List.singleton_append,
      getlines_line _ _ (h l (by simp)), ih (fun l2 hl2 => h l2 (by simp [hl2]))]

theorem filterMap_parseLine_filter (ls : List Str) :
    (ls.filter (fun l => !malformedLine l)).filterMap parseLine = ls.filterMap parseLine := by
  induction ls with
  | nil => rfl
  | cons l ls ih =>
    cases hm : malformedLine l with
    | true =>
      have hp : parseLine l = none := (parseLine_eq_none_iff l).mpr hm
      rw [List.filter_cons_of_neg (by simp [hm]), List.filterMap_cons, hp]
      exact ih
    | false =>
      rw [List.filter_cons_of_pos (by simp [hm]), List.filterMap_cons, List.filterMap_cons, ih]

theorem decodeEntries_removeMalformedLines (data : Str) :
    decodeEntries (removeMalformedLines data) = decodeEntries data := by
  unfold decodeEntries removeMalformedLines
  rw [getlines_flatMap _ (fun l hl => getlines_no_newline data l (List.mem_of_mem_filter hl)),
    filterMap_parseLine_filter]

/-- C12: `update_config_from_string` gives the same store and the same update
count on a body as on the body with every malformed line removed (a line that is
empty, does not start with `[`, has no `]`, or has no `=` after its first `]`);
one such line leaves the store and the count as they are, and the result is that
of applying the entries of the other lines. -/
theorem decode_leniency (st : ConfigData) (data : Str) :
    update_config_from_string st data = update_config_from_string st (removeMalformedLines data) ∧
      (∀ (acc : ConfigData × Nat) (l : Str), malformedLine l = true → processLine acc l = acc) ∧
      update_config_from_string st data =
        applyEntries st
          (((getlines data).filter (fun l => !malformedLine l)).filterMap parseLine) := by
  refine ⟨?_, ?_, ?_⟩
  · rw [update_config_from_string_eq, update_config_from_string_eq,
      decodeEntries_removeMalformedLines]
  · intro acc l hl
    unfold processLine
    rw [(parseLine_eq_none_iff l).mpr hl]
  · rw [update_config_from_string_eq, filterMap_parseLine_filter]
    rfl

/-- Witness of C12: a body with two malformed lines between two well-formed
ones, and the malformed line `noise`. -/
theorem decode_leniency_witness :
    malformedLine "noise".toList = true ∧
    removeMalformedLines lenientBody = "[A]K=1\n[B]K=2\n".toList ∧
    update_config_from_string networkPortStore lenientBody =
      update_config_from_string networkPortStore (removeMalformedLines lenientBody) ∧
    processLine (networkPortStore, 0) "noise".toList = (networkPortStore, 0) := by
  have h := decode_leniency networkPortStore lenientBody
  exact ⟨by decide, by decide, h.1, h.2.1 (networkPortStore, 0) "noise".toList (by decide)⟩

/-! ## A read that fails inside the header

The header loop is left in the same way on a newline and on a `recv` that
returns no byte, and the test after it looks only at the emptiness of `header`
and at the shutdown flag. When one `recv` fails in the middle of the header
line, the bytes read so far are parsed as the whole header and the rest of the
line is taken for the beginning of the body. The theorems of this section
evaluate `handle_client_connection` on such streams. -/

/-- C3: a `recv` failing inside the header makes the handler apply an incomplete
body. The peer sends the header `7`, stalls until one `recv` has failed, and then
sends the newline and the six bytes `[A]B=C` before closing. The header declares
7 body bytes and only 6 follow its terminator, yet the handler takes the newline
for the first body byte, applies the body and sets `A`/`B` to `C`. -/
theorem stalled_header_partial_application :
    stoull "7".toList = Except.ok 7 ∧
    "[A]B=C".toList.length < 7 ∧
    "\n[A]B=C".toList = '\n' :: "[A]B=C".toList ∧
    (handle_client_connection 64 neverShutdown networkPortStore
      (stalledConn "7".toList "\n[A]B=C".toList)).outcome = Outcome.applied ∧
    (handle_client_connection 64 neverShutdown networkPortStore
      (stalledConn "7".toList "\n[A]B=C".toList)).updates = 1 ∧
    (handle_client_connection 64 neverShutdown networkPortStore
      (stalledConn "7".toList "\n[A]B=C".toList)).store =
        set_config_value networkPortStore "A".toList "B".toList "C".toList ∧
    (handle_client_connection 64 neverShutdown networkPortStore
      (stalledConn "7".toList "\n[A]B=C".toList)).store ≠ networkPortStore := by
  decide

/-- The header of twenty digits `9` is above `ULLONG_MAX` and `std::stoull`
throws on it; when one `recv` fails after its first two digits the handler takes
99 for the length and goes on to read a body. -/
theorem stalled_header_prefix_parsed :
    stoull "99999999999999999999".toList = Except.error StoullError.out_of_range ∧
    (handle_client_connection 64 neverShutdown networkPortStore
      (stalledConn "99".toList "999999999999999999\n[A]B=C\n".toList)).outcome =
        Outcome.bodyReadFailed ∧
    (handle_client_connection 64 neverShutdown networkPortStore
      (stalledConn "99".toList "999999999999999999\n[A]B=C\n".toList)).conn.incoming = [] := by
  decide

/-- C6: two frames whose header declares more than `MAX_MESSAGE_SIZE` and which
are not rejected as oversized. When one `recv` fails after the first digit of
the header `1048577`, the handler takes 1 for the length and reads a body byte.
Where `size_t` has 32 bits the header `4294967303` becomes the length 7, and the
7 bytes that follow are read and applied. -/
theorem oversized_frame_not_rejected :
    stoull "1048577".toList = Except.ok 1048577 ∧
    MAX_MESSAGE_SIZE < 1048577 ∧
    (handle_client_connection 64 neverShutdown networkPortStore
      (stalledConn "1".toList "048577\nxyz".toList)).outcome = Outcome.applied ∧
    (handle_client_connection 64 neverShutdown networkPortStore
      (stalledConn "1".toList "048577\nxyz".toList)).conn.incoming =
        [RecvEvent.data "48577\nxyz".toList] ∧
    stoull "4294967303".toList = Except.ok 4294967303 ∧
    MAX_MESSAGE_SIZE < 4294967303 ∧
    (handle_client_connection 32 neverShutdown networkPortStore
      (connOf ["4294967303\n[A]B=C\n".toList])).outcome = Outcome.applied ∧
    (handle_client_connection 32 neverShutdown networkPortStore
      (connOf ["4294967303\n[A]B=C\n".toList])).store =
        set_config_value networkPortStore "A".toList "B".toList "C".toList ∧
    (handle_client_connection 32 neverShutdown networkPortStore
      (connOf ["4294967303\n[A]B=C\n".toList])).store ≠ networkPortStore := by
  decide

/-- C7: a stream of 25 bytes without any newline that is not rejected for the
length of its header. The peer sends `7`, stalls until one `recv` has failed,
and then sends `[A]B=C` and eighteen letters `x`. The handler parses `7` as the
length, reads the next 7 bytes as the body and sets `A`/`B` to `Cx`. -/
theorem stalled_long_header_parsed :
    '\n' ∉ "7".toList ++ "[A]B=Cxxxxxxxxxxxxxxxxxx".toList ∧
    MAX_HEADER_LENGTH + 1 ≤ ("7".toList ++ "[A]B=Cxxxxxxxxxxxxxxxxxx".toList).length ∧
    (handle_client_connection 64 neverShutdown networkPortStore
      (stalledConn "7".toList "[A]B=Cxxxxxxxxxxxxxxxxxx".toList)).outcome = Outcome.applied ∧
    (handle_client_connection 64 neverShutdown networkPortStore
      (stalledConn "7".toList "[A]B=Cxxxxxxxxxxxxxxxxxx".toList)).outcome ≠
        Outcome.headerTooLong ∧
    (handle_client_connection 64 neverShutdown networkPortStore
      (stalledConn "7".toList "[A]B=Cxxxxxxxxxxxxxxxxxx".toList)).store =
        set_config_value networkPortStore "A".toList "B".toList "Cx".toList ∧
    (handle_client_connection 64 neverShutdown networkPortStore
      (stalledConn "7".toList "[A]B=Cxxxxxxxxxxxxxxxxxx".toList)).store ≠ networkPortStore := by
  decide

/-! ## The two threads -/

theorem run_cons (op : ReaderOp) (t : Tid) (ts : List Tid) (w : World) :
    run op (t :: ts) w =
      match step op t w with
      | some w2 => run op ts w2
      | none => run op ts w := rfl

theorem run_append (op : ReaderOp) : ∀ (a b : List Tid) (w : World),
    run op (a ++ b) w = run op b (run op a w)
  | [], _, _ => rfl
  | t :: a, b, w => by
    rw [List.cons_append, run_cons, run_cons]
    cases step op t w with
    | none => exact run_append op a b w
    | some w2 => exact run_append op a b w2

/-- Left alone, the updater takes one line through the loop body as
`processLine` does. -/
theorem updater_line (op : ReaderOp) (s : ConfigData) (l : Str) (rest : List Str) (c : Nat)
    (r : ReaderPc) :
    ∃ n, run op (List.replicate n Tid.updater) ⟨s, none, l :: rest, c, UpdaterPc.loopHead, r⟩ =
      ⟨(processLine (s, c) l).1, none, rest, (processLine (s, c) l).2, UpdaterPc.loopHead, r⟩ := by
  cases hp : parseLine l with
  | none =>
    refine ⟨1, ?_⟩
    simp [List.replicate, run, step, stepUpdater, hp, processLine]
  | some e =>
    by_cases hg : get_config_value s e.1 e.2.1 [] = e.2.2
    · refine ⟨5, ?_⟩
      simp [List.replicate, run, step, stepUpdater, hp, processLine, applyEntry, hg]
    · refine ⟨8, ?_⟩
      simp [List.replicate, run, step, stepUpdater, hp, processLine, applyEntry, hg]

/-- Left alone, the updater ends with the store and the count
`update_config_from_string` computes: the step machine refines the function. -/
theorem updater_alone (op : ReaderOp) : ∀ (ls : List Str) (s : ConfigData) (c : Nat)
    (r : ReaderPc),
    ∃ n, run op (List.replicate n Tid.updater) ⟨s, none, ls, c, UpdaterPc.loopHead, r⟩ =
      ⟨(ls.foldl processLine (s, c)).1, none, [], (ls.foldl processLine (s, c)).2,
        UpdaterPc.finished, r⟩
  | [], s, c, r => ⟨1, by simp [List.replicate, run, step, stepUpdater]⟩
  | l :: rest, s, c, r => by
    obtain ⟨n1, h1⟩ := updater_line op s l rest c r
    obtain ⟨n2, h2⟩ := updater_alone op rest (processLine (s, c) l).1 (processLine (s, c) l).2 r
    refine ⟨n1 + n2, ?_⟩
    rw [List.replicate_add, run_append, h1, h2]
    rfl

theorem updater_alone_update (op : ReaderOp) (st : ConfigData) (data : Str) :
    ∃ n, run op (List.replicate n Tid.updater) (startWorld st data) =
      ⟨(update_config_from_string st data).1, none, [], (update_config_from_string st data).2,
        UpdaterPc.finished, ReaderPc.lockGuard⟩ :=
  updater_alone op (getlines data) st 0 ReaderPc.lockGuard

theorem mutexInv_startWorld (st : ConfigData) (data : Str) : MutexInv (startWorld st data) := by
  constructor <;> simp [startWorld, UpdaterPc.inCriticalSection, ReaderPc.inCriticalSection]

theorem mutexInv_stepUpdater (w w2 : World) (h : MutexInv w) (hs : stepUpdater w = some w2) :
    MutexInv w2 := by
  obtain ⟨s, m, ls, c, u, r⟩ := w
  obtain ⟨h1, h2⟩ := h
  simp only at h1 h2
  unfold stepUpdater at hs
  cases u with
  | loopHead =>
    simp only at hs
    cases ls with
    | nil =>
      simp only [Option.some.injEq] at hs
      subst hs
      exact ⟨by simpa [UpdaterPc.inCriticalSection] using h1, h2⟩
    | cons l rest =>
      simp only at hs
      cases hp : parseLine l with
      | none =>
        simp only [hp, Option.some.injEq] at hs
        subst hs
        exact ⟨h1, h2⟩
      | some e =>
        simp only [hp, Option.some.injEq] at hs
        subst hs
        exact ⟨by simpa [UpdaterPc.inCriticalSection] using h1, h2⟩
  | getLockGuard e =>
    simp only at hs
    cases m with
    | some t => simp at hs
    | none =>
      simp only [Option.some.injEq] at hs
      subst hs
      refine ⟨by simp [UpdaterPc.inCriticalSection], ?_⟩
      simp only [reduceCtorEq, false_iff] at h2 ⊢
      simpa using h2
  | getBody e =>
    simp only [Option.some.injEq] at hs
    subst hs
    exact ⟨by simpa [UpdaterPc.inCriticalSection] using h1, h2⟩
  | getUnlock e old =>
    simp only [Option.some.injEq] at hs
    subst hs
    have hm : m = some Tid.updater := h1.mpr rfl
    subst hm
    refine ⟨by simp [UpdaterPc.inCriticalSection], ?_⟩
    simp only [reduceCtorEq, false_iff] at h2 ⊢
    simpa using h2
  | compare e old =>
    simp only at hs
    split at hs
    · simp only [Option.some.injEq] at hs
      subst hs
      exact ⟨by simpa [UpdaterPc.inCriticalSection] using h1, h2⟩
    · simp only [Option.some.injEq] at hs
      subst hs
      exact ⟨by simpa [UpdaterPc.inCriticalSection] using h1, h2⟩
  | setLockGuard e =>
    simp only at hs
    cases m with
    | some t => simp at hs
    | none =>
      simp only [Option.some.injEq] at hs
      subst hs
      refine ⟨by simp [UpdaterPc.inCriticalSection], ?_⟩
      simp only [reduceCtorEq, false_iff] at h2 ⊢
      simpa using h2
  | setBody e =>
    simp only [Option.some.injEq] at hs
    subst hs
    exact ⟨by simpa [UpdaterPc.inCriticalSection] using h1, h2⟩
  | setUnlock e =>
    simp only [Option.some.injEq] at hs
    subst hs
    have hm : m = some Tid.updater := h1.mpr rfl
    subst hm
    refine ⟨by simp [UpdaterPc.inCriticalSection], ?_⟩
    simp only [reduceCtorEq, false_iff] at h2 ⊢
    simpa using h2
  | finished => simp at hs

theorem mutexInv_stepReader (op : ReaderOp) (w w2 : World) (h : MutexInv w)
    (hs : stepReader op w = some w2) : MutexInv w2 := by
  obtain ⟨s, m, ls, c, u, r⟩ := w
  obtain ⟨h1, h2⟩ := h
  simp only at h1 h2
  unfold stepReader at hs
  cases r with
  | lockGuard =>
    simp only at hs
    cases m with
    | some t => simp at hs
    | none =>
      simp only [Option.some.injEq] at hs
      subst hs
      refine ⟨?_, by simp [ReaderPc.inCriticalSection]⟩
      simp only [reduceCtorEq, false_iff] at h1 ⊢
      simpa using h1
  | body =>
    simp only [Option.some.injEq] at hs
    subst hs
    exact ⟨h1, by simpa [ReaderPc.inCriticalSection] using h2⟩
  | unlock res =>
    simp only [Option.some.injEq] at hs
    subst hs
    have hm : m = some Tid.reader := h2.mpr rfl
    subst hm
    refine ⟨?_, by simp [ReaderPc.inCriticalSection]⟩
    simp only [reduceCtorEq, false_iff] at h1 ⊢
    simpa using h1
  | returned res => simp at hs

theorem mutexInv_run (op : ReaderOp) : ∀ (sched : List Tid) (w : World), MutexInv w →
    MutexInv (run op sched w)
  | [], _, h => h
  | t :: ts, w, h => by
    rw [run_cons]
    cases hs : step op t w with
    | none => exact mutexInv_run op ts w h
    | some w2 =>
      refine mutexInv_run op ts w2 ?_
      cases t with
      | updater => exact mutexInv_stepUpdater w w2 h hs
      | reader => exact mutexInv_stepReader op w w2 h hs

/-- The mutex excludes: under no schedule are the two threads in a critical
section at the same time. -/
theorem mutual_exclusion (op : ReaderOp) (sched : List Tid) (st : ConfigData) (data : Str) :
    ¬ ((run op sched (startWorld st data)).updaterPc.inCriticalSection = true ∧
        (run op sched (startWorld st data)).readerPc.inCriticalSection = true) := by
  have h := mutexInv_run op sched _ (mutexInv_startWorld st data)
  rintro ⟨hu, hr⟩
  have a := h.1.mpr hu
  have b := h.2.mpr hr
  rw [a] at b
  cases b

/-! ## A reader between two entries of one body -/

/-- The reader does not get past the construction of its `lock_guard` while the
updater is inside `set_config_value`. -/
theorem reader_waits_for_mutex :
    (run ReaderOp.serialize readerDuringFirstSet (startWorld [] twoEntriesBody)).readerPc =
      ReaderPc.lockGuard ∧
    (run ReaderOp.serialize readerDuringFirstSet (startWorld [] twoEntriesBody)).g_config_mutex =
      some Tid.updater := by
  decide

/-- C13: a `serialize_config` that runs while `update_config_from_string` is
between two entries returns a store holding only the first of them. The body
has the two lines `[A]K=1` and `[B]K=2` and the store is empty. After eight
steps the updater has left its first `set_config_value` and given the mutex
back; the reader then takes the mutex, serialises and returns `7\n[A]K=1\n`
while the updater still has a line to go. That frame is neither the frame of
the store before the call nor the frame of the store the call ends with. -/
theorem reader_sees_partial_update :
    (run ReaderOp.serialize (List.replicate 8 Tid.updater)
      (startWorld [] twoEntriesBody)).g_config_mutex = none ∧
    (run ReaderOp.serialize (List.replicate 8 Tid.updater ++ List.replicate 3 Tid.reader)
      (startWorld [] twoEntriesBody)).updaterPc = UpdaterPc.loopHead ∧
    (run ReaderOp.serialize (List.replicate 8 Tid.updater ++ List.replicate 3 Tid.reader)
      (startWorld [] twoEntriesBody)).lines = ["[B]K=2".toList] ∧
    (run ReaderOp.serialize (List.replicate 8 Tid.updater ++ List.replicate 3 Tid.reader)
      (startWorld [] twoEntriesBody)).readerPc = ReaderPc.returned "7\n[A]K=1\n".toList ∧
    (run ReaderOp.serialize readerAfterFirstSet (startWorld [] twoEntriesBody)).updaterPc =
      UpdaterPc.finished ∧
    (run ReaderOp.serialize readerAfterFirstSet (startWorld [] twoEntriesBody)).readerPc =
      ReaderPc.returned "7\n[A]K=1\n".toList ∧
    (run ReaderOp.serialize readerAfterFirstSet (startWorld [] twoEntriesBody)).g_config_data =
      (update_config_from_string [] twoEntriesBody).1 ∧
    "7\n[A]K=1\n".toList = serialize_config firstEntryOnlyStore ∧
    "7\n[A]K=1\n".toList ≠ serialize_config [] ∧
    "7\n[A]K=1\n".toList ≠ serialize_config (update_config_from_string [] twoEntriesBody).1 := by
  decide

end ConfigSynchronizer
